import Mathlib

/-!
# Shallow-water solver: kernels, boundary/source injection, bathymetry interpolation

A shallow embedding of `shallow.c` (serial reference program) and
`source/OMP/shallow_omp.c` (OpenMP program), with the data layout of
`shallow_mpi.h`.

Conventions of the embedding.

* `double` is an arbitrary field `α` (exact arithmetic); the libm functions `sin`,
  `sqrt` and the constant `M_PI` are parameters of the functions that use them.  Where
  rounding decides which cell is read (the bathymetry interpolation), the rounding of
  the result of a `double` operation is a parameter `fl` too, and `binary64_round` is
  the rounding of IEEE 754 binary64 on `ℚ`.
* `int` is `Int`; the flat index of a recorded memory access (`access.flat`) is
  computed in 32-bit `int` arithmetic, as the macros `GET` and `SET` compute it.
* A `double *` buffer is a total map `Int → α` from the flat C index to the value
  stored there; `GET`/`SET` compute the flat index `nx * j + i` as the macros do.
* A `for (int k = 0; k < n; k++)` loop is `loop n body`.  The OpenMP pragmas are
  elided: the loops of the OMP program run in their sequential order.
-/

set_option autoImplicit false

/-! ## Data layout (`shallow_mpi.h`) -/

/-- Grid data structure `data_t` / `struct data`: the buffer `vals`, the extents
`nx`, `ny` and the spacings `dx`, `dy`. -/
structure data (α : Type) where
  vals : Int → α
  nx : Int
  ny : Int
  dx : α
  dy : α

/-- Simulation parameters `parameters_t` / `struct parameters` (file names omitted). -/
structure parameters (α : Type) where
  dx : α
  dy : α
  dt : α
  max_t : α
  g : α
  gamma : α
  source_type : Int
  boundary_type : Int
  sampling_rate : Int

/-- Combined simulation data `all_data_t`. -/
structure all_data_t (α : Type) where
  u : data α
  v : data α
  eta : data α
  h : data α
  h_interp : data α

/-- The macro `GET(data, i, j)`, i.e. `data->vals[data->nx * j + i]`. -/
def GET {α : Type} (d : data α) (i j : Int) : α :=
  d.vals (d.nx * j + i)

/-- The macro `SET(data, i, j, val)`, i.e. `data->vals[data->nx * j + i] = val`. -/
def SET {α : Type} (d : data α) (i j : Int) (val : α) : data α :=
  { d with vals := Function.update d.vals (d.nx * j + i) val }

/-- The loop `for (int k = 0; k < n; k++) body(k)` acting on a state `σ`. -/
def loop {σ : Type} (n : Int) (body : Int → σ → σ) (s : σ) : σ :=
  (List.range n.toNat).foldl (fun acc (k : Nat) => body (k : Int) acc) s

/-- The conversion `(int) r` of a `double` to `int`: truncation toward zero. -/
def c_int_cast {α : Type} [LinearOrderedField α] [FloorRing α] (r : α) : Int :=
  if 0 ≤ r then ⌊r⌋ else ⌈r⌉

/-- The integer nearest to `t`, a tie going to the even neighbour. -/
def round_half_even (t : ℚ) : Int :=
  if t - ⌊t⌋ < 1 / 2 then ⌊t⌋
  else if 1 / 2 < t - ⌊t⌋ then ⌊t⌋ + 1
  else if ⌊t⌋ % 2 = 0 then ⌊t⌋ else ⌊t⌋ + 1

/-- The `double` (IEEE 754 binary64, round to nearest, ties to even) that an operation
with the exact result `q` returns: `q` is rounded to 53 significant bits, or to a
multiple of `2^-1074` in the subnormal range.  Results beyond the largest `double`,
which overflow to infinity, are outside this model. -/
def binary64_round (q : ℚ) : ℚ :=
  if q = 0 then 0 else
    let e : Int := max (Int.log 2 |q| - 52) (-1074)
    (if q < 0 then -1 else 1) * ((round_half_even (|q| / 2 ^ e) : Int) : ℚ) * 2 ^ e

/-- Observable output of `main`: the console messages and the files written. -/
inductive event (α : Type) where
  /-- The message `Computing step n/nt (ETA: ...)`. -/
  | progress (n nt : Int)
  /-- The call `write_data_vtk(eta, "water elevation", output_eta_filename, n)`. -/
  | write_data_vtk (eta : data α) (n : Int)
  /-- The message `Error: Unknown source type source_type`. -/
  | unknown_source_type (source_type : Int)
  /-- The call `write_manifest_vtk(output_eta_filename, dt, nt, sampling_rate)`. -/
  | write_manifest_vtk (nt sampling_rate : Int)
  /-- The message `Done: ... seconds`. -/
  | done

/-- How a run of `main` ends. -/
inductive termination where
  /-- The statement `return status;` of `main`. -/
  | returned (status : Int)
  /-- The call `exit(status)`. -/
  | exited (status : Int)
  /-- An integer `%` whose divisor is zero (no result is defined). -/
  | mod_by_zero
  deriving DecidableEq, Repr

/-- State of `main` during and after the time-step loop: the fields, the output
produced so far, and how the run ended once it has. -/
structure run (α : Type) where
  all_data : all_data_t α
  out : List (event α)
  halted : Option termination

/-! ## Serial program (`shallow.c`) -/

namespace Serial

/-- Serial `interpolate_data` (`shallow.c`, lines 4-19), returning the value together
with the list of index pairs `(i, j)` it reads through `GET`. -/
def interpolate_data_traced {α : Type} [LinearOrderedField α] [FloorRing α]
    (d : data α) (x y : α) : α × List (Int × Int) :=
  let i := c_int_cast (x / d.dx)
  let j := c_int_cast (y / d.dy)
  let i := if i < 0 then 0 else if i > d.nx - 1 then d.nx - 1 else i
  let j := if j < 0 then 0 else if j > d.ny - 1 then d.ny - 1 else j
  (GET d i j, [(i, j)])

/-- Serial `interpolate_data` (`shallow.c`, lines 4-19). -/
def interpolate_data {α : Type} [LinearOrderedField α] [FloorRing α]
    (d : data α) (x y : α) : α :=
  (interpolate_data_traced d x y).1

/-- Serial `interpolate_data` (`shallow.c`, lines 4-19) in `double` arithmetic: `fl`
rounds the result of each `double` operation, here the quotients `x / data->dx` and
`y / data->dy`.  With `fl` the identity this is `interpolate_data`. -/
def interpolate_data_fl {α : Type} [LinearOrderedField α] [FloorRing α] (fl : α → α)
    (d : data α) (x y : α) : α :=
  let i := c_int_cast (fl (x / d.dx))
  let j := c_int_cast (fl (y / d.dy))
  let i := if i < 0 then 0 else if i > d.nx - 1 then d.nx - 1 else i
  let j := if j < 0 then 0 else if j > d.ny - 1 then d.ny - 1 else j
  GET d i j

/-- Body of the double loop of the serial `update_eta` (`shallow.c`, lines 33-38). -/
def update_eta_body {α : Type} [Field α] (param : parameters α)
    (u v h_interp : data α) (i j : Int) (eta : data α) : data α :=
  let h_ij := GET h_interp i j
  let c1 := param.dt * h_ij
  let eta_ij := GET eta i j
    - c1 / param.dx * (GET u (i + 1) j - GET u i j)
    - c1 / param.dy * (GET v i (j + 1) - GET v i j)
  SET eta i j eta_ij

/-- Serial `update_eta` (`shallow.c`, lines 22-41); only `eta` is written, and the
updated `eta` is returned. -/
def update_eta {α : Type} [Field α] (nx ny : Int) (param : parameters α)
    (u v eta h_interp : data α) : data α :=
  loop nx (fun i eta => loop ny (fun j eta => update_eta_body param u v h_interp i j eta) eta) eta

/-- Body of the double loop of the serial `update_velocities` (`shallow.c`,
lines 52-62), acting on the pair `(u, v)`. -/
def update_velocities_body {α : Type} [Field α] (param : parameters α)
    (eta : data α) (i j : Int) (uv : data α × data α) : data α × data α :=
  let c1 := param.dt * param.g
  let c2 := param.dt * param.gamma
  let eta_ij := GET eta i j
  let eta_imj := GET eta (if i = 0 then 0 else i - 1) j
  let eta_ijm := GET eta i (if j = 0 then 0 else j - 1)
  let u_ij := (1 - c2) * GET uv.1 i j - c1 / param.dx * (eta_ij - eta_imj)
  let v_ij := (1 - c2) * GET uv.2 i j - c1 / param.dy * (eta_ij - eta_ijm)
  (SET uv.1 i j u_ij, SET uv.2 i j v_ij)

/-- Serial `update_velocities` (`shallow.c`, lines 43-66); `u` and `v` are written,
and the updated pair `(u, v)` is returned. -/
def update_velocities {α : Type} [Field α] (nx ny : Int) (param : parameters α)
    (u v eta : data α) : data α × data α :=
  loop nx (fun i uv => loop ny (fun j uv => update_velocities_body param eta i j uv) uv) (u, v)

/-- The bathymetry interpolation loop of `main` (`shallow.c`, lines 104-111):
`j` is the outer and `i` the inner loop variable.  The products `i * param.dx` and
`j * param.dy` and the operations of `interpolate_data` are `double` operations, whose
results `fl` rounds; the conversion of `i` and `j` to `double` is exact. -/
def main_interpolate {α : Type} [LinearOrderedField α] [FloorRing α] (fl : α → α)
    (nx ny : Int) (param : parameters α) (h h_interp : data α) : data α :=
  loop ny (fun j h_interp => loop nx (fun i h_interp =>
    let x := fl ((i : α) * param.dx)
    let y := fl ((j : α) * param.dy)
    let val := interpolate_data_fl fl h x y
    SET h_interp i j val) h_interp) h_interp

/-- Body of the double loop of the type 1 injection of `main` (`shallow.c`,
lines 139-142), acting on the pair `(u, v)`; `val` is `A * sin(2 * M_PI * f * t)`. -/
def main_source1_body {α : Type} [Field α] (nx ny : Int) (val : α) (i j : Int)
    (uv : data α × data α) : data α × data α :=
  let u := SET uv.1 0 j 0
  let u := SET u nx j 0
  let v := SET uv.2 i 0 0
  let v := SET v i ny val
  (u, v)

/-- The block "impose boundary conditions" of the time-step loop of `main`
(`shallow.c`, lines 131-156), at step `n`.  The result is the updated fields, or
the message printed and the status passed to `exit`. -/
def main_boundary {α : Type} [Field α] (sin : α → α) (M_PI : α) (n nx ny : Int)
    (param : parameters α) (s : all_data_t α) : Except (event α × Int) (all_data_t α) :=
  let t := (n : α) * param.dt
  if param.source_type = 1 then
    let A : α := 5
    let f : α := 1 / 20
    let uv := loop nx (fun i uv => loop ny (fun j uv =>
      main_source1_body nx ny (A * sin (2 * M_PI * f * t)) i j uv) uv) (s.u, s.v)
    .ok { s with u := uv.1, v := uv.2 }
  else if param.source_type = 2 then
    let A : α := 5
    let f : α := 1 / 20
    .ok { s with eta := SET s.eta (Int.tdiv nx 2) (Int.tdiv ny 2) (A * sin (2 * M_PI * f * t)) }
  else
    .error (event.unknown_source_type param.source_type, 0)

/-- One iteration of the time-step loop of `main` (`shallow.c`, lines 115-162). -/
def main_step {α : Type} [Field α] (sin : α → α) (M_PI : α) (nx ny nt : Int)
    (param : parameters α) (n : Int) (r : run α) : run α :=
  if n ≠ 0 ∧ Int.tdiv nt 10 = 0 then { r with halted := some termination.mod_by_zero } else
  let r := if n ≠ 0 ∧ Int.tmod n (Int.tdiv nt 10) = 0
    then { r with out := r.out ++ [event.progress n nt] } else r
  let r := if param.sampling_rate ≠ 0 ∧ Int.tmod n param.sampling_rate = 0
    then { r with out := r.out ++ [event.write_data_vtk r.all_data.eta n] } else r
  match main_boundary sin M_PI n nx ny param r.all_data with
  | .error (msg, status) =>
    { r with out := r.out ++ [msg], halted := some (termination.exited status) }
  | .ok s =>
    let eta := update_eta nx ny param s.u s.v s.eta s.h_interp
    let uv := update_velocities nx ny param s.u s.v eta
    { r with all_data := { s with eta := eta, u := uv.1, v := uv.2 } }

/-- The time-step loop of `main` and the statements after it (`shallow.c`,
lines 115-180), started from the fields `s` with nothing printed yet. -/
def main_run {α : Type} [Field α] (sin : α → α) (M_PI : α) (nx ny nt : Int)
    (param : parameters α) (s : all_data_t α) : run α :=
  let r := loop nt (fun n r => if r.halted.isSome then r else main_step sin M_PI nx ny nt param n r)
    { all_data := s, out := [], halted := none }
  if r.halted.isSome then r else
  { r with out := r.out ++ [event.write_manifest_vtk nt param.sampling_rate, event.done],
           halted := some (termination.returned 0) }

end Serial

/-! ## OpenMP program (`source/OMP/shallow_omp.c`) -/

namespace OMP

/-- OMP `interpolate_data` (`shallow_omp.c`, lines 3-36), returning the value together
with the list of index pairs `(i, j)` it reads through `GET`. -/
def interpolate_data_traced {α : Type} [LinearOrderedField α] [FloorRing α]
    (d : data α) (x y : α) : α × List (Int × Int) :=
  let i := c_int_cast (x / d.dx)
  let j := c_int_cast (y / d.dy)
  if i < 0 ∨ j < 0 ∨ i ≥ d.nx - 1 ∨ j ≥ d.ny - 1 then
    let i := if i < 0 then 0 else if i ≥ d.nx then d.nx - 1 else i
    let j := if j < 0 then 0 else if j ≥ d.ny then d.ny - 1 else j
    (GET d i j, [(i, j)])
  else
    let x1 := (i : α) * d.dx
    let x2 := ((i + 1 : Int) : α) * d.dx
    let y1 := (j : α) * d.dy
    let y2 := ((j + 1 : Int) : α) * d.dy
    let Q11 := GET d i j
    let Q12 := GET d i (j + 1)
    let Q21 := GET d (i + 1) j
    let Q22 := GET d (i + 1) (j + 1)
    let wx := (x2 - x) / (x2 - x1)
    let wy := (y2 - y) / (y2 - y1)
    let val := wx * wy * Q11 + (1 - wx) * wy * Q21 + wx * (1 - wy) * Q12
      + (1 - wx) * (1 - wy) * Q22
    (val, [(i, j), (i, j + 1), (i + 1, j), (i + 1, j + 1)])

/-- OMP `interpolate_data` (`shallow_omp.c`, lines 3-36). -/
def interpolate_data {α : Type} [LinearOrderedField α] [FloorRing α]
    (d : data α) (x y : α) : α :=
  (interpolate_data_traced d x y).1

/-- OMP `interpolate_data` (`shallow_omp.c`, lines 3-36) in `double` arithmetic: `fl`
rounds the result of each `double` operation, in the order in which C evaluates the
expressions.  With `fl` the identity this is `interpolate_data`. -/
def interpolate_data_fl {α : Type} [LinearOrderedField α] [FloorRing α] (fl : α → α)
    (d : data α) (x y : α) : α :=
  let i := c_int_cast (fl (x / d.dx))
  let j := c_int_cast (fl (y / d.dy))
  if i < 0 ∨ j < 0 ∨ i ≥ d.nx - 1 ∨ j ≥ d.ny - 1 then
    let i := if i < 0 then 0 else if i ≥ d.nx then d.nx - 1 else i
    let j := if j < 0 then 0 else if j ≥ d.ny then d.ny - 1 else j
    GET d i j
  else
    let x1 := fl ((i : α) * d.dx)
    let x2 := fl (((i + 1 : Int) : α) * d.dx)
    let y1 := fl ((j : α) * d.dy)
    let y2 := fl (((j + 1 : Int) : α) * d.dy)
    let Q11 := GET d i j
    let Q12 := GET d i (j + 1)
    let Q21 := GET d (i + 1) j
    let Q22 := GET d (i + 1) (j + 1)
    let wx := fl (fl (x2 - x) / fl (x2 - x1))
    let wy := fl (fl (y2 - y) / fl (y2 - y1))
    fl (fl (fl (fl (fl (wx * wy) * Q11) + fl (fl (fl (1 - wx) * wy) * Q21))
        + fl (fl (wx * fl (1 - wy)) * Q12))
      + fl (fl (fl (1 - wx) * fl (1 - wy)) * Q22))

/-- Body of the double loop of the OMP `update_eta` (`shallow_omp.c`, lines 42-47). -/
def update_eta_body {α : Type} [Field α] (param : parameters α) (i j : Int)
    (all_data : all_data_t α) : all_data_t α :=
  let h_ij := GET all_data.h_interp i j
  let c1 := param.dt * h_ij
  let eta_ij := GET all_data.eta i j
    - c1 / param.dx * (GET all_data.u (i + 1) j - GET all_data.u i j)
    - c1 / param.dy * (GET all_data.v i (j + 1) - GET all_data.v i j)
  { all_data with eta := SET all_data.eta i j eta_ij }

/-- OMP `update_eta` (`shallow_omp.c`, lines 38-50). -/
def update_eta {α : Type} [Field α] (nx ny : Int) (param : parameters α)
    (all_data : all_data_t α) : all_data_t α :=
  loop nx (fun i s => loop ny (fun j s => update_eta_body param i j s) s) all_data

/-- Body of the double loop of the OMP `update_velocities` (`shallow_omp.c`,
lines 56-66). -/
def update_velocities_body {α : Type} [Field α] (param : parameters α) (i j : Int)
    (all_data : all_data_t α) : all_data_t α :=
  let c1 := param.dt * param.g
  let c2 := param.dt * param.gamma
  let eta_ij := GET all_data.eta i j
  let eta_imj := GET all_data.eta (if i = 0 then 0 else i - 1) j
  let eta_ijm := GET all_data.eta i (if j = 0 then 0 else j - 1)
  let u_ij := (1 - c2) * GET all_data.u i j - c1 / param.dx * (eta_ij - eta_imj)
  let v_ij := (1 - c2) * GET all_data.v i j - c1 / param.dy * (eta_ij - eta_ijm)
  let all_data := { all_data with u := SET all_data.u i j u_ij }
  { all_data with v := SET all_data.v i j v_ij }

/-- OMP `update_velocities` (`shallow_omp.c`, lines 52-69). -/
def update_velocities {α : Type} [Field α] (nx ny : Int) (param : parameters α)
    (all_data : all_data_t α) : all_data_t α :=
  loop nx (fun i s => loop ny (fun j s => update_velocities_body param i j s) s) all_data

/-- Body of the double loop of the type 1 branch of `boundary_condition`
(`shallow_omp.c`, lines 80-83); `val` is `A * sin(2 * M_PI * f * t)`. -/
def source1_body {α : Type} [Field α] (nx ny : Int) (val : α) (i j : Int)
    (all_data : all_data_t α) : all_data_t α :=
  let all_data := { all_data with u := SET all_data.u 0 j 0 }
  let all_data := { all_data with u := SET all_data.u nx j 0 }
  let all_data := { all_data with v := SET all_data.v i 0 0 }
  { all_data with v := SET all_data.v i ny val }

/-- Body of the first absorbing-edge loop of `boundary_condition` (`shallow_omp.c`,
lines 96-115): bottom row `j = 0` and top row `j = ny - 1`, for one `i`. -/
def absorb_rows_body {α : Type} [Field α] (sqrt : α → α) (ny : Int)
    (param : parameters α) (i : Int) (s : all_data_t α) : all_data_t α :=
  let h_bottom := GET s.h_interp i 0
  let h_top := GET s.h_interp i (ny - 1)
  let c_bottom := sqrt (param.g * h_bottom)
  let c_top := sqrt (param.g * h_top)
  let s := { s with eta := SET s.eta i 0 (GET s.eta i 1 - (c_bottom * param.dt / param.dy) *
    (GET s.eta i 1 - GET s.eta i 0)) }
  let s := { s with u := SET s.u i 0 (GET s.u i 1 - (c_bottom * param.dt / param.dy) *
    (GET s.u i 1 - GET s.u i 0)) }
  let s := { s with v := SET s.v i 0 (GET s.v i 1 - (c_bottom * param.dt / param.dy) *
    (GET s.v i 1 - GET s.v i 0)) }
  let s := { s with eta := SET s.eta i (ny - 1) (GET s.eta i (ny - 2) -
    (c_top * param.dt / param.dy) * (GET s.eta i (ny - 1) - GET s.eta i (ny - 2))) }
  let s := { s with u := SET s.u i (ny - 1) (GET s.u i (ny - 2) -
    (c_top * param.dt / param.dy) * (GET s.u i (ny - 1) - GET s.u i (ny - 2))) }
  { s with v := SET s.v i (ny - 1) (GET s.v i (ny - 2) -
    (c_top * param.dt / param.dy) * (GET s.v i (ny - 1) - GET s.v i (ny - 2))) }

/-- Body of the second absorbing-edge loop of `boundary_condition` (`shallow_omp.c`,
lines 120-139): left column `i = 0` and right column `i = nx - 1`, for one `j`. -/
def absorb_cols_body {α : Type} [Field α] (sqrt : α → α) (nx : Int)
    (param : parameters α) (j : Int) (s : all_data_t α) : all_data_t α :=
  let h_left := GET s.h_interp 0 j
  let h_right := GET s.h_interp (nx - 1) j
  let c_left := sqrt (param.g * h_left)
  let c_right := sqrt (param.g * h_right)
  let s := { s with eta := SET s.eta 0 j (GET s.eta 1 j - (c_left * param.dt / param.dx) *
    (GET s.eta 1 j - GET s.eta 0 j)) }
  let s := { s with u := SET s.u 0 j (GET s.u 1 j - (c_left * param.dt / param.dx) *
    (GET s.u 1 j - GET s.u 0 j)) }
  let s := { s with v := SET s.v 0 j (GET s.v 1 j - (c_left * param.dt / param.dx) *
    (GET s.v 1 j - GET s.v 0 j)) }
  let s := { s with eta := SET s.eta (nx - 1) j (GET s.eta (nx - 2) j -
    (c_right * param.dt / param.dx) * (GET s.eta (nx - 1) j - GET s.eta (nx - 2) j)) }
  let s := { s with u := SET s.u (nx - 1) j (GET s.u (nx - 2) j -
    (c_right * param.dt / param.dx) * (GET s.u (nx - 1) j - GET s.u (nx - 2) j)) }
  { s with v := SET s.v (nx - 1) j (GET s.v (nx - 2) j -
    (c_right * param.dt / param.dx) * (GET s.v (nx - 1) j - GET s.v (nx - 2) j)) }

/-- OMP `boundary_condition` (`shallow_omp.c`, lines 71-146), at step `n`.  The
result is the updated fields, or the message printed and the status passed to
`exit`. -/
def boundary_condition {α : Type} [Field α] (sin sqrt : α → α) (M_PI : α) (n nx ny : Int)
    (param : parameters α) (all_data : all_data_t α) :
    Except (event α × Int) (all_data_t α) :=
  let t := (n : α) * param.dt
  if param.source_type = 1 then
    let A : α := 5
    let f : α := 1 / 20
    .ok (loop nx (fun i s => loop ny (fun j s =>
      source1_body nx ny (A * sin (2 * M_PI * f * t)) i j s) s) all_data)
  else if param.source_type = 2 then
    let A : α := 5
    let f : α := 1 / 20
    let s := { all_data with
      eta := SET all_data.eta (Int.tdiv nx 2) (Int.tdiv ny 2) (A * sin (2 * M_PI * f * t)) }
    let s := loop nx (fun i s => absorb_rows_body sqrt ny param i s) s
    .ok (loop ny (fun j s => absorb_cols_body sqrt nx param j s) s)
  else
    .error (event.unknown_source_type param.source_type, 0)

/-- OMP `interp_bathy` (`shallow_omp.c`, lines 148-158).  The products `i * param.dx`
and `j * param.dy` and the operations of `interpolate_data` are `double` operations,
whose results `fl` rounds; the conversion of `i` and `j` to `double` is exact. -/
def interp_bathy {α : Type} [LinearOrderedField α] [FloorRing α] (fl : α → α) (nx ny : Int)
    (param : parameters α) (all_data : all_data_t α) : all_data_t α :=
  loop nx (fun i s => loop ny (fun j s =>
    let x := fl ((i : α) * param.dx)
    let y := fl ((j : α) * param.dy)
    let val := interpolate_data_fl fl s.h x y
    { s with h_interp := SET s.h_interp i j val }) s) all_data

/-- One iteration of the time-step loop of `main` (`shallow_omp.c`, lines 205-224). -/
def main_step {α : Type} [Field α] (sin sqrt : α → α) (M_PI : α) (nx ny nt : Int)
    (param : parameters α) (n : Int) (r : run α) : run α :=
  if n ≠ 0 ∧ Int.tdiv nt 10 = 0 then { r with halted := some termination.mod_by_zero } else
  let r := if n ≠ 0 ∧ Int.tmod n (Int.tdiv nt 10) = 0
    then { r with out := r.out ++ [event.progress n nt] } else r
  let r := if param.sampling_rate ≠ 0 ∧ Int.tmod n param.sampling_rate = 0
    then { r with out := r.out ++ [event.write_data_vtk r.all_data.eta n] } else r
  match boundary_condition sin sqrt M_PI n nx ny param r.all_data with
  | .error (msg, status) =>
    { r with out := r.out ++ [msg], halted := some (termination.exited status) }
  | .ok s =>
    { r with all_data := update_velocities nx ny param (update_eta nx ny param s) }

/-- The time-step loop of `main` and the statements after it (`shallow_omp.c`,
lines 205-245), started from the fields `s` with nothing printed yet. -/
def main_run {α : Type} [Field α] (sin sqrt : α → α) (M_PI : α) (nx ny nt : Int)
    (param : parameters α) (s : all_data_t α) : run α :=
  let r := loop nt (fun n r =>
    if r.halted.isSome then r else main_step sin sqrt M_PI nx ny nt param n r)
    { all_data := s, out := [], halted := none }
  if r.halted.isSome then r else
  { r with out := r.out ++ [event.write_manifest_vtk nt param.sampling_rate, event.done],
           halted := some (termination.returned 0) }

end OMP

/-! ## Iteration spaces -/

/-- The index pairs visited by `for a < n: for b < m`, in the order of the visit. -/
def iter_space (n m : Int) : List (Int × Int) :=
  (List.range n.toNat).flatMap (fun (a : Nat) =>
    (List.range m.toNat).map (fun (b : Nat) => ((a : Int), (b : Int))))

/-! ## Reference reading of "nearest neighbour" -/

/-- The value of the depth-field grid point nearest to `(x, y)`, in the words of the
specification: `h[clamp(round(x/dx), 0, nx-1), clamp(round(y/dy), 0, ny-1)]`.  This
is the reference the serial `interpolate_data` is compared with; it is not taken
from the source. -/
def nearest_grid_point_value {α : Type} [LinearOrderedField α] [FloorRing α]
    (d : data α) (x y : α) : α :=
  GET d (max 0 (min (d.nx - 1) (round (x / d.dx)))) (max 0 (min (d.ny - 1) (round (y / d.dy))))

/-! ## Sample inputs -/

namespace Sample

/-- A field over `ℚ` with unit spacing whose buffer holds the listed values (and 0
elsewhere). -/
def field (l : List ℚ) (nx ny : Int) : data ℚ :=
  { vals := fun k => l.getD k.toNat 0, nx := nx, ny := ny, dx := 1, dy := 1 }

/-- A parameter set over `ℚ` with unit steps, `g = 1`, `gamma = 0`, sampling every
step, and the given `source_type`. -/
def param (source_type : Int) : parameters ℚ :=
  { dx := 1, dy := 1, dt := 1, max_t := 1, g := 1, gamma := 0,
    source_type := source_type, boundary_type := 0, sampling_rate := 1 }

/-- A state on the `2 x 2` grid: `u` is `3 x 2`, `v` is `2 x 3`. -/
def state : all_data_t ℚ :=
  { u := field [1, 2, 3, 4, 5, 6] 3 2, v := field [1, 2, 3, 4, 5, 8] 2 3,
    eta := field [7, 0, 0, 9] 2 2, h := field [10, 20, 30, 40] 2 2,
    h_interp := field [1, 1, 1, 1] 2 2 }

/-- A parameter set over any field with unit steps, `g = 1`, `gamma = 0`, sampling
every step, and the given `source_type`. -/
def unit_param (α : Type) [Field α] (source_type : Int) : parameters α :=
  { dx := 1, dy := 1, dt := 1, max_t := 1, g := 1, gamma := 0,
    source_type := source_type, boundary_type := 0, sampling_rate := 1 }

/-- A field with unit spacing whose buffer holds `c` at flat index `k0` and 0
elsewhere. -/
def spike (α : Type) [Field α] (nx ny k0 : Int) (c : α) : data α :=
  { vals := fun k => if k = k0 then c else 0, nx := nx, ny := ny, dx := 1, dy := 1 }

/-- A field with unit spacing whose buffer holds `c` everywhere. -/
def const (α : Type) [Field α] (nx ny : Int) (c : α) : data α :=
  { vals := fun _ => c, nx := nx, ny := ny, dx := 1, dy := 1 }

/-- A state on the `nx x ny` grid with unit depth, zero velocities and zero
elevation except for the value 1 in cell `(0, 1)`. -/
def bump (α : Type) [Field α] (nx ny : Int) : all_data_t α :=
  { u := const α (nx + 1) ny 0, v := const α nx (ny + 1) 0,
    eta := spike α nx ny (nx * 1 + 0) 1, h := const α nx ny 1,
    h_interp := const α nx ny 1 }

/-- The `double` nearest to `0.7`. -/
def dx07 : ℚ := 3152519739159347 / 4503599627370496

/-- A depth field of `4 x 1` cells with the values 10, 20, 30, 40 and spacing `0.7`. -/
def depth4 : data ℚ :=
  { field [10, 20, 30, 40] 4 1 with dx := dx07, dy := dx07 }

/-- A parameter set with the grid spacing `0.7` of `depth4`. -/
def param07 : parameters ℚ :=
  { param 1 with dx := dx07, dy := dx07 }

/-- A state whose depth field is `depth4` and whose `h_interp` is a zero field on the
same `4 x 1` grid with the same spacing. -/
def state07 : all_data_t ℚ :=
  { u := field [0, 0, 0, 0, 0] 5 1, v := field [0, 0, 0, 0, 0, 0, 0, 0] 4 2,
    eta := field [0, 0, 0, 0] 4 1, h := depth4,
    h_interp := { field [0, 0, 0, 0] 4 1 with dx := dx07, dy := dx07 } }

end Sample

/-! ## Observers of the output -/

/-- The snapshots among the output events, in the order in which they were written:
the elevation field passed to `write_data_vtk` and the step number. -/
def snapshots {α : Type} : List (event α) → List (data α × Int)
  | [] => []
  | event.write_data_vtk eta n :: l => (eta, n) :: snapshots l
  | event.progress _ _ :: l => snapshots l
  | event.unknown_source_type _ :: l => snapshots l
  | event.write_manifest_vtk _ _ :: l => snapshots l
  | event.done :: l => snapshots l

/-- The total elevation `sum(eta)` over the cells `0 ≤ i < nx`, `0 ≤ j < ny`. -/
def sum_cells {α : Type} [Field α] (nx ny : ℕ) (eta : data α) : α :=
  ∑ i ∈ Finset.range nx, ∑ j ∈ Finset.range ny, GET eta (i : Int) (j : Int)

namespace Sample

/-- A state on the `3 x 3` grid with unit depth and zero velocities whose elevation
is 1 on the four edge cells that are not corners, `(1,0)`, `(0,1)`, `(2,1)`, `(1,2)`
(flat indices 1, 3, 5, 7), and 0 elsewhere. -/
def cross (α : Type) [Field α] : all_data_t α :=
  { u := const α 4 3 0, v := const α 3 4 0,
    eta := { vals := fun k => if k = 1 ∨ k = 3 ∨ k = 5 ∨ k = 7 then 1 else 0,
             nx := 3, ny := 3, dx := 1, dy := 1 },
    h := const α 3 3 1, h_interp := const α 3 3 1 }

end Sample

/-! ## Schedules of the parallel loops and the simultaneous update -/

namespace OMP

/-- The double loop of `update_eta` with its iterations run one after the other in
the order `sched`, a schedule of the `parallel for collapse(2)`. -/
def update_eta_sched {α : Type} [Field α] (sched : List (Int × Int)) (param : parameters α)
    (all_data : all_data_t α) : all_data_t α :=
  sched.foldl (fun s p => update_eta_body param p.1 p.2 s) all_data

/-- The double loop of `update_velocities` with its iterations run one after the
other in the order `sched`, a schedule of the `parallel for collapse(2)`. -/
def update_velocities_sched {α : Type} [Field α] (sched : List (Int × Int))
    (param : parameters α) (all_data : all_data_t α) : all_data_t α :=
  sched.foldl (fun s p => update_velocities_body param p.1 p.2 s) all_data

end OMP

/-- The elevation update computed for every cell from the state before the sweep:
the buffer entry `k` of `eta` that is a cell `(i, j) = (k % w, k / w)` of the sweep
(`w` the width of `eta`, `0 ≤ i < nx`, `0 ≤ j < ny`) receives the value of the update
formula read on `s`, every other entry keeps its value.  This is the reference the
in-place sweep is compared with; it is not taken from the source. -/
def update_eta_from_pre {α : Type} [Field α] (nx ny : Int) (param : parameters α)
    (s : all_data_t α) : all_data_t α :=
  { s with eta := { s.eta with vals := (fun k =>
      if 0 < nx ∧ 0 ≤ k ∧ k % s.eta.nx < nx ∧ k / s.eta.nx < ny then
        (GET s.eta (k % s.eta.nx) (k / s.eta.nx)
          - param.dt * GET s.h_interp (k % s.eta.nx) (k / s.eta.nx) / param.dx
            * (GET s.u (k % s.eta.nx + 1) (k / s.eta.nx) - GET s.u (k % s.eta.nx) (k / s.eta.nx))
          - param.dt * GET s.h_interp (k % s.eta.nx) (k / s.eta.nx) / param.dy
            * (GET s.v (k % s.eta.nx) (k / s.eta.nx + 1) - GET s.v (k % s.eta.nx) (k / s.eta.nx)))
      else s.eta.vals k) } }

/-- The velocity update computed for every cell from the state before the sweep:
the buffer entries of `u` and of `v` that are cells `(i, j)` of the sweep
(`0 ≤ i < nx`, `0 ≤ j < ny`, decoded with the width of the field) receive the value of
the update formula read on `s`, every other entry keeps its value.  This is the
reference the in-place sweep is compared with; it is not taken from the source. -/
def update_velocities_from_pre {α : Type} [Field α] (nx ny : Int) (param : parameters α)
    (s : all_data_t α) : all_data_t α :=
  { s with
    u := { s.u with vals := (fun k =>
      if 0 < nx ∧ 0 ≤ k ∧ k % s.u.nx < nx ∧ k / s.u.nx < ny then
        ((1 - param.dt * param.gamma) * GET s.u (k % s.u.nx) (k / s.u.nx)
          - param.dt * param.g / param.dx
            * (GET s.eta (k % s.u.nx) (k / s.u.nx)
              - GET s.eta (if k % s.u.nx = 0 then 0 else k % s.u.nx - 1) (k / s.u.nx)))
      else s.u.vals k) },
    v := { s.v with vals := (fun k =>
      if 0 < nx ∧ 0 ≤ k ∧ k % s.v.nx < nx ∧ k / s.v.nx < ny then
        ((1 - param.dt * param.gamma) * GET s.v (k % s.v.nx) (k / s.v.nx)
          - param.dt * param.g / param.dy
            * (GET s.eta (k % s.v.nx) (k / s.v.nx)
              - GET s.eta (k % s.v.nx) (if k / s.v.nx = 0 then 0 else k / s.v.nx - 1)))
      else s.v.vals k) } }

/-! ## Memory accesses of the kernels and of the boundary condition -/

/-- The fields that the kernels and `boundary_condition` address. -/
inductive field_id where
  | u
  | v
  | eta
  | h_interp
  deriving DecidableEq, Repr

/-- One use of the macro `GET` (`write = false`) or `SET` (`write = true`) on the field
`fld` with the index arguments `i`, `j`. -/
structure access where
  write : Bool
  fld : field_id
  i : Int
  j : Int
  deriving DecidableEq, Repr

/-- The extents `(nx, ny)` with which `main` builds each field for a grid of
`nx x ny` cells (`init_data` calls, `shallow.c` lines 97-103, `shallow_omp.c` lines
194-197): `eta` and `h_interp` are `nx x ny`, `u` is `(nx+1) x ny`, `v` is
`nx x (ny+1)`. -/
def field_dims (nx ny : Int) : field_id → Int × Int
  | field_id.u => (nx + 1, ny)
  | field_id.v => (nx, ny + 1)
  | field_id.eta => (nx, ny)
  | field_id.h_interp => (nx, ny)

/-- The value that a 32-bit `int` operation leaves on two's-complement hardware when
its exact result is `x` (signed overflow is undefined behaviour in C). -/
def int_wrap (x : Int) : Int :=
  (x + 2147483648) % 4294967296 - 2147483648

/-- The exact result `x` of an `int` operation is representable,
`INT_MIN ≤ x ≤ INT_MAX`, so the operation does not overflow. -/
def int_fits (x : Int) : Prop :=
  -2147483648 ≤ x ∧ x ≤ 2147483647

instance (x : Int) : Decidable (int_fits x) := by
  unfold int_fits
  infer_instance

/-- The flat index `data->nx * j + i` that the access computes, with the width of the
field it addresses, in the 32-bit `int` arithmetic of the macros `GET` and `SET`
(`shallow_mpi.h`, lines 46-47): the product and then the sum are `int` operations. -/
def access.flat (nx ny : Int) (a : access) : Int :=
  int_wrap (int_wrap ((field_dims nx ny a.fld).1 * a.j) + a.i)

/-- The access lies inside the buffer of the field it addresses, which holds
`data->nx * data->ny` values: neither the product nor the sum of the index computation
overflows, and the index computed is one of the buffer. -/
def access.in_bounds (nx ny : Int) (a : access) : Prop :=
  int_fits ((field_dims nx ny a.fld).1 * a.j)
  ∧ int_fits ((field_dims nx ny a.fld).1 * a.j + a.i)
  ∧ 0 ≤ a.flat nx ny
  ∧ a.flat nx ny < (field_dims nx ny a.fld).1 * (field_dims nx ny a.fld).2

instance (nx ny : Int) (a : access) : Decidable (a.in_bounds nx ny) := by
  unfold access.in_bounds
  infer_instance

/-- The values of the loop variable of `for (int k = 0; k < n; k++)`, in order. -/
def iter_range (n : Int) : List Int :=
  (List.range n.toNat).map (fun (k : Nat) => (k : Int))

/-- The `GET`s and the `SET` of one iteration of `update_eta` (`shallow.c` lines
33-38, `shallow_omp.c` lines 42-47), in program order. -/
def update_eta_body_accesses (i j : Int) : List access :=
  [ { write := false, fld := field_id.h_interp, i := i, j := j },
    { write := false, fld := field_id.eta, i := i, j := j },
    { write := false, fld := field_id.u, i := i + 1, j := j },
    { write := false, fld := field_id.u, i := i, j := j },
    { write := false, fld := field_id.v, i := i, j := j + 1 },
    { write := false, fld := field_id.v, i := i, j := j },
    { write := true, fld := field_id.eta, i := i, j := j } ]

/-- All accesses of `update_eta(nx, ny, ...)`. -/
def update_eta_accesses (nx ny : Int) : List access :=
  (iter_space nx ny).flatMap (fun p => update_eta_body_accesses p.1 p.2)

/-- The `GET`s and the `SET`s of one iteration of `update_velocities` (`shallow.c`
lines 54-62, `shallow_omp.c` lines 58-66), in program order. -/
def update_velocities_body_accesses (i j : Int) : List access :=
  [ { write := false, fld := field_id.eta, i := i, j := j },
    { write := false, fld := field_id.eta, i := if i = 0 then 0 else i - 1, j := j },
    { write := false, fld := field_id.eta, i := i, j := if j = 0 then 0 else j - 1 },
    { write := false, fld := field_id.u, i := i, j := j },
    { write := false, fld := field_id.v, i := i, j := j },
    { write := true, fld := field_id.u, i := i, j := j },
    { write := true, fld := field_id.v, i := i, j := j } ]

/-- All accesses of `update_velocities(nx, ny, ...)`. -/
def update_velocities_accesses (nx ny : Int) : List access :=
  (iter_space nx ny).flatMap (fun p => update_velocities_body_accesses p.1 p.2)

namespace OMP

/-- The `SET`s of one iteration of the type 1 loop of `boundary_condition`
(`shallow_omp.c` lines 80-83). -/
def source1_body_accesses (nx ny i j : Int) : List access :=
  [ { write := true, fld := field_id.u, i := 0, j := j },
    { write := true, fld := field_id.u, i := nx, j := j },
    { write := true, fld := field_id.v, i := i, j := 0 },
    { write := true, fld := field_id.v, i := i, j := ny } ]

/-- The accesses of the statement
`SET(f, i, je, GET(f, i, jn) - k * (GET(f, i, a) - GET(f, i, b)))`
of the first absorbing-edge loop, for one field `f`. -/
def edge_row_accesses (f : field_id) (i je jn a b : Int) : List access :=
  [ { write := false, fld := f, i := i, j := jn },
    { write := false, fld := f, i := i, j := a },
    { write := false, fld := f, i := i, j := b },
    { write := true, fld := f, i := i, j := je } ]

/-- The accesses of the statement
`SET(f, ie, j, GET(f, im, j) - k * (GET(f, a, j) - GET(f, b, j)))`
of the second absorbing-edge loop, for one field `f`. -/
def edge_col_accesses (f : field_id) (j ie im a b : Int) : List access :=
  [ { write := false, fld := f, i := im, j := j },
    { write := false, fld := f, i := a, j := j },
    { write := false, fld := f, i := b, j := j },
    { write := true, fld := f, i := ie, j := j } ]

/-- The accesses of one iteration of the first absorbing-edge loop of
`boundary_condition` (`shallow_omp.c` lines 96-115). -/
def absorb_rows_body_accesses (ny i : Int) : List access :=
  [ { write := false, fld := field_id.h_interp, i := i, j := 0 },
    { write := false, fld := field_id.h_interp, i := i, j := ny - 1 } ]
  ++ edge_row_accesses field_id.eta i 0 1 1 0
  ++ edge_row_accesses field_id.u i 0 1 1 0
  ++ edge_row_accesses field_id.v i 0 1 1 0
  ++ edge_row_accesses field_id.eta i (ny - 1) (ny - 2) (ny - 1) (ny - 2)
  ++ edge_row_accesses field_id.u i (ny - 1) (ny - 2) (ny - 1) (ny - 2)
  ++ edge_row_accesses field_id.v i (ny - 1) (ny - 2) (ny - 1) (ny - 2)

/-- The accesses of one iteration of the second absorbing-edge loop of
`boundary_condition` (`shallow_omp.c` lines 120-139). -/
def absorb_cols_body_accesses (nx j : Int) : List access :=
  [ { write := false, fld := field_id.h_interp, i := 0, j := j },
    { write := false, fld := field_id.h_interp, i := nx - 1, j := j } ]
  ++ edge_col_accesses field_id.eta j 0 1 1 0
  ++ edge_col_accesses field_id.u j 0 1 1 0
  ++ edge_col_accesses field_id.v j 0 1 1 0
  ++ edge_col_accesses field_id.eta j (nx - 1) (nx - 2) (nx - 1) (nx - 2)
  ++ edge_col_accesses field_id.u j (nx - 1) (nx - 2) (nx - 1) (nx - 2)
  ++ edge_col_accesses field_id.v j (nx - 1) (nx - 2) (nx - 1) (nx - 2)

/-- All accesses of `boundary_condition(n, nx, ny, param, all_data)` (`shallow_omp.c`
lines 71-146) for the given `source_type`. -/
def boundary_condition_accesses (nx ny source_type : Int) : List access :=
  if source_type = 1 then
    (iter_space nx ny).flatMap (fun p => source1_body_accesses nx ny p.1 p.2)
  else if source_type = 2 then
    [ { write := true, fld := field_id.eta, i := Int.tdiv nx 2, j := Int.tdiv ny 2 } ]
    ++ (iter_range nx).flatMap (fun i => absorb_rows_body_accesses ny i)
    ++ (iter_range ny).flatMap (fun j => absorb_cols_body_accesses nx j)
  else
    []

end OMP

/-! ## Domain decomposition (`shallow_mpi.h`) -/

/-- `limit_t`: the range `[start, end)` of global indices that one rank owns along one
axis, and its length `n` (the field `end` is written `end_`). -/
structure limit_t where
  start : Int
  end_ : Int
  n : Int

/-- Modelled from the spec: the chunk of coordinate `coord` when an axis of `extent`
cells is divided into `parts` nearly-equal contiguous chunks, the processes of higher
coordinate absorbing the remainder so that chunk sizes differ by at most one cell:
every chunk has `extent / parts` cells and each of the last `extent % parts`
coordinates has one more. -/
def axis_limits (extent parts coord : Int) : limit_t :=
  let base := Int.tdiv extent parts
  let rem := Int.tmod extent parts
  let start := coord * base + (if parts - rem ≤ coord then coord - (parts - rem) else 0)
  let n := if parts - rem ≤ coord then base + 1 else base
  { start := start, end_ := start + n, n := n }

/-- Modelled from the spec: the coordinates `coords[0], coords[1]` of a rank in a
process grid of `dims[0] x dims[1]` processes with row-major rank order. -/
def rank_coords (dims1 rank : Int) : Int × Int :=
  (Int.tdiv rank dims1, Int.tmod rank dims1)

/-- Modelled from the spec: the table `rank_glob[rank][axis]` of the limits of every
rank, axis 0 (index `i`) divided among the `dims[0]` coordinates and axis 1 (index
`j`) among the `dims[1]` coordinates, each axis independently. -/
def rank_glob_table (nx_glob ny_glob dims0 dims1 : Int) (rank axis : Int) : limit_t :=
  if axis = 0 then axis_limits nx_glob dims0 (rank_coords dims1 rank).1
  else axis_limits ny_glob dims1 (rank_coords dims1 rank).2

/-! ## Gathering of the partitions (`shallow_mpi.h`) -/

/-- `gather_data_t` for one field: the assembled global field, the receive buffer, the
limits of every rank, and the element count and the displacement of every rank in the
receive buffer (the header declares `receive_data_*`, `recv_size_*` and
`displacements_*` once per field `eta`, `u`, `v`). -/
structure gather_data_t (α : Type) where
  gathered_output : data α
  receive_data : Int → α
  rank_glob : Int → Int → limit_t
  recv_size : Int → Int
  displacements : Int → Int

/-- `RANK_NX(gdata, rank)`. -/
def RANK_NX {α : Type} (gdata : gather_data_t α) (rank : Int) : Int :=
  (gdata.rank_glob rank 0).n

/-- `RANK_NY(gdata, rank)`. -/
def RANK_NY {α : Type} (gdata : gather_data_t α) (rank : Int) : Int :=
  (gdata.rank_glob rank 1).n

/-- `START_I(gdata, rank)`. -/
def START_I {α : Type} (gdata : gather_data_t α) (rank : Int) : Int :=
  (gdata.rank_glob rank 0).start

/-- `END_I(gdata, rank)`. -/
def END_I {α : Type} (gdata : gather_data_t α) (rank : Int) : Int :=
  (gdata.rank_glob rank 0).end_

/-- `START_J(gdata, rank)`. -/
def START_J {α : Type} (gdata : gather_data_t α) (rank : Int) : Int :=
  (gdata.rank_glob rank 1).start

/-- `END_J(gdata, rank)`. -/
def END_J {α : Type} (gdata : gather_data_t α) (rank : Int) : Int :=
  (gdata.rank_glob rank 1).end_

/-- Modelled from the spec: the gather plan derived from the limits: the element count
of a rank is the number of cells it owns, and its displacement is the sum of the
counts of the ranks before it, so the blocks lie one after the other in the receive
buffer. -/
def gather_plan {α : Type} (gdata : gather_data_t α) : gather_data_t α :=
  { gdata with
    recv_size := fun rank => RANK_NX gdata rank * RANK_NY gdata rank
    displacements := fun rank =>
      ((List.range rank.toNat).map
        (fun (r : Nat) => RANK_NX gdata (r : Int) * RANK_NY gdata (r : Int))).sum }

/-- Modelled from the spec: the sub-block of a global field that a rank owns, a
contiguous local field of `RANK_NX x RANK_NY` cells without ghost cells whose cell
`(i, j)` is the global cell `(START_I + i, START_J + j)`; `vals0` is the content of
the local buffer before the copy. -/
def scatter_block {α : Type} (gdata : gather_data_t α) (glob : data α) (vals0 : Int → α)
    (rank : Int) : data α :=
  loop (RANK_NX gdata rank) (fun i loc =>
    loop (RANK_NY gdata rank) (fun j loc =>
      SET loc i j (GET glob (START_I gdata rank + i) (START_J gdata rank + j))) loc)
    { vals := vals0, nx := RANK_NX gdata rank, ny := RANK_NY gdata rank,
      dx := glob.dx, dy := glob.dy }

/-- Modelled from the spec: the collective all-to-one gather: the `recv_size[rank]`
values of the block `send rank` of every rank are stored in the receive buffer from
offset `displacements[rank]` on. -/
def gatherv {α : Type} (nb_process : Int) (send : Int → data α) (gdata : gather_data_t α) :
    gather_data_t α :=
  { gdata with
    receive_data :=
      loop nb_process (fun rank buf =>
        loop (gdata.recv_size rank) (fun k buf =>
          Function.update buf (gdata.displacements rank + k) ((send rank).vals k)) buf)
        gdata.receive_data }

/-- Modelled from the spec: the assembly on the coordinating process: the value of the
local cell `(i, j)` of every rank is copied from the receive buffer to the cell
`(START_I + i, START_J + j)` of the global field. -/
def assemble {α : Type} (nb_process : Int) (gdata : gather_data_t α) : gather_data_t α :=
  { gdata with
    gathered_output :=
      loop nb_process (fun rank out =>
        loop (RANK_NX gdata rank) (fun i out =>
          loop (RANK_NY gdata rank) (fun j out =>
            SET out (START_I gdata rank + i) (START_J gdata rank + j)
              (gdata.receive_data (gdata.displacements rank + (RANK_NX gdata rank * j + i))))
            out) out)
        gdata.gathered_output }

/-- Modelled from the spec: `gather_and_assemble_data` for one field: the gather plan,
the gather of the blocks `send rank` of the `nb_process` ranks, and the assembly. -/
def gather_and_assemble_data {α : Type} (nb_process : Int) (send : Int → data α)
    (gdata : gather_data_t α) : gather_data_t α :=
  assemble nb_process (gatherv nb_process send (gather_plan gdata))

namespace Sample

/-- Gather data of the two ranks that split a `2 x 1` grid into its two cells, with
empty buffers and no plan yet. -/
def two_gdata : gather_data_t ℚ :=
  { gathered_output := field [0, 0] 2 1, receive_data := fun _ => 0,
    rank_glob := rank_glob_table 2 1 2 1, recv_size := fun _ => 0,
    displacements := fun _ => 0 }

end Sample

/-! ## A type 1 time step of the OMP program under schedules of its loops -/

namespace OMP

/-- The double loop of the type 1 branch of `boundary_condition` with its iterations
run one after the other in the order `sched`, a schedule of the
`parallel for collapse(2)`. -/
def source1_sched {α : Type} [Field α] (sched : List (Int × Int)) (nx ny : Int) (val : α)
    (all_data : all_data_t α) : all_data_t α :=
  sched.foldl (fun s p => source1_body nx ny val p.1 p.2 s) all_data

/-- The three calls of one time step of the OMP `main` (`shallow_omp.c`, lines 218-223)
for `source_type = 1`: `boundary_condition`, `update_eta`, `update_velocities`, the
parallel loop of each call run in a schedule of its own. -/
def type1_step_sched {α : Type} [Field α] (sin : α → α) (M_PI : α) (n nx ny : Int)
    (param : parameters α) (sched_b sched_e sched_v : List (Int × Int))
    (all_data : all_data_t α) : all_data_t α :=
  let t := (n : α) * param.dt
  let A : α := 5
  let f : α := 1 / 20
  let s := source1_sched sched_b nx ny (A * sin (2 * M_PI * f * t)) all_data
  let s := update_eta_sched sched_e param s
  update_velocities_sched sched_v param s

end OMP

/-! ## Loops and flat indices -/

/-- A double loop is the sweep of its body over the iteration space. -/
theorem loop_nest_eq_foldl {σ : Type} (n m : Int) (body : Int → Int → σ → σ) (s : σ) :
    loop n (fun a s => loop m (fun b s => body a b s) s) s
      = (iter_space n m).foldl (fun s p => body p.1 p.2 s) s := by
  unfold loop iter_space
  generalize List.range n.toNat = l
  induction l generalizing s with
  | nil => rfl
  | cons a l ih =>
    simp only [List.foldl_cons, List.flatMap_cons, List.foldl_append, List.foldl_map]
    exact ih _

/-- The iteration space of `for a < n: for b < m` is `[0, n) x [0, m)`. -/
theorem mem_iter_space (n m : Int) (p : Int × Int) :
    p ∈ iter_space n m ↔ (0 ≤ p.1 ∧ p.1 < n) ∧ (0 ≤ p.2 ∧ p.2 < m) := by
  obtain ⟨a, b⟩ := p
  unfold iter_space
  simp only [List.mem_flatMap, List.mem_map, List.mem_range, Prod.mk.injEq]
  constructor
  · rintro ⟨x, hx, y, hy, rfl, rfl⟩
    omega
  · rintro ⟨⟨h1, h2⟩, h3, h4⟩
    exact ⟨a.toNat, by omega, b.toNat, by omega, by omega, by omega⟩

/-- A double loop visits no index pair twice. -/
theorem nodup_iter_space (n m : Int) : (iter_space n m).Nodup := by
  have h : iter_space n m
      = ((List.range n.toNat) ×ˢ (List.range m.toNat)).map
          (fun q : Nat × Nat => ((q.1 : Int), (q.2 : Int))) := by
    unfold iter_space
    generalize List.range n.toNat = l
    induction l with
    | nil => rfl
    | cons a l ih =>
      simp only [List.flatMap_cons, ih, List.product_cons, List.map_append, List.map_map]
      rfl
  rw [h]
  refine List.Nodup.map ?_ (List.Nodup.product (List.nodup_range _) (List.nodup_range _))
  rintro ⟨a, b⟩ ⟨c, d⟩ hq
  simp only [Prod.mk.injEq, Nat.cast_inj] at hq
  exact Prod.ext hq.1 hq.2

/-- Flat indices `w * j + i` with `0 ≤ i < w` determine the cell `(i, j)`. -/
theorem flat_index_inj (w i j i' j' : Int) (hi : 0 ≤ i ∧ i < w) (hi' : 0 ≤ i' ∧ i' < w)
    (h : w * j + i = w * j' + i') : i = i' ∧ j = j' := by
  have hw : 0 < w := by omega
  have e1 : (w * j + i) % w = i := by
    rw [Int.add_comm, Int.add_mul_emod_self_left]; exact Int.emod_eq_of_lt hi.1 hi.2
  have e2 : (w * j' + i') % w = i' := by
    rw [Int.add_comm, Int.add_mul_emod_self_left]; exact Int.emod_eq_of_lt hi'.1 hi'.2
  have hii : i = i' := by rw [← e1, ← e2, h]
  refine ⟨hii, ?_⟩
  subst hii
  have : w * j = w * j' := by omega
  exact Int.eq_of_mul_eq_mul_left (by omega) this

/-! ## Sweeps in which every iteration writes its own cell -/

/-- A sweep over a duplicate-free list of cells with distinct flat indices, each
step replacing the value of its own cell by a function of that value: every visited
cell ends with the function applied to its initial value, all other buffer
entries and the header fields are untouched. -/
theorem foldl_own_cell {α : Type} (F : Int × Int → α → α) (l : List (Int × Int)) (d : data α)
    (hl : l.Nodup)
    (hinj : ∀ p ∈ l, ∀ q ∈ l, d.nx * p.2 + p.1 = d.nx * q.2 + q.1 → p = q) :
    (l.foldl (fun d p => SET d p.1 p.2 (F p (GET d p.1 p.2))) d).nx = d.nx ∧
    (l.foldl (fun d p => SET d p.1 p.2 (F p (GET d p.1 p.2))) d).ny = d.ny ∧
    (l.foldl (fun d p => SET d p.1 p.2 (F p (GET d p.1 p.2))) d).dx = d.dx ∧
    (l.foldl (fun d p => SET d p.1 p.2 (F p (GET d p.1 p.2))) d).dy = d.dy ∧
    (∀ p ∈ l, (l.foldl (fun d p => SET d p.1 p.2 (F p (GET d p.1 p.2))) d).vals
        (d.nx * p.2 + p.1) = F p (d.vals (d.nx * p.2 + p.1))) ∧
    (∀ k, (∀ p ∈ l, d.nx * p.2 + p.1 ≠ k) →
      (l.foldl (fun d p => SET d p.1 p.2 (F p (GET d p.1 p.2))) d).vals k = d.vals k) := by
  induction l generalizing d with
  | nil => simp
  | cons p l ih =>
    have hp : p ∉ l := (List.nodup_cons.mp hl).1
    have hl' : l.Nodup := (List.nodup_cons.mp hl).2
    have hne : ∀ q ∈ l, d.nx * q.2 + q.1 ≠ d.nx * p.2 + p.1 := by
      intro q hq e
      have : q = p := hinj q (List.mem_cons_of_mem _ hq) p (List.mem_cons_self _ _) e
      exact hp (this ▸ hq)
    obtain ⟨h1, h2, h3, h4, h5, h6⟩ := ih (SET d p.1 p.2 (F p (GET d p.1 p.2))) hl'
      (fun a ha b hb e => hinj a (List.mem_cons_of_mem _ ha) b (List.mem_cons_of_mem _ hb) e)
    refine ⟨h1, h2, h3, h4, ?_, ?_⟩
    · intro q hq
      rcases List.mem_cons.mp hq with rfl | hq'
      · have := h6 (d.nx * q.2 + q.1) hne
        simp only [List.foldl_cons]
        rw [this]
        simp [SET, GET]
      · have := h5 q hq'
        simp only [List.foldl_cons]
        simp only [SET] at this ⊢
        rw [this, Function.update_noteq (hne q hq')]
    · intro k hk
      have := h6 k (fun q hq => hk q (List.mem_cons_of_mem _ hq))
      simp only [List.foldl_cons]
      rw [this]
      simp only [SET]
      exact Function.update_noteq (Ne.symm (hk p (List.mem_cons_self _ _))) _ _

/-- In a double loop over `0 ≤ a < n`, `0 ≤ b < m` that writes cell `(a, b)` of a
field of width at least `n` in iteration `(a, b)`, cell `(i, j)` ends with the
function applied to its initial value. -/
theorem sweep_own_cell {α : Type} (F : Int × Int → α → α) (n m : Int) (d : data α)
    (hw : n ≤ d.nx) (i j : Int) (hi : 0 ≤ i ∧ i < n) (hj : 0 ≤ j ∧ j < m) :
    GET ((iter_space n m).foldl (fun d p => SET d p.1 p.2 (F p (GET d p.1 p.2))) d) i j
      = F (i, j) (GET d i j) := by
  have hinj : ∀ p ∈ iter_space n m, ∀ q ∈ iter_space n m,
      d.nx * p.2 + p.1 = d.nx * q.2 + q.1 → p = q := by
    intro p hp q hq e
    rw [mem_iter_space] at hp hq
    have := flat_index_inj d.nx p.1 p.2 q.1 q.2 ⟨hp.1.1, by omega⟩ ⟨hq.1.1, by omega⟩ e
    exact Prod.ext this.1 this.2
  obtain ⟨h1, -, -, -, h5, -⟩ := foldl_own_cell F (iter_space n m) d (nodup_iter_space n m) hinj
  have hmem : (i, j) ∈ iter_space n m := (mem_iter_space n m (i, j)).mpr ⟨hi, hj⟩
  have e : ∀ X : data α, X.nx = d.nx → GET X i j = X.vals (d.nx * j + i) := by
    intro X hX
    unfold GET
    rw [hX]
  rw [e _ h1]
  exact h5 (i, j) hmem

/-! ## The OMP kernels compute what the serial kernels compute -/

/-- The OMP `update_eta` writes into `eta` what the serial `update_eta` returns and
leaves the other fields as they are. -/
theorem OMP_update_eta_eq_serial {α : Type} [Field α] (nx ny : Int) (param : parameters α)
    (s : all_data_t α) :
    OMP.update_eta nx ny param s
      = { s with eta := Serial.update_eta nx ny param s.u s.v s.eta s.h_interp } := by
  unfold OMP.update_eta Serial.update_eta
  rw [loop_nest_eq_foldl, loop_nest_eq_foldl]
  generalize iter_space nx ny = l
  induction l generalizing s with
  | nil => rfl
  | cons p l ih =>
    simp only [List.foldl_cons]
    rw [ih]
    rfl

/-! ## C1: elevation update -/

/-- C1 (elevation update).  For a state whose `eta` has width `nx` (whatever the
widths of `u`, `v`, `h_interp`, in particular `nx + 1`, `nx`, `nx`) and spacings
`dx, dy ≠ 0`, after `update_eta` every cell `0 ≤ i < nx`, `0 ≤ j < ny` holds
`eta[i,j] - dt*h_interp[i,j]*((u[i+1,j]-u[i,j])/dx + (v[i,j+1]-v[i,j])/dy)` evaluated
on the state before the call; for the serial `update_eta` and for the OMP one. -/
theorem update_eta_cell {α : Type} [Field α] (nx ny : Int) (param : parameters α)
    (s : all_data_t α) (hdx : param.dx ≠ 0) (hdy : param.dy ≠ 0) (heta : s.eta.nx = nx)
    (i j : Int) (hi : 0 ≤ i ∧ i < nx) (hj : 0 ≤ j ∧ j < ny) :
    GET (Serial.update_eta nx ny param s.u s.v s.eta s.h_interp) i j
        = GET s.eta i j - param.dt * GET s.h_interp i j *
            ((GET s.u (i + 1) j - GET s.u i j) / param.dx
              + (GET s.v i (j + 1) - GET s.v i j) / param.dy)
    ∧ GET (OMP.update_eta nx ny param s).eta i j
        = GET s.eta i j - param.dt * GET s.h_interp i j *
            ((GET s.u (i + 1) j - GET s.u i j) / param.dx
              + (GET s.v i (j + 1) - GET s.v i j) / param.dy) := by
  have key : GET (Serial.update_eta nx ny param s.u s.v s.eta s.h_interp) i j
        = GET s.eta i j - param.dt * GET s.h_interp i j *
            ((GET s.u (i + 1) j - GET s.u i j) / param.dx
              + (GET s.v i (j + 1) - GET s.v i j) / param.dy) := by
    unfold Serial.update_eta
    rw [loop_nest_eq_foldl]
    refine Eq.trans (sweep_own_cell (fun (q : Int × Int) (e : α) =>
      e - param.dt * GET s.h_interp q.1 q.2 / param.dx * (GET s.u (q.1 + 1) q.2 - GET s.u q.1 q.2)
        - param.dt * GET s.h_interp q.1 q.2 / param.dy * (GET s.v q.1 (q.2 + 1) - GET s.v q.1 q.2))
      nx ny s.eta (le_of_eq heta.symm) i j hi hj) ?_
    field_simp
    ring
  refine ⟨key, ?_⟩
  rw [OMP_update_eta_eq_serial]
  exact key

/-- Witness for `update_eta_cell`: the sample `2 x 2` state, cell `(0, 0)`. -/
theorem update_eta_cell_witness :
    (Sample.param 1).dx ≠ 0 ∧ (Sample.param 1).dy ≠ 0 ∧ Sample.state.eta.nx = 2 ∧
    (GET (Serial.update_eta 2 2 (Sample.param 1) Sample.state.u Sample.state.v
        Sample.state.eta Sample.state.h_interp) 0 0 = 4
      ∧ GET (OMP.update_eta 2 2 (Sample.param 1) Sample.state).eta 0 0 = 4) := by
  have h := update_eta_cell 2 2 (Sample.param 1) Sample.state (by simp [Sample.param])
    (by simp [Sample.param]) rfl 0 0 (by decide) (by decide)
  refine ⟨by simp [Sample.param], by simp [Sample.param], rfl, ?_⟩
  rw [h.1, h.2]
  norm_num [GET, Sample.state, Sample.field, Sample.param, Int.toNat]

/-- The sweep of the serial `update_velocities` over any list of iterations acts on
`u` and on `v` separately, each step writing its own cell. -/
theorem update_velocities_foldl_split {α : Type} [Field α] (param : parameters α)
    (eta : data α) (l : List (Int × Int)) (u v : data α) :
    l.foldl (fun uv p => Serial.update_velocities_body param eta p.1 p.2 uv) (u, v)
      = (l.foldl (fun d p => SET d p.1 p.2 ((fun (q : Int × Int) (e : α) =>
            (1 - param.dt * param.gamma) * e - param.dt * param.g / param.dx *
              (GET eta q.1 q.2 - GET eta (if q.1 = 0 then 0 else q.1 - 1) q.2))
            p (GET d p.1 p.2))) u,
         l.foldl (fun d p => SET d p.1 p.2 ((fun (q : Int × Int) (e : α) =>
            (1 - param.dt * param.gamma) * e - param.dt * param.g / param.dy *
              (GET eta q.1 q.2 - GET eta q.1 (if q.2 = 0 then 0 else q.2 - 1)))
            p (GET d p.1 p.2))) v) := by
  induction l generalizing u v with
  | nil => rfl
  | cons p l ih =>
    simp only [List.foldl_cons]
    exact ih _ _

/-- The OMP `update_velocities` writes into `u` and `v` what the serial
`update_velocities` returns and leaves the other fields as they are. -/
theorem OMP_update_velocities_eq_serial {α : Type} [Field α] (nx ny : Int)
    (param : parameters α) (s : all_data_t α) :
    OMP.update_velocities nx ny param s
      = { s with u := (Serial.update_velocities nx ny param s.u s.v s.eta).1,
                 v := (Serial.update_velocities nx ny param s.u s.v s.eta).2 } := by
  unfold OMP.update_velocities Serial.update_velocities
  rw [loop_nest_eq_foldl, loop_nest_eq_foldl]
  generalize iter_space nx ny = l
  induction l generalizing s with
  | nil => rfl
  | cons p l ih =>
    simp only [List.foldl_cons]
    rw [ih]
    rfl

/-- Every swept cell of `u` and of `v` after the serial `update_velocities`, with
the prior-index term as the code selects it. -/
theorem update_velocities_swept {α : Type} [Field α] (nx ny : Int) (param : parameters α)
    (u v eta : data α) (hu : nx ≤ u.nx) (hv : nx ≤ v.nx)
    (i j : Int) (hi : 0 ≤ i ∧ i < nx) (hj : 0 ≤ j ∧ j < ny) :
    GET (Serial.update_velocities nx ny param u v eta).1 i j
        = (1 - param.dt * param.gamma) * GET u i j - param.dt * param.g / param.dx *
            (GET eta i j - GET eta (if i = 0 then 0 else i - 1) j)
    ∧ GET (Serial.update_velocities nx ny param u v eta).2 i j
        = (1 - param.dt * param.gamma) * GET v i j - param.dt * param.g / param.dy *
            (GET eta i j - GET eta i (if j = 0 then 0 else j - 1)) := by
  unfold Serial.update_velocities
  rw [loop_nest_eq_foldl, update_velocities_foldl_split]
  exact ⟨sweep_own_cell (fun (q : Int × Int) (e : α) =>
      (1 - param.dt * param.gamma) * e - param.dt * param.g / param.dx *
        (GET eta q.1 q.2 - GET eta (if q.1 = 0 then 0 else q.1 - 1) q.2)) nx ny u hu i j hi hj,
    sweep_own_cell (fun (q : Int × Int) (e : α) =>
      (1 - param.dt * param.gamma) * e - param.dt * param.g / param.dy *
        (GET eta q.1 q.2 - GET eta q.1 (if q.2 = 0 then 0 else q.2 - 1))) nx ny v hv i j hi hj⟩

/-! ## C2: velocity update -/

/-- C2 (velocity update).  With `u` of width `nx + 1`, `v` of width `nx` and
`dx, dy ≠ 0`, after `update_velocities` (serial and OMP) every cell `1 ≤ i < nx`,
`0 ≤ j < ny` has `u[i,j] = (1-dt*gamma)*u[i,j] - dt*g/dx*(eta[i,j]-eta[i-1,j])`, and
every cell `0 ≤ i < nx`, `1 ≤ j < ny` has
`v[i,j] = (1-dt*gamma)*v[i,j] - dt*g/dy*(eta[i,j]-eta[i,j-1])`, the right-hand sides
evaluated on the state before the call. -/
theorem update_velocities_cell {α : Type} [Field α] (nx ny : Int) (param : parameters α)
    (s : all_data_t α) (hdx : param.dx ≠ 0) (hdy : param.dy ≠ 0)
    (hu : s.u.nx = nx + 1) (hv : s.v.nx = nx) :
    (∀ i j : Int, 1 ≤ i ∧ i < nx → 0 ≤ j ∧ j < ny →
      GET (Serial.update_velocities nx ny param s.u s.v s.eta).1 i j
          = (1 - param.dt * param.gamma) * GET s.u i j
            - param.dt * param.g / param.dx * (GET s.eta i j - GET s.eta (i - 1) j)
      ∧ GET (OMP.update_velocities nx ny param s).u i j
          = (1 - param.dt * param.gamma) * GET s.u i j
            - param.dt * param.g / param.dx * (GET s.eta i j - GET s.eta (i - 1) j))
    ∧ (∀ i j : Int, 0 ≤ i ∧ i < nx → 1 ≤ j ∧ j < ny →
      GET (Serial.update_velocities nx ny param s.u s.v s.eta).2 i j
          = (1 - param.dt * param.gamma) * GET s.v i j
            - param.dt * param.g / param.dy * (GET s.eta i j - GET s.eta i (j - 1))
      ∧ GET (OMP.update_velocities nx ny param s).v i j
          = (1 - param.dt * param.gamma) * GET s.v i j
            - param.dt * param.g / param.dy * (GET s.eta i j - GET s.eta i (j - 1))) := by
  have hu' : nx ≤ s.u.nx := by omega
  have hv' : nx ≤ s.v.nx := by omega
  rw [OMP_update_velocities_eq_serial]
  constructor
  · intro i j hi hj
    have h := (update_velocities_swept nx ny param s.u s.v s.eta hu' hv' i j
      ⟨by omega, hi.2⟩ hj).1
    rw [if_neg (by omega : ¬ i = 0)] at h
    exact ⟨h, h⟩
  · intro i j hi hj
    have h := (update_velocities_swept nx ny param s.u s.v s.eta hu' hv' i j hi
      ⟨by omega, hj.2⟩).2
    rw [if_neg (by omega : ¬ j = 0)] at h
    exact ⟨h, h⟩

/-- Witness for `update_velocities_cell`: the sample `2 x 2` state, cells `(1, 0)`
of `u` and `(0, 1)` of `v`. -/
theorem update_velocities_cell_witness :
    (Sample.param 1).dx ≠ 0 ∧ (Sample.param 1).dy ≠ 0 ∧ Sample.state.u.nx = 2 + 1 ∧
    Sample.state.v.nx = 2 ∧
    GET (Serial.update_velocities 2 2 (Sample.param 1) Sample.state.u Sample.state.v
      Sample.state.eta).1 1 0 = 9 ∧
    GET (OMP.update_velocities 2 2 (Sample.param 1) Sample.state).v 0 1 = 10 := by
  have h := update_velocities_cell 2 2 (Sample.param 1) Sample.state
    (by simp [Sample.param]) (by simp [Sample.param]) rfl rfl
  refine ⟨by simp [Sample.param], by simp [Sample.param], rfl, rfl, ?_, ?_⟩
  · rw [(h.1 1 0 (by decide) (by decide)).1]
    norm_num [GET, Sample.state, Sample.field, Sample.param, Int.toNat]
  · rw [(h.2 0 1 (by decide) (by decide)).2]
    norm_num [GET, Sample.state, Sample.field, Sample.param, Int.toNat]

/-! ## C3: one-sided difference at index 0 -/

/-- C3 (one-sided difference at index 0).  In `update_velocities` (serial and OMP)
the prior-index term at index 0 is the cell itself, so the elevation-gradient term
vanishes: every swept cell `(0, j)` of `u` (`0 < nx`, `0 ≤ j < ny`) ends as
`(1-dt*gamma)*u[0,j]` and every swept cell `(i, 0)` of `v` (`0 ≤ i < nx`, `0 < ny`)
ends as `(1-dt*gamma)*v[i,0]`, whatever `eta` holds. -/
theorem update_velocities_index_zero {α : Type} [Field α] (nx ny : Int)
    (param : parameters α) (s : all_data_t α) (hu : s.u.nx = nx + 1) (hv : s.v.nx = nx) :
    (∀ j : Int, 0 < nx → 0 ≤ j ∧ j < ny →
      GET (Serial.update_velocities nx ny param s.u s.v s.eta).1 0 j
          = (1 - param.dt * param.gamma) * GET s.u 0 j
      ∧ GET (OMP.update_velocities nx ny param s).u 0 j
          = (1 - param.dt * param.gamma) * GET s.u 0 j)
    ∧ (∀ i : Int, 0 ≤ i ∧ i < nx → 0 < ny →
      GET (Serial.update_velocities nx ny param s.u s.v s.eta).2 i 0
          = (1 - param.dt * param.gamma) * GET s.v i 0
      ∧ GET (OMP.update_velocities nx ny param s).v i 0
          = (1 - param.dt * param.gamma) * GET s.v i 0) := by
  have hu' : nx ≤ s.u.nx := by omega
  have hv' : nx ≤ s.v.nx := by omega
  rw [OMP_update_velocities_eq_serial]
  constructor
  · intro j hnx hj
    have h := (update_velocities_swept nx ny param s.u s.v s.eta hu' hv' 0 j
      ⟨le_refl 0, hnx⟩ hj).1
    rw [if_pos rfl, sub_self, mul_zero, sub_zero] at h
    exact ⟨h, h⟩
  · intro i hi hny
    have h := (update_velocities_swept nx ny param s.u s.v s.eta hu' hv' i 0 hi
      ⟨le_refl 0, hny⟩).2
    rw [if_pos rfl, sub_self, mul_zero, sub_zero] at h
    exact ⟨h, h⟩

/-- Witness for `update_velocities_index_zero`: the sample `2 x 2` state, cells
`(0, 1)` of `u` and `(1, 0)` of `v`. -/
theorem update_velocities_index_zero_witness :
    Sample.state.u.nx = 2 + 1 ∧ Sample.state.v.nx = 2 ∧
    GET (Serial.update_velocities 2 2 (Sample.param 1) Sample.state.u Sample.state.v
      Sample.state.eta).1 0 1 = 4 ∧
    GET (OMP.update_velocities 2 2 (Sample.param 1) Sample.state).v 1 0 = 2 := by
  have h := update_velocities_index_zero 2 2 (Sample.param 1) Sample.state rfl rfl
  refine ⟨rfl, rfl, ?_, ?_⟩
  · rw [(h.1 1 (by decide) (by decide)).1]
    norm_num [GET, Sample.state, Sample.field, Sample.param, Int.toNat]
  · rw [(h.2 1 (by decide) (by decide)).2]
    norm_num [GET, Sample.state, Sample.field, Sample.param, Int.toNat]

/-! ## Invariants of sweeps -/

/-- A property preserved by every step of a sweep holds after the sweep. -/
theorem foldl_invariant {σ β : Type} (step : σ → β → σ) (P : σ → Prop) (l : List β) (s : σ)
    (hstep : ∀ s b, b ∈ l → P s → P (step s b)) (h0 : P s) : P (l.foldl step s) := by
  induction l generalizing s with
  | nil => exact h0
  | cons b l ih =>
    exact ih (step s b) (fun s c hc => hstep s c (List.mem_cons_of_mem _ hc))
      (hstep s b (List.mem_cons_self _ _) h0)

/-- A property established by one step of a sweep (under an invariant `I`) and
preserved by every step holds after the sweep. -/
theorem foldl_established {σ β : Type} (step : σ → β → σ) (I Q : σ → Prop) (l : List β)
    (s : σ) (hI : ∀ s b, b ∈ l → I s → I (step s b))
    (hQ : ∀ s b, b ∈ l → I s → Q s → Q (step s b))
    (b0 : β) (hb0 : b0 ∈ l) (hest : ∀ s, I s → Q (step s b0)) (h0 : I s) :
    Q (l.foldl step s) := by
  induction l generalizing s with
  | nil => cases hb0
  | cons b l ih =>
    rcases List.mem_cons.mp hb0 with rfl | hb0'
    · have hI0 : I (step s b0) := hI s b0 (List.mem_cons_self _ _) h0
      have := foldl_invariant step (fun s => I s ∧ Q s) l (step s b0)
        (fun s c hc h => ⟨hI s c (List.mem_cons_of_mem _ hc) h.1,
          hQ s c (List.mem_cons_of_mem _ hc) h.1 h.2⟩) ⟨hI0, hest s h0⟩
      exact this.2
    · exact ih (step s b) (fun s c hc => hI s c (List.mem_cons_of_mem _ hc))
        (fun s c hc => hQ s c (List.mem_cons_of_mem _ hc)) hb0'
        (hI s b (List.mem_cons_self _ _) h0)

/-- The invariant form of `foldl_invariant` for a `loop`. -/
theorem loop_invariant {σ : Type} (n : Int) (body : Int → σ → σ) (P : σ → Prop) (s : σ)
    (hstep : ∀ k s, 0 ≤ k ∧ k < n → P s → P (body k s)) (h0 : P s) : P (loop n body s) := by
  unfold loop
  refine foldl_invariant (fun acc (k : Nat) => body (k : Int) acc) P _ s ?_ h0
  intro s k hk hP
  rw [List.mem_range] at hk
  exact hstep k s (by omega) hP

/-! ## C4: type 1 injection -/

/-- The type 1 sweep of the OMP `boundary_condition` writes into `u` and `v` what
the type 1 sweep of the serial `main` does. -/
theorem source1_foldl_OMP_eq_serial {α : Type} [Field α] (nx ny : Int) (val : α)
    (l : List (Int × Int)) (s : all_data_t α) :
    l.foldl (fun s p => OMP.source1_body nx ny val p.1 p.2 s) s
      = { s with
          u := (l.foldl (fun uv p => Serial.main_source1_body nx ny val p.1 p.2 uv)
            (s.u, s.v)).1,
          v := (l.foldl (fun uv p => Serial.main_source1_body nx ny val p.1 p.2 uv)
            (s.u, s.v)).2 } := by
  induction l generalizing s with
  | nil => rfl
  | cons p l ih =>
    simp only [List.foldl_cons]
    rw [ih]
    rfl

/-- For `source_type = 1` the injection block of the serial `main` and the OMP
`boundary_condition` return the same fields. -/
theorem boundary_type1_serial_eq_OMP {α : Type} [Field α] (sin sqrt : α → α) (M_PI : α)
    (n nx ny : Int) (param : parameters α) (s : all_data_t α) (h1 : param.source_type = 1) :
    Serial.main_boundary sin M_PI n nx ny param s
      = OMP.boundary_condition sin sqrt M_PI n nx ny param s := by
  unfold Serial.main_boundary OMP.boundary_condition
  simp only [h1, if_true]
  rw [loop_nest_eq_foldl, loop_nest_eq_foldl, source1_foldl_OMP_eq_serial]


/-- The type 1 sweep changes only the buffers of `u` and `v`. -/
theorem source1_foldl_frame {α : Type} [Field α] (nx ny : Int) (val : α)
    (l : List (Int × Int)) (s : all_data_t α) :
    (l.foldl (fun s p => OMP.source1_body nx ny val p.1 p.2 s) s).u.nx = s.u.nx
    ∧ (l.foldl (fun s p => OMP.source1_body nx ny val p.1 p.2 s) s).v.nx = s.v.nx
    ∧ (l.foldl (fun s p => OMP.source1_body nx ny val p.1 p.2 s) s).eta = s.eta
    ∧ (l.foldl (fun s p => OMP.source1_body nx ny val p.1 p.2 s) s).h_interp = s.h_interp
    ∧ (l.foldl (fun s p => OMP.source1_body nx ny val p.1 p.2 s) s).h = s.h := by
  induction l generalizing s with
  | nil => exact ⟨rfl, rfl, rfl, rfl, rfl⟩
  | cons p l ih => exact ih _

/-- Buffer entries of `u` and `v` after one iteration of the type 1 sweep. -/
theorem source1_body_vals {α : Type} [Field α] (nx ny : Int) (val : α) (i j : Int)
    (t : all_data_t α) (k : Int) :
    (OMP.source1_body nx ny val i j t).u.vals k
        = (if k = t.u.nx * j + nx then 0 else if k = t.u.nx * j + 0 then 0 else t.u.vals k)
    ∧ (OMP.source1_body nx ny val i j t).v.vals k
        = (if k = t.v.nx * ny + i then val else if k = t.v.nx * 0 + i then 0 else t.v.vals k)
    ∧ (OMP.source1_body nx ny val i j t).u.nx = t.u.nx
    ∧ (OMP.source1_body nx ny val i j t).v.nx = t.v.nx := by
  refine ⟨?_, ?_, rfl, rfl⟩ <;> simp only [OMP.source1_body, SET, Function.update_apply]

/-- Entries of `u` and `v` after the type 1 sweep over a list `l` of iterations, by
flat index `k`: an entry of `u` written by some iteration is 0, an entry of `v`
written as top-row entry is `val`, one written only as bottom-row entry is 0, and
entries written by no iteration keep their value. -/
theorem source1_foldl_vals {α : Type} [Field α] (nx ny : Int) (val : α)
    (l : List (Int × Int)) (s : all_data_t α) (k : Int) :
    ((∃ p ∈ l, k = s.u.nx * p.2 + nx ∨ k = s.u.nx * p.2 + 0) →
      (l.foldl (fun s p => OMP.source1_body nx ny val p.1 p.2 s) s).u.vals k = 0)
    ∧ ((∀ p ∈ l, k ≠ s.u.nx * p.2 + nx ∧ k ≠ s.u.nx * p.2 + 0) →
      (l.foldl (fun s p => OMP.source1_body nx ny val p.1 p.2 s) s).u.vals k = s.u.vals k)
    ∧ ((∃ p ∈ l, k = s.v.nx * ny + p.1) → (∀ p ∈ l, k ≠ s.v.nx * 0 + p.1) →
      (l.foldl (fun s p => OMP.source1_body nx ny val p.1 p.2 s) s).v.vals k = val)
    ∧ ((∃ p ∈ l, k = s.v.nx * 0 + p.1) → (∀ p ∈ l, k ≠ s.v.nx * ny + p.1) →
      (l.foldl (fun s p => OMP.source1_body nx ny val p.1 p.2 s) s).v.vals k = 0)
    ∧ ((∀ p ∈ l, k ≠ s.v.nx * ny + p.1 ∧ k ≠ s.v.nx * 0 + p.1) →
      (l.foldl (fun s p => OMP.source1_body nx ny val p.1 p.2 s) s).v.vals k = s.v.vals k) := by
  have hIu : ∀ (t : all_data_t α) (p : Int × Int), p ∈ l → t.u.nx = s.u.nx →
      (OMP.source1_body nx ny val p.1 p.2 t).u.nx = s.u.nx :=
    fun t p _ h => (source1_body_vals nx ny val p.1 p.2 t k).2.2.1.trans h
  have hIv : ∀ (t : all_data_t α) (p : Int × Int), p ∈ l → t.v.nx = s.v.nx →
      (OMP.source1_body nx ny val p.1 p.2 t).v.nx = s.v.nx :=
    fun t p _ h => (source1_body_vals nx ny val p.1 p.2 t k).2.2.2.trans h
  have h0u : s.u.nx = s.u.nx := rfl
  have h0v : s.v.nx = s.v.nx := rfl
  refine ⟨?_, ?_, ?_, ?_, ?_⟩
  · rintro ⟨b0, hb0, hk⟩
    have hQ : ∀ (t : all_data_t α) (p : Int × Int), p ∈ l → t.u.nx = s.u.nx →
        t.u.vals k = 0 → (OMP.source1_body nx ny val p.1 p.2 t).u.vals k = 0 := by
      intro t p _ _ hq
      rw [(source1_body_vals nx ny val p.1 p.2 t k).1]
      split_ifs <;> first | rfl | exact hq
    have hE : ∀ (t : all_data_t α), t.u.nx = s.u.nx →
        (OMP.source1_body nx ny val b0.1 b0.2 t).u.vals k = 0 := by
      intro t hI
      rw [(source1_body_vals nx ny val b0.1 b0.2 t k).1, hI]
      rcases hk with hk | hk
      · rw [if_pos hk]
      · rw [if_pos hk]; split_ifs <;> rfl
    have H := foldl_established (fun s p => OMP.source1_body nx ny val p.1 p.2 s)
      (fun t => t.u.nx = s.u.nx) (fun t => t.u.vals k = 0) l s
    exact H hIu hQ b0 hb0 hE h0u
  · intro hk
    have hP : ∀ (t : all_data_t α) (p : Int × Int), p ∈ l →
        (t.u.nx = s.u.nx ∧ t.u.vals k = s.u.vals k) →
        ((OMP.source1_body nx ny val p.1 p.2 t).u.nx = s.u.nx ∧
          (OMP.source1_body nx ny val p.1 p.2 t).u.vals k = s.u.vals k) := by
      intro t p hp h
      refine ⟨hIu t p hp h.1, ?_⟩
      rw [(source1_body_vals nx ny val p.1 p.2 t k).1, h.1, if_neg (hk p hp).1,
        if_neg (hk p hp).2]
      exact h.2
    have h0 : s.u.nx = s.u.nx ∧ s.u.vals k = s.u.vals k := ⟨rfl, rfl⟩
    have H := foldl_invariant (fun s p => OMP.source1_body nx ny val p.1 p.2 s)
      (fun t => t.u.nx = s.u.nx ∧ t.u.vals k = s.u.vals k) l s
    exact (H hP h0).2
  · rintro ⟨b0, hb0, hk⟩ hne
    have hQ : ∀ (t : all_data_t α) (p : Int × Int), p ∈ l → t.v.nx = s.v.nx →
        t.v.vals k = val → (OMP.source1_body nx ny val p.1 p.2 t).v.vals k = val := by
      intro t p hp hI hq
      rw [(source1_body_vals nx ny val p.1 p.2 t k).2.1, hI, if_neg (hne p hp)]
      split_ifs <;> first | rfl | exact hq
    have hE : ∀ (t : all_data_t α), t.v.nx = s.v.nx →
        (OMP.source1_body nx ny val b0.1 b0.2 t).v.vals k = val := by
      intro t hI
      rw [(source1_body_vals nx ny val b0.1 b0.2 t k).2.1, hI, if_pos hk]
    have H := foldl_established (fun s p => OMP.source1_body nx ny val p.1 p.2 s)
      (fun t => t.v.nx = s.v.nx) (fun t => t.v.vals k = val) l s
    exact H hIv hQ b0 hb0 hE h0v
  · rintro ⟨b0, hb0, hk⟩ hne
    have hQ : ∀ (t : all_data_t α) (p : Int × Int), p ∈ l → t.v.nx = s.v.nx →
        t.v.vals k = 0 → (OMP.source1_body nx ny val p.1 p.2 t).v.vals k = 0 := by
      intro t p hp hI hq
      rw [(source1_body_vals nx ny val p.1 p.2 t k).2.1, hI, if_neg (hne p hp)]
      split_ifs <;> first | rfl | exact hq
    have hE : ∀ (t : all_data_t α), t.v.nx = s.v.nx →
        (OMP.source1_body nx ny val b0.1 b0.2 t).v.vals k = 0 := by
      intro t hI
      rw [(source1_body_vals nx ny val b0.1 b0.2 t k).2.1, hI, if_neg (hne b0 hb0), if_pos hk]
    have H := foldl_established (fun s p => OMP.source1_body nx ny val p.1 p.2 s)
      (fun t => t.v.nx = s.v.nx) (fun t => t.v.vals k = 0) l s
    exact H hIv hQ b0 hb0 hE h0v
  · intro hk
    have hP : ∀ (t : all_data_t α) (p : Int × Int), p ∈ l →
        (t.v.nx = s.v.nx ∧ t.v.vals k = s.v.vals k) →
        ((OMP.source1_body nx ny val p.1 p.2 t).v.nx = s.v.nx ∧
          (OMP.source1_body nx ny val p.1 p.2 t).v.vals k = s.v.vals k) := by
      intro t p hp h
      refine ⟨hIv t p hp h.1, ?_⟩
      rw [(source1_body_vals nx ny val p.1 p.2 t k).2.1, h.1, if_neg (hk p hp).1,
        if_neg (hk p hp).2]
      exact h.2
    have h0 : s.v.nx = s.v.nx ∧ s.v.vals k = s.v.vals k := ⟨rfl, rfl⟩
    have H := foldl_invariant (fun s p => OMP.source1_body nx ny val p.1 p.2 s)
      (fun t => t.v.nx = s.v.nx ∧ t.v.vals k = s.v.vals k) l s
    exact (H hP h0).2

/-- For `source_type = 1` the OMP `boundary_condition` returns the fields left by
the type 1 sweep. -/
theorem boundary_type1_OMP_eq {α : Type} [Field α] (sin sqrt : α → α) (M_PI : α)
    (n nx ny : Int) (param : parameters α) (s : all_data_t α) (h1 : param.source_type = 1) :
    OMP.boundary_condition sin sqrt M_PI n nx ny param s
      = Except.ok ((iter_space nx ny).foldl (fun s p => OMP.source1_body nx ny
          (5 * sin (2 * M_PI * (1 / 20) * ((n : α) * param.dt))) p.1 p.2 s) s) := by
  unfold OMP.boundary_condition
  simp only [h1, if_true]
  rw [loop_nest_eq_foldl]

/-- After the type 1 sweep the row `j = ny` of `v` holds the forcing value. -/
theorem source1_top_row {α : Type} [Field α] (nx ny : Int) (val : α) (s : all_data_t α)
    (hny : 1 ≤ ny) (hv : s.v.nx = nx) (i : Int) (hi : 0 ≤ i ∧ i < nx) :
    GET ((iter_space nx ny).foldl (fun s p => OMP.source1_body nx ny val p.1 p.2 s) s).v i ny
      = val := by
  have hmem : (i, (0 : Int)) ∈ iter_space nx ny :=
    (mem_iter_space nx ny (i, 0)).mpr ⟨hi, ⟨le_refl 0, by omega⟩⟩
  unfold GET
  rw [(source1_foldl_frame nx ny val (iter_space nx ny) s).2.1]
  refine (source1_foldl_vals nx ny val (iter_space nx ny) s _).2.2.1 ⟨(i, 0), hmem, rfl⟩ ?_
  intro p hp e
  rw [mem_iter_space] at hp
  rw [hv] at e
  have := flat_index_inj nx i ny p.1 0 hi hp.1 e
  omega

/-- C4 (type 1 injection).  For `source_type = 1`, `nx, ny ≥ 1`, `u` of width
`nx + 1` and `v` of width `nx`, the injection block of the serial `main` and the OMP
`boundary_condition` both return, at every step `n`, the same fields, in which
`u[0,j] = 0` and `u[nx,j] = 0` for `0 ≤ j < ny`, `v[i,0] = 0` and
`v[i,ny] = 5*sin(2*M_PI*(1/20)*n*dt)` for `0 ≤ i < nx`, every other cell of `u` and
`v` keeps its value, and `eta` and `h_interp` are unchanged. -/
theorem boundary_type1 {α : Type} [Field α] (sin sqrt : α → α) (M_PI : α) (n nx ny : Int)
    (param : parameters α) (s : all_data_t α) (h1 : param.source_type = 1)
    (hnx : 1 ≤ nx) (hny : 1 ≤ ny) (hu : s.u.nx = nx + 1) (hv : s.v.nx = nx) :
    ∃ s' : all_data_t α,
      Serial.main_boundary sin M_PI n nx ny param s = Except.ok s'
      ∧ OMP.boundary_condition sin sqrt M_PI n nx ny param s = Except.ok s'
      ∧ (∀ j : Int, 0 ≤ j ∧ j < ny → GET s'.u 0 j = 0 ∧ GET s'.u nx j = 0)
      ∧ (∀ i : Int, 0 ≤ i ∧ i < nx →
          GET s'.v i 0 = 0 ∧ GET s'.v i ny = 5 * sin (2 * M_PI * (1 / 20) * n * param.dt))
      ∧ (∀ i j : Int, 0 < i ∧ i < nx → 0 ≤ j ∧ j < ny → GET s'.u i j = GET s.u i j)
      ∧ (∀ i j : Int, 0 ≤ i ∧ i < nx → 0 < j ∧ j < ny → GET s'.v i j = GET s.v i j)
      ∧ s'.eta = s.eta ∧ s'.h_interp = s.h_interp := by
  have hOMP := boundary_type1_OMP_eq sin sqrt M_PI n nx ny param s h1
  obtain ⟨fu, fv, feta, fh, -⟩ := source1_foldl_frame nx ny
    (5 * sin (2 * M_PI * (1 / 20) * ((n : α) * param.dt))) (iter_space nx ny) s
  have V := source1_foldl_vals nx ny
    (5 * sin (2 * M_PI * (1 / 20) * ((n : α) * param.dt))) (iter_space nx ny) s
  refine ⟨_, (boundary_type1_serial_eq_OMP sin sqrt M_PI n nx ny param s h1).trans hOMP, hOMP,
    ?_, ?_, ?_, ?_, feta, fh⟩
  · intro j hj
    have hmem : ((0 : Int), j) ∈ iter_space nx ny :=
      (mem_iter_space nx ny (0, j)).mpr ⟨⟨le_refl 0, by omega⟩, hj⟩
    constructor
    · unfold GET
      rw [fu]
      exact (V _).1 ⟨(0, j), hmem, Or.inr rfl⟩
    · unfold GET
      rw [fu]
      exact (V _).1 ⟨(0, j), hmem, Or.inl rfl⟩
  · intro i hi
    have hmem : (i, (0 : Int)) ∈ iter_space nx ny :=
      (mem_iter_space nx ny (i, 0)).mpr ⟨hi, ⟨le_refl 0, by omega⟩⟩
    constructor
    · unfold GET
      rw [fv]
      refine (V _).2.2.2.1 ⟨(i, 0), hmem, rfl⟩ ?_
      intro p hp e
      rw [mem_iter_space] at hp
      rw [hv] at e
      have := flat_index_inj nx i 0 p.1 ny hi hp.1 e
      omega
    · rw [mul_assoc (2 * M_PI * (1 / 20)) (n : α) param.dt]
      exact source1_top_row nx ny _ s hny hv i hi
  · intro i j hi hj
    unfold GET
    rw [fu]
    refine (V _).2.1 ?_
    intro p hp
    rw [hu]
    constructor
    · intro e
      have := flat_index_inj (nx + 1) i j nx p.2 ⟨by omega, by omega⟩ ⟨by omega, by omega⟩ e
      omega
    · intro e
      have := flat_index_inj (nx + 1) i j 0 p.2 ⟨by omega, by omega⟩ ⟨by omega, by omega⟩ e
      omega
  · intro i j hi hj
    unfold GET
    rw [fv]
    refine (V _).2.2.2.2 ?_
    intro p hp
    rw [mem_iter_space] at hp
    rw [hv]
    constructor
    · intro e
      have := flat_index_inj nx i j p.1 ny hi hp.1 e
      omega
    · intro e
      have := flat_index_inj nx i j p.1 0 hi hp.1 e
      omega

/-- Witness for `boundary_type1`: the sample `2 x 2` state at step 3, with the
identity in place of `sin` and `sqrt` and 3 in place of `M_PI`. -/
theorem boundary_type1_witness :
    (Sample.param 1).source_type = 1 ∧ (1 : Int) ≤ 2 ∧ Sample.state.u.nx = 2 + 1 ∧
    Sample.state.v.nx = 2 ∧
    ∃ s' : all_data_t ℚ,
      Serial.main_boundary (fun x => x) 3 3 2 2 (Sample.param 1) Sample.state = Except.ok s'
      ∧ OMP.boundary_condition (fun x => x) (fun x => x) 3 3 2 2 (Sample.param 1) Sample.state
          = Except.ok s'
      ∧ GET s'.u 2 1 = 0 ∧ GET s'.v 1 2 = 9 / 2 ∧ GET s'.u 1 1 = 5 ∧ GET s'.v 1 1 = 4 := by
  obtain ⟨s', e1, e2, h3, h4, h5, h6, -, -⟩ := boundary_type1 (fun x => x) (fun x => x) 3 3 2 2
    (Sample.param 1) Sample.state rfl (by decide) (by decide) rfl rfl
  refine ⟨rfl, by decide, rfl, rfl, s', e1, e2, (h3 1 (by decide)).2, ?_, ?_, ?_⟩
  · rw [(h4 1 (by decide)).2]
    norm_num [Sample.param]
  · rw [h5 1 1 (by decide) (by decide)]
    norm_num [GET, Sample.state, Sample.field, Int.toNat]
  · rw [h6 1 1 (by decide) (by decide)]
    norm_num [GET, Sample.state, Sample.field, Int.toNat]

/-! ## C5: boundary injection at step 0 -/

/-- For `source_type = 2` the OMP `boundary_condition` returns the fields obtained
by the center-cell write followed by the two absorbing-edge loops. -/
theorem boundary_type2_OMP_eq {α : Type} [Field α] (sin sqrt : α → α) (M_PI : α)
    (n nx ny : Int) (param : parameters α) (s : all_data_t α) (h2 : param.source_type = 2) :
    OMP.boundary_condition sin sqrt M_PI n nx ny param s
      = Except.ok (loop ny (fun j s => OMP.absorb_cols_body sqrt nx param j s)
          (loop nx (fun i s => OMP.absorb_rows_body sqrt ny param i s)
            { s with eta := (SET s.eta (Int.tdiv nx 2) (Int.tdiv ny 2)
                (5 * sin (2 * M_PI * (1 / 20) * ((n : α) * param.dt)))) })) := by
  unfold OMP.boundary_condition
  simp only [h2, if_true]
  rfl

/-- For `source_type = 2` the injection block of the serial `main` returns the
fields after the center-cell write. -/
theorem boundary_type2_serial_eq {α : Type} [Field α] (sin : α → α) (M_PI : α)
    (n nx ny : Int) (param : parameters α) (s : all_data_t α) (h2 : param.source_type = 2) :
    Serial.main_boundary sin M_PI n nx ny param s
      = Except.ok { s with eta := (SET s.eta (Int.tdiv nx 2) (Int.tdiv ny 2)
          (5 * sin (2 * M_PI * (1 / 20) * ((n : α) * param.dt)))) } := by
  unfold Serial.main_boundary
  simp only [h2, if_true]
  rfl

/-- C5, counterexample to part (b) for the OMP `boundary_condition`: on the `2 x 3`
grid the center cell `(1, 1)` lies on the right edge, and with unit depth, unit
steps, `g = 1` and `eta[0,1] = 1` the absorbing-edge write that follows the
center-cell write leaves `eta[1,1] = 2` at step 0. -/
theorem boundary_type2_center_overwritten :
    ∃ s' : all_data_t ℝ,
      OMP.boundary_condition Real.sin Real.sqrt Real.pi 0 2 3 (Sample.unit_param ℝ 2)
        (Sample.bump ℝ 2 3) = Except.ok s'
      ∧ GET s'.eta (Int.tdiv 2 2) (Int.tdiv 3 2) = 2
      ∧ GET s'.eta (Int.tdiv 2 2) (Int.tdiv 3 2) ≠ 0 := by
  have key : GET (loop 3 (fun j s => OMP.absorb_cols_body Real.sqrt 2 (Sample.unit_param ℝ 2) j s)
      (loop 2 (fun i s => OMP.absorb_rows_body Real.sqrt 3 (Sample.unit_param ℝ 2) i s)
        { Sample.bump ℝ 2 3 with
          eta := (SET (Sample.bump ℝ 2 3).eta (Int.tdiv 2 2) (Int.tdiv 3 2)
            (5 * Real.sin (2 * Real.pi * (1 / 20) *
              (((0 : Int) : ℝ) * (Sample.unit_param ℝ 2).dt)))) })).eta
      (Int.tdiv 2 2) (Int.tdiv 3 2) = 2 := by
    have e2 : (2 : Int).toNat = 2 := rfl
    have e3 : (3 : Int).toNat = 3 := rfl
    have t2 : Int.tdiv 2 2 = 1 := rfl
    have t3 : Int.tdiv 3 2 = 1 := rfl
    simp only [loop, e2, e3, t2, t3, List.range_succ, List.range_zero, List.nil_append,
      List.cons_append, List.foldl_cons, List.foldl_nil]
    simp [OMP.absorb_rows_body, OMP.absorb_cols_body, GET, SET, Function.update_apply,
      Sample.bump, Sample.spike, Sample.const, Sample.unit_param]
    norm_num
  refine ⟨_, boundary_type2_OMP_eq Real.sin Real.sqrt Real.pi 0 2 3 (Sample.unit_param ℝ 2)
    (Sample.bump ℝ 2 3) rfl, key, ?_⟩
  rw [key]
  norm_num

/-- Entries of `eta` after one iteration of the first absorbing-edge loop: only the
bottom-row and top-row entries of column `i` are written. -/
theorem absorb_rows_body_eta {α : Type} [Field α] (sqrt : α → α) (ny : Int)
    (param : parameters α) (i : Int) (t : all_data_t α) (k : Int)
    (hb : k ≠ t.eta.nx * 0 + i) (ht : k ≠ t.eta.nx * (ny - 1) + i) :
    (OMP.absorb_rows_body sqrt ny param i t).eta.vals k = t.eta.vals k
    ∧ (OMP.absorb_rows_body sqrt ny param i t).eta.nx = t.eta.nx := by
  refine ⟨?_, rfl⟩
  simp only [OMP.absorb_rows_body, SET]
  rw [Function.update_noteq ht, Function.update_noteq hb]

/-- Entries of `eta` after one iteration of the second absorbing-edge loop: only the
left-column and right-column entries of row `j` are written. -/
theorem absorb_cols_body_eta {α : Type} [Field α] (sqrt : α → α) (nx : Int)
    (param : parameters α) (j : Int) (t : all_data_t α) (k : Int)
    (hl : k ≠ t.eta.nx * j + 0) (hr : k ≠ t.eta.nx * j + (nx - 1)) :
    (OMP.absorb_cols_body sqrt nx param j t).eta.vals k = t.eta.vals k
    ∧ (OMP.absorb_cols_body sqrt nx param j t).eta.nx = t.eta.nx := by
  refine ⟨?_, rfl⟩
  simp only [OMP.absorb_cols_body, SET]
  rw [Function.update_noteq hr, Function.update_noteq hl]

/-- The two absorbing-edge loops leave every cell `(a, b)` of `eta` that is not on
an edge (`0 < a < nx - 1`, `0 < b < ny - 1`) untouched. -/
theorem absorb_loops_interior {α : Type} [Field α] (sqrt : α → α) (nx ny : Int)
    (param : parameters α) (s : all_data_t α) (heta : s.eta.nx = nx) (a b : Int)
    (ha : 0 < a ∧ a < nx - 1) (hb : 0 < b ∧ b < ny - 1) :
    GET (loop ny (fun j s => OMP.absorb_cols_body sqrt nx param j s)
      (loop nx (fun i s => OMP.absorb_rows_body sqrt ny param i s) s)).eta a b
      = GET s.eta a b := by
  have hrows : ∀ (i : Int) (t : all_data_t α), 0 ≤ i ∧ i < nx →
      (t.eta.nx = nx ∧ t.eta.vals (nx * b + a) = s.eta.vals (nx * b + a)) →
      ((OMP.absorb_rows_body sqrt ny param i t).eta.nx = nx ∧
        (OMP.absorb_rows_body sqrt ny param i t).eta.vals (nx * b + a)
          = s.eta.vals (nx * b + a)) := by
    intro i t hi h
    have h1 : nx * b + a ≠ t.eta.nx * 0 + i := by
      rw [h.1]
      intro e
      have := flat_index_inj nx a b i 0 ⟨by omega, by omega⟩ hi e
      omega
    have h2 : nx * b + a ≠ t.eta.nx * (ny - 1) + i := by
      rw [h.1]
      intro e
      have := flat_index_inj nx a b i (ny - 1) ⟨by omega, by omega⟩ hi e
      omega
    obtain ⟨e1, e2⟩ := absorb_rows_body_eta sqrt ny param i t (nx * b + a) h1 h2
    exact ⟨e2.trans h.1, e1.trans h.2⟩
  have hcols : ∀ (j : Int) (t : all_data_t α), 0 ≤ j ∧ j < ny →
      (t.eta.nx = nx ∧ t.eta.vals (nx * b + a) = s.eta.vals (nx * b + a)) →
      ((OMP.absorb_cols_body sqrt nx param j t).eta.nx = nx ∧
        (OMP.absorb_cols_body sqrt nx param j t).eta.vals (nx * b + a)
          = s.eta.vals (nx * b + a)) := by
    intro j t _ h
    have h1 : nx * b + a ≠ t.eta.nx * j + 0 := by
      rw [h.1]
      intro e
      have := flat_index_inj nx a b 0 j ⟨by omega, by omega⟩ ⟨by omega, by omega⟩ e
      omega
    have h2 : nx * b + a ≠ t.eta.nx * j + (nx - 1) := by
      rw [h.1]
      intro e
      have := flat_index_inj nx a b (nx - 1) j ⟨by omega, by omega⟩ ⟨by omega, by omega⟩ e
      omega
    obtain ⟨e1, e2⟩ := absorb_cols_body_eta sqrt nx param j t (nx * b + a) h1 h2
    exact ⟨e2.trans h.1, e1.trans h.2⟩
  have h0 : s.eta.nx = nx ∧ s.eta.vals (nx * b + a) = s.eta.vals (nx * b + a) := ⟨heta, rfl⟩
  have R := loop_invariant nx (fun i s => OMP.absorb_rows_body sqrt ny param i s)
    (fun t => t.eta.nx = nx ∧ t.eta.vals (nx * b + a) = s.eta.vals (nx * b + a)) s
  have R' := R hrows h0
  have C := loop_invariant ny (fun j s => OMP.absorb_cols_body sqrt nx param j s)
    (fun t => t.eta.nx = nx ∧ t.eta.vals (nx * b + a) = s.eta.vals (nx * b + a))
    (loop nx (fun i s => OMP.absorb_rows_body sqrt ny param i s) s)
  have C' := C hcols R'
  unfold GET
  rw [C'.1, heta]
  exact C'.2

/-- C5, as amended (boundary injection at step 0, `sin` over the reals).  For
`nx, ny ≥ 1`, every prior state laid out as `main` builds it and every parameter set:
(a) with `source_type = 1`, after the injection of step 0 (serial block and OMP
`boundary_condition`, which return the same fields) `v[i,ny] = 0` for `0 ≤ i < nx`;
(b) with `source_type = 2`, the center cell `eta[nx/2, ny/2]` is 0 after the serial
injection block, and it is 0 after the OMP `boundary_condition` when `nx, ny ≥ 3`,
i.e. when the center cell is not an edge cell that the absorbing-edge writes
overwrite. -/
theorem boundary_injection_step_zero (sqrt : ℝ → ℝ) (M_PI : ℝ) (nx ny : Int)
    (param : parameters ℝ) (s : all_data_t ℝ) (hnx : 1 ≤ nx) (hny : 1 ≤ ny)
    (hu : s.u.nx = nx + 1) (hv : s.v.nx = nx) (heta : s.eta.nx = nx) :
    (∃ s' : all_data_t ℝ,
      Serial.main_boundary Real.sin M_PI 0 nx ny { param with source_type := 1 } s
        = Except.ok s'
      ∧ OMP.boundary_condition Real.sin sqrt M_PI 0 nx ny { param with source_type := 1 } s
        = Except.ok s'
      ∧ ∀ i : Int, 0 ≤ i ∧ i < nx → GET s'.v i ny = 0)
    ∧ (∃ s' : all_data_t ℝ,
      Serial.main_boundary Real.sin M_PI 0 nx ny { param with source_type := 2 } s
        = Except.ok s'
      ∧ GET s'.eta (Int.tdiv nx 2) (Int.tdiv ny 2) = 0)
    ∧ (3 ≤ nx → 3 ≤ ny → ∃ s' : all_data_t ℝ,
      OMP.boundary_condition Real.sin sqrt M_PI 0 nx ny { param with source_type := 2 } s
        = Except.ok s'
      ∧ GET s'.eta (Int.tdiv nx 2) (Int.tdiv ny 2) = 0) := by
  refine ⟨?_, ?_, ?_⟩
  · have hOMP := boundary_type1_OMP_eq Real.sin sqrt M_PI 0 nx ny
      { param with source_type := 1 } s rfl
    refine ⟨_, (boundary_type1_serial_eq_OMP Real.sin sqrt M_PI 0 nx ny
      { param with source_type := 1 } s rfl).trans hOMP, hOMP, ?_⟩
    intro i hi
    rw [source1_top_row nx ny _ s hny hv i hi]
    simp
  · refine ⟨_, boundary_type2_serial_eq Real.sin M_PI 0 nx ny
      { param with source_type := 2 } s rfl, ?_⟩
    simp [GET, SET]
  · intro h3x h3y
    refine ⟨_, boundary_type2_OMP_eq Real.sin sqrt M_PI 0 nx ny
      { param with source_type := 2 } s rfl, ?_⟩
    have ex : Int.tdiv nx 2 = nx / 2 := Int.tdiv_eq_ediv (by omega) (by decide)
    have ey : Int.tdiv ny 2 = ny / 2 := Int.tdiv_eq_ediv (by omega) (by decide)
    have hw : ({ s with eta := (SET s.eta (Int.tdiv nx 2) (Int.tdiv ny 2)
        (5 * Real.sin (2 * M_PI * (1 / 20) * (((0 : Int) : ℝ) * param.dt)))) } :
        all_data_t ℝ).eta.nx = nx := heta
    rw [absorb_loops_interior sqrt nx ny { param with source_type := 2 } _ hw
      (Int.tdiv nx 2) (Int.tdiv ny 2) (by rw [ex]; omega) (by rw [ey]; omega)]
    simp [GET, SET]

/-- Witness for `boundary_injection_step_zero`: the `3 x 3` state with a bump in
cell `(0, 1)`, with `Real.sqrt` and `Real.pi`. -/
theorem boundary_injection_step_zero_witness :
    (1 : Int) ≤ 3 ∧ (Sample.bump ℝ 3 3).u.nx = 3 + 1 ∧ (Sample.bump ℝ 3 3).v.nx = 3
    ∧ (Sample.bump ℝ 3 3).eta.nx = 3 ∧ (3 : Int) ≤ 3
    ∧ ∃ s' : all_data_t ℝ,
      OMP.boundary_condition Real.sin Real.sqrt Real.pi 0 3 3
        { Sample.unit_param ℝ 0 with source_type := 2 } (Sample.bump ℝ 3 3) = Except.ok s'
      ∧ GET s'.eta (Int.tdiv 3 2) (Int.tdiv 3 2) = 0 :=
  ⟨by decide, rfl, rfl, rfl, by decide,
    (boundary_injection_step_zero Real.sqrt Real.pi 3 3 (Sample.unit_param ℝ 0)
      (Sample.bump ℝ 3 3) (by decide) (by decide) rfl rfl rfl).2.2 (by decide) (by decide)⟩

/-! ## C6: invalid source type -/

/-- Once a run has halted, the remaining iterations of the time-step loop leave it
as it is. -/
theorem foldl_halted {α : Type} (step : Int → run α → run α) (l : List Nat) (r : run α)
    (h : r.halted.isSome = true) :
    l.foldl (fun acc (k : Nat) => (fun n r => if r.halted.isSome then r else step n r)
      (k : Int) acc) r = r := by
  induction l with
  | nil => rfl
  | cons k l ih =>
    simp only [List.foldl_cons, h, if_true]
    exact ih

/-- A time-step loop of at least one iteration whose iteration 0 halts ends in the
state that iteration 0 leaves. -/
theorem loop_halts_at_zero {α : Type} (step : Int → run α → run α) (nt : Int) (r : run α)
    (hnt : 1 ≤ nt) (h0 : r.halted = none) (h1 : (step 0 r).halted.isSome = true) :
    loop nt (fun n r => if r.halted.isSome then r else step n r) r = step 0 r := by
  unfold loop
  obtain ⟨k, hk⟩ : ∃ k : Nat, nt.toNat = k + 1 := ⟨nt.toNat - 1, by omega⟩
  rw [hk, List.range_succ_eq_map, List.foldl_cons]
  have e : (fun n r => if r.halted.isSome then r else step n r) ((0 : Nat) : Int) r
      = step 0 r := by
    simp [h0]
  rw [e]
  exact foldl_halted step _ _ h1

/-- With a `source_type` other than 1 and 2 and at least one time step, the serial
`main` writes the step-0 snapshot (when `sampling_rate ≠ 0`), prints the error
message and ends through `exit(0)`. -/
theorem serial_invalid_source_type {α : Type} [Field α] (sin : α → α) (M_PI : α)
    (nx ny nt : Int) (param : parameters α) (s : all_data_t α)
    (h1 : param.source_type ≠ 1) (h2 : param.source_type ≠ 2) (hnt : 1 ≤ nt) :
    Serial.main_run sin M_PI nx ny nt param s
      = { all_data := s,
          out := (if param.sampling_rate ≠ 0 then [event.write_data_vtk s.eta 0] else [])
            ++ [event.unknown_source_type param.source_type],
          halted := some (termination.exited 0) } := by
  have hb : ∀ t : all_data_t α, Serial.main_boundary sin M_PI 0 nx ny param t
      = Except.error (event.unknown_source_type param.source_type, 0) := by
    intro t
    unfold Serial.main_boundary
    simp only [h1, h2, if_false]
  have hstep : Serial.main_step sin M_PI nx ny nt param 0
      { all_data := s, out := [], halted := none }
      = { all_data := s,
          out := (if param.sampling_rate ≠ 0 then [event.write_data_vtk s.eta 0] else [])
            ++ [event.unknown_source_type param.source_type],
          halted := some (termination.exited 0) } := by
    unfold Serial.main_step
    by_cases hs : param.sampling_rate = 0
    · simp [hs, hb]
    · simp [hs, hb, Int.zero_tmod]
  unfold Serial.main_run
  have hl := loop_halts_at_zero (fun n r => Serial.main_step sin M_PI nx ny nt param n r) nt
    { all_data := s, out := [], halted := none } hnt rfl (by simp only [hstep]; rfl)
  simp only [hl, hstep]
  rfl

/-- With a `source_type` other than 1 and 2 and at least one time step, the OMP
`main` writes the step-0 snapshot (when `sampling_rate ≠ 0`), prints the error
message and ends through `exit(0)`. -/
theorem OMP_invalid_source_type {α : Type} [Field α] (sin sqrt : α → α) (M_PI : α)
    (nx ny nt : Int) (param : parameters α) (s : all_data_t α)
    (h1 : param.source_type ≠ 1) (h2 : param.source_type ≠ 2) (hnt : 1 ≤ nt) :
    OMP.main_run sin sqrt M_PI nx ny nt param s
      = { all_data := s,
          out := (if param.sampling_rate ≠ 0 then [event.write_data_vtk s.eta 0] else [])
            ++ [event.unknown_source_type param.source_type],
          halted := some (termination.exited 0) } := by
  have hb : ∀ t : all_data_t α, OMP.boundary_condition sin sqrt M_PI 0 nx ny param t
      = Except.error (event.unknown_source_type param.source_type, 0) := by
    intro t
    unfold OMP.boundary_condition
    simp only [h1, h2, if_false]
  have hstep : OMP.main_step sin sqrt M_PI nx ny nt param 0
      { all_data := s, out := [], halted := none }
      = { all_data := s,
          out := (if param.sampling_rate ≠ 0 then [event.write_data_vtk s.eta 0] else [])
            ++ [event.unknown_source_type param.source_type],
          halted := some (termination.exited 0) } := by
    unfold OMP.main_step
    by_cases hs : param.sampling_rate = 0
    · simp [hs, hb]
    · simp [hs, hb, Int.zero_tmod]
  unfold OMP.main_run
  have hl := loop_halts_at_zero (fun n r => OMP.main_step sin sqrt M_PI nx ny nt param n r) nt
    { all_data := s, out := [], halted := none } hnt rfl (by simp only [hstep]; rfl)
  simp only [hl, hstep]
  rfl

/-- C6, the code at the failing input `source_type = 3`, `nt = 1`,
`sampling_rate = 1` (sample `2 x 2` state): the serial and the OMP `main` first
write the step-0 snapshot, then print the error and end through `exit(0)`, status
0; and with `nt = 0` they end through `return 0` with no error at all. -/
theorem invalid_source_type_exits_zero :
    Serial.main_run (fun x => x) 3 2 2 1 (Sample.param 3) Sample.state
      = { all_data := Sample.state,
          out := [event.write_data_vtk Sample.state.eta 0, event.unknown_source_type 3],
          halted := some (termination.exited 0) }
    ∧ OMP.main_run (fun x => x) (fun x => x) 3 2 2 1 (Sample.param 3) Sample.state
      = { all_data := Sample.state,
          out := [event.write_data_vtk Sample.state.eta 0, event.unknown_source_type 3],
          halted := some (termination.exited 0) }
    ∧ (Serial.main_run (fun x => x) 3 2 2 0 (Sample.param 3) Sample.state).halted
      = some (termination.returned 0)
    ∧ (OMP.main_run (fun x => x) (fun x => x) 3 2 2 0 (Sample.param 3) Sample.state).halted
      = some (termination.returned 0) := by
  refine ⟨?_, ?_, rfl, rfl⟩
  · rw [serial_invalid_source_type (fun x => x) 3 2 2 1 (Sample.param 3) Sample.state
      (by decide) (by decide) (by decide)]
    rfl
  · rw [OMP_invalid_source_type (fun x => x) (fun x => x) 3 2 2 1 (Sample.param 3) Sample.state
      (by decide) (by decide) (by decide)]
    rfl

/-! ## C7: interpolation onto the grid of the depth field -/

/-- The conversion `(int)` of an integer-valued `double` is that integer. -/
theorem c_int_cast_intCast {α : Type} [LinearOrderedField α] [FloorRing α] (i : Int) :
    c_int_cast ((i : α)) = i := by
  unfold c_int_cast
  split_ifs
  · exact Int.floor_intCast i
  · exact Int.ceil_intCast i

/-- The cell index `(int)(x / dx)` of the grid point `x = i * dx`. -/
theorem c_int_cast_grid_point {α : Type} [LinearOrderedField α] [FloorRing α] (i : Int) (d : α)
    (hd : d ≠ 0) : c_int_cast ((i : α) * d / d) = i := by
  rw [mul_div_assoc, div_self hd, mul_one]
  exact c_int_cast_intCast i

/-- The serial `interpolate_data` at a grid point of the depth field returns the
value of that cell. -/
theorem serial_interpolate_grid_point {α : Type} [LinearOrderedField α] [FloorRing α]
    (h : data α) (hdx : h.dx ≠ 0) (hdy : h.dy ≠ 0) (i j : Int)
    (hi : 0 ≤ i ∧ i < h.nx) (hj : 0 ≤ j ∧ j < h.ny) :
    Serial.interpolate_data h ((i : α) * h.dx) ((j : α) * h.dy) = GET h i j := by
  unfold Serial.interpolate_data Serial.interpolate_data_traced
  simp only [c_int_cast_grid_point i h.dx hdx, c_int_cast_grid_point j h.dy hdy]
  rw [if_neg (by omega), if_neg (by omega), if_neg (by omega), if_neg (by omega)]

/-- The OMP `interpolate_data` at a grid point of the depth field returns the value
of that cell, on the clamped branch (last row or column) and on the bilinear one. -/
theorem OMP_interpolate_grid_point {α : Type} [LinearOrderedField α] [FloorRing α]
    (h : data α) (hdx : h.dx ≠ 0) (hdy : h.dy ≠ 0) (i j : Int)
    (hi : 0 ≤ i ∧ i < h.nx) (hj : 0 ≤ j ∧ j < h.ny) :
    OMP.interpolate_data h ((i : α) * h.dx) ((j : α) * h.dy) = GET h i j := by
  unfold OMP.interpolate_data OMP.interpolate_data_traced
  simp only [c_int_cast_grid_point i h.dx hdx, c_int_cast_grid_point j h.dy hdy]
  by_cases hc : i < 0 ∨ j < 0 ∨ i ≥ h.nx - 1 ∨ j ≥ h.ny - 1
  · rw [if_pos hc, if_neg (by omega), if_neg (by omega), if_neg (by omega), if_neg (by omega)]
  · rw [if_neg hc]
    have ex : ((i + 1 : Int) : α) * h.dx - (i : α) * h.dx = h.dx := by push_cast; ring
    have ey : ((j + 1 : Int) : α) * h.dy - (j : α) * h.dy = h.dy := by push_cast; ring
    simp only [ex, ey, div_self hdx, div_self hdy]
    ring

/-- A sweep in which every step writes, into a cell that depends on the step only,
a value that depends on the step only: the cell of a step `b0` of the sweep ends
with the value of `b0`, provided every step that writes the same buffer entry
writes the same value. -/
theorem foldl_SET_const {α β : Type} (ci cj : β → Int) (val : β → α) (l : List β)
    (d : data α) (b0 : β) (hb0 : b0 ∈ l)
    (hsame : ∀ b ∈ l, d.nx * cj b + ci b = d.nx * cj b0 + ci b0 → val b = val b0) :
    GET (l.foldl (fun d b => SET d (ci b) (cj b) (val b)) d) (ci b0) (cj b0) = val b0 := by
  have hI : ∀ (t : data α) (b : β), b ∈ l → t.nx = d.nx →
      (SET t (ci b) (cj b) (val b)).nx = d.nx := fun t b _ h => h
  have hQ : ∀ (t : data α) (b : β), b ∈ l → t.nx = d.nx →
      (t.nx = d.nx ∧ t.vals (d.nx * cj b0 + ci b0) = val b0) →
      ((SET t (ci b) (cj b) (val b)).nx = d.nx ∧
        (SET t (ci b) (cj b) (val b)).vals (d.nx * cj b0 + ci b0) = val b0) := by
    intro t b hb ht h
    refine ⟨ht, ?_⟩
    simp only [SET, Function.update_apply, ht]
    split_ifs with e
    · exact hsame b hb e.symm
    · exact h.2
  have hE : ∀ t : data α, t.nx = d.nx →
      ((SET t (ci b0) (cj b0) (val b0)).nx = d.nx ∧
        (SET t (ci b0) (cj b0) (val b0)).vals (d.nx * cj b0 + ci b0) = val b0) := by
    intro t ht
    refine ⟨ht, ?_⟩
    simp only [SET, Function.update_apply, ht, if_true]
  have h0 : d.nx = d.nx := rfl
  have H := foldl_established (fun d b => SET d (ci b) (cj b) (val b))
    (fun t => t.nx = d.nx) (fun t => t.nx = d.nx ∧ t.vals (d.nx * cj b0 + ci b0) = val b0) l d
  have H' := H hI hQ b0 hb0 hE h0
  unfold GET
  rw [H'.1]
  exact H'.2

/-- With the identity in place of the rounding, the serial `interpolate_data` in
`double` arithmetic is the serial `interpolate_data` in exact arithmetic. -/
theorem serial_interpolate_data_fl_id {α : Type} [LinearOrderedField α] [FloorRing α]
    (d : data α) (x y : α) :
    Serial.interpolate_data_fl (fun r => r) d x y = Serial.interpolate_data d x y := rfl

/-- With the identity in place of the rounding, the OMP `interpolate_data` in `double`
arithmetic is the OMP `interpolate_data` in exact arithmetic. -/
theorem OMP_interpolate_data_fl_id {α : Type} [LinearOrderedField α] [FloorRing α]
    (d : data α) (x y : α) :
    OMP.interpolate_data_fl (fun r => r) d x y = OMP.interpolate_data d x y := by
  unfold OMP.interpolate_data_fl OMP.interpolate_data OMP.interpolate_data_traced
  simp only
  split_ifs <;> rfl

/-- The interpolation loop of the serial `main` as a sweep over its iteration space
(`j` outer, `i` inner). -/
theorem main_interpolate_eq_foldl {α : Type} [LinearOrderedField α] [FloorRing α]
    (fl : α → α) (nx ny : Int) (param : parameters α) (h h_interp : data α) :
    Serial.main_interpolate fl nx ny param h h_interp
      = (iter_space ny nx).foldl (fun d p => SET d p.2 p.1
          (Serial.interpolate_data_fl fl h (fl ((p.2 : α) * param.dx))
            (fl ((p.1 : α) * param.dy)))) h_interp :=
  loop_nest_eq_foldl ny nx (fun j i d => SET d i j
    (Serial.interpolate_data_fl fl h (fl ((i : α) * param.dx)) (fl ((j : α) * param.dy))))
    h_interp

/-- The OMP `interp_bathy` as a sweep over its iteration space acting on `h_interp`
only. -/
theorem interp_bathy_eq_foldl {α : Type} [LinearOrderedField α] [FloorRing α]
    (fl : α → α) (nx ny : Int) (param : parameters α) (s : all_data_t α) :
    OMP.interp_bathy fl nx ny param s
      = { s with h_interp := ((iter_space nx ny).foldl (fun d p => SET d p.1 p.2
          (OMP.interpolate_data_fl fl s.h (fl ((p.1 : α) * param.dx))
            (fl ((p.2 : α) * param.dy)))) s.h_interp) } := by
  have key : ∀ (l : List (Int × Int)) (s : all_data_t α),
      l.foldl (fun (s : all_data_t α) (p : Int × Int) =>
          ({ s with h_interp := (SET s.h_interp p.1 p.2
            (OMP.interpolate_data_fl fl s.h (fl ((p.1 : α) * param.dx))
              (fl ((p.2 : α) * param.dy)))) } : all_data_t α)) s
        = { s with h_interp := (l.foldl (fun d p => SET d p.1 p.2
            (OMP.interpolate_data_fl fl s.h (fl ((p.1 : α) * param.dx))
              (fl ((p.2 : α) * param.dy)))) s.h_interp) } := by
    intro l
    induction l with
    | nil => intro s; rfl
    | cons p l ih =>
      intro s
      simp only [List.foldl_cons]
      rw [ih]
  have e : OMP.interp_bathy fl nx ny param s
      = (iter_space nx ny).foldl (fun (s : all_data_t α) (p : Int × Int) =>
          ({ s with h_interp := (SET s.h_interp p.1 p.2
            (OMP.interpolate_data_fl fl s.h (fl ((p.1 : α) * param.dx))
              (fl ((p.2 : α) * param.dy)))) } : all_data_t α)) s :=
    loop_nest_eq_foldl nx ny (fun (i j : Int) (s : all_data_t α) =>
      ({ s with h_interp := (SET s.h_interp i j
        (OMP.interpolate_data_fl fl s.h (fl ((i : α) * param.dx))
          (fl ((j : α) * param.dy)))) } : all_data_t α)) s
  rw [e, key]

/-- Every cell `(i, j)` of the target grid receives, in the interpolation loop of the
serial `main` and in the OMP `interp_bathy`, the value of `interpolate_data` at the
point `(i * dx, j * dy)`, product and interpolation in `double` arithmetic. -/
theorem interpolation_loop_cell {α : Type} [LinearOrderedField α] [FloorRing α]
    (fl : α → α) (nx ny : Int) (param : parameters α) (s : all_data_t α)
    (hhi : s.h_interp.nx = nx) (i j : Int) (hi : 0 ≤ i ∧ i < nx) (hj : 0 ≤ j ∧ j < ny) :
    GET (Serial.main_interpolate fl nx ny param s.h s.h_interp) i j
        = Serial.interpolate_data_fl fl s.h (fl ((i : α) * param.dx))
            (fl ((j : α) * param.dy))
    ∧ GET (OMP.interp_bathy fl nx ny param s).h_interp i j
        = OMP.interpolate_data_fl fl s.h (fl ((i : α) * param.dx))
            (fl ((j : α) * param.dy)) := by
  constructor
  · rw [main_interpolate_eq_foldl]
    have hmem : (j, i) ∈ iter_space ny nx := (mem_iter_space ny nx (j, i)).mpr ⟨hj, hi⟩
    have H := foldl_SET_const (fun p : Int × Int => p.2) (fun p : Int × Int => p.1)
      (fun p : Int × Int =>
        Serial.interpolate_data_fl fl s.h (fl ((p.2 : α) * param.dx))
          (fl ((p.1 : α) * param.dy)))
      (iter_space ny nx) s.h_interp (j, i) hmem
    refine H ?_
    intro p hp e
    rw [mem_iter_space] at hp
    rw [hhi] at e
    have := flat_index_inj nx p.2 p.1 i j hp.2 hi e
    have hp' : p = (j, i) := Prod.ext this.2 this.1
    rw [hp']
  · rw [interp_bathy_eq_foldl]
    have hmem : (i, j) ∈ iter_space nx ny := (mem_iter_space nx ny (i, j)).mpr ⟨hi, hj⟩
    have H := foldl_SET_const (fun p : Int × Int => p.1) (fun p : Int × Int => p.2)
      (fun p : Int × Int =>
        OMP.interpolate_data_fl fl s.h (fl ((p.1 : α) * param.dx))
          (fl ((p.2 : α) * param.dy)))
      (iter_space nx ny) s.h_interp (i, j) hmem
    refine H ?_
    intro p hp e
    rw [mem_iter_space] at hp
    rw [hhi] at e
    have := flat_index_inj nx p.1 p.2 i j hp.1 hi e
    have hp' : p = (i, j) := Prod.ext this.1 this.2
    rw [hp']

/-- In exact arithmetic (the identity in place of the rounding of `double`
operations), for a depth field `h` with `nx, ny ≥ 1` cells and spacing `dx, dy > 0` and
a target grid of the same spacing and extent, `interpolate_data(h, i*dx, j*dy) = h[i,j]`
for every cell, in the serial and in the OMP version, and both interpolation loops
produce `h_interp[i,j] = h[i,j]`. -/
theorem interpolation_idempotent_exact {α : Type} [LinearOrderedField α] [FloorRing α]
    (nx ny : Int) (param : parameters α) (s : all_data_t α) (hnx : 1 ≤ nx) (hny : 1 ≤ ny)
    (hdx : 0 < param.dx) (hdy : 0 < param.dy)
    (hh : s.h.nx = nx ∧ s.h.ny = ny ∧ s.h.dx = param.dx ∧ s.h.dy = param.dy)
    (hhi : s.h_interp.nx = nx) (i j : Int) (hi : 0 ≤ i ∧ i < nx) (hj : 0 ≤ j ∧ j < ny) :
    Serial.interpolate_data s.h ((i : α) * param.dx) ((j : α) * param.dy) = GET s.h i j
    ∧ OMP.interpolate_data s.h ((i : α) * param.dx) ((j : α) * param.dy) = GET s.h i j
    ∧ GET (Serial.main_interpolate (fun r => r) nx ny param s.h s.h_interp) i j = GET s.h i j
    ∧ GET (OMP.interp_bathy (fun r => r) nx ny param s).h_interp i j = GET s.h i j := by
  obtain ⟨hx, hy, ex, ey⟩ := hh
  have hdx' : s.h.dx ≠ 0 := by rw [ex]; exact ne_of_gt hdx
  have hdy' : s.h.dy ≠ 0 := by rw [ey]; exact ne_of_gt hdy
  have pS : Serial.interpolate_data s.h ((i : α) * param.dx) ((j : α) * param.dy)
      = GET s.h i j := by
    have := serial_interpolate_grid_point s.h hdx' hdy' i j (by omega) (by omega)
    rw [ex, ey] at this
    exact this
  have pO : OMP.interpolate_data s.h ((i : α) * param.dx) ((j : α) * param.dy)
      = GET s.h i j := by
    have := OMP_interpolate_grid_point s.h hdx' hdy' i j (by omega) (by omega)
    rw [ex, ey] at this
    exact this
  obtain ⟨c1, c2⟩ := interpolation_loop_cell (fun r => r) nx ny param s hhi i j hi hj
  refine ⟨pS, pO, ?_, ?_⟩
  · rw [c1, serial_interpolate_data_fl_id]
    exact pS
  · rw [c2, OMP_interpolate_data_fl_id]
    exact pO

/-- The nearest integer of a rational within `1/2` of an integer. -/
theorem round_half_even_of_near (t : ℚ) (m : Int) (h1 : (m : ℚ) - 1 / 2 < t)
    (h2 : t < (m : ℚ) + 1 / 2) : round_half_even t = m := by
  unfold round_half_even
  by_cases hm : (m : ℚ) ≤ t
  · have hf : ⌊t⌋ = m := Int.floor_eq_iff.mpr ⟨hm, by linarith⟩
    rw [hf, if_pos (by linarith)]
  · have hf : ⌊t⌋ = m - 1 :=
      Int.floor_eq_iff.mpr ⟨by push_cast; linarith, by push_cast; linarith⟩
    rw [hf, if_neg (by push_cast; linarith), if_pos (by push_cast; linarith)]
    ring

/-- A rational halfway between two integers is rounded to the even one. -/
theorem round_half_even_of_tie (t : ℚ) (m : Int) (h : t = (m : ℚ) + 1 / 2) :
    round_half_even t = if m % 2 = 0 then m else m + 1 := by
  unfold round_half_even
  have hf : ⌊t⌋ = m := Int.floor_eq_iff.mpr ⟨by linarith, by linarith⟩
  rw [hf, if_neg (by linarith), if_neg (by linarith)]

/-- The `double` of a positive rational in the binade `[2^(e+52), 2^(e+53))` is its
multiple of `2^e` nearest to it. -/
theorem binary64_round_of_pos (q : ℚ) (e : Int) (hq : 0 < q) (he : -1074 ≤ e)
    (h1 : (2 : ℚ) ^ (e + 52) ≤ q) (h2 : q < (2 : ℚ) ^ (e + 53)) :
    binary64_round q = ((round_half_even (q / 2 ^ e) : Int) : ℚ) * 2 ^ e := by
  have hlog : Int.log 2 q = e + 52 := by
    apply le_antisymm
    · have := (Int.lt_zpow_iff_log_lt (by norm_num : 1 < 2) hq (x := e + 53)).mp
        (by exact_mod_cast h2)
      omega
    · exact (Int.zpow_le_iff_le_log (by norm_num : 1 < 2) hq).mp (by exact_mod_cast h1)
  unfold binary64_round
  rw [if_neg (ne_of_gt hq), abs_of_pos hq, hlog, if_neg (not_lt.mpr (le_of_lt hq))]
  have : max (e + 52 - 52) (-1074) = e := by
    rw [add_sub_cancel_right]
    exact max_eq_left he
  simp only [this, one_mul]

/-- The `double` arithmetic that selects the cell of the grid point `x = 3 * 0.7`:
`0.7` is the `double` `dx07`; the product `3 * 0.7` is a tie and is rounded down to
`2.0999999999999996`; the quotient of this by `0.7` is rounded to
`2.9999999999999996 = 3 - 2^-51`, which `(int)` truncates to 2. -/
theorem double_cell_of_grid_point_3 :
    binary64_round (7 / 10) = Sample.dx07
    ∧ binary64_round (((3 : Int) : ℚ) * Sample.dx07) = 1182194902184755 / 562949953421312
    ∧ binary64_round (1182194902184755 / 562949953421312 / Sample.dx07)
        = 6755399441055743 / 2251799813685248
    ∧ c_int_cast (6755399441055743 / 2251799813685248 : ℚ) = 2
    ∧ binary64_round (((0 : Int) : ℚ) * Sample.dx07) = 0
    ∧ c_int_cast (binary64_round ((0 : ℚ) / Sample.dx07)) = 0 := by
  refine ⟨?_, ?_, ?_, ?_, ?_, ?_⟩
  · unfold Sample.dx07
    rw [binary64_round_of_pos _ (-53) (by norm_num) (by norm_num) (by norm_num) (by norm_num),
      round_half_even_of_near _ 6305039478318694 (by norm_num) (by norm_num)]
    norm_num
  · unfold Sample.dx07
    rw [binary64_round_of_pos _ (-51) (by norm_num) (by norm_num) (by norm_num) (by norm_num),
      round_half_even_of_tie _ 4728779608739020 (by norm_num)]
    norm_num
  · unfold Sample.dx07
    rw [binary64_round_of_pos _ (-51) (by norm_num) (by norm_num) (by norm_num) (by norm_num),
      round_half_even_of_near _ 6755399441055743 (by norm_num) (by norm_num)]
    norm_num
  · unfold c_int_cast
    rw [if_pos (by norm_num)]
    exact Int.floor_eq_iff.mpr ⟨by norm_num, by norm_num⟩
  · unfold binary64_round
    rw [if_pos (by norm_num)]
  · have e : binary64_round ((0 : ℚ) / Sample.dx07) = 0 := by
      unfold binary64_round
      rw [if_pos (by norm_num)]
    rw [e]
    unfold c_int_cast
    norm_num

/-- The `double` arithmetic that selects the cells of the grid points `x = 1 * 0.7`
and `x = 2 * 0.7`: the products are exact and the quotients by `0.7` are 1 and 2. -/
theorem double_cell_of_grid_points_1_2 :
    binary64_round (((1 : Int) : ℚ) * Sample.dx07) = Sample.dx07
    ∧ c_int_cast (binary64_round (Sample.dx07 / Sample.dx07)) = 1
    ∧ binary64_round (((2 : Int) : ℚ) * Sample.dx07) = 2 * Sample.dx07
    ∧ c_int_cast (binary64_round (2 * Sample.dx07 / Sample.dx07)) = 2 := by
  have h1 : binary64_round 1 = 1 := by
    rw [binary64_round_of_pos _ (-52) (by norm_num) (by norm_num) (by norm_num) (by norm_num),
      round_half_even_of_near _ 4503599627370496 (by norm_num) (by norm_num)]
    norm_num
  have h2 : binary64_round 2 = 2 := by
    rw [binary64_round_of_pos _ (-51) (by norm_num) (by norm_num) (by norm_num) (by norm_num),
      round_half_even_of_near _ 4503599627370496 (by norm_num) (by norm_num)]
    norm_num
  have q1 : Sample.dx07 / Sample.dx07 = 1 := by norm_num [Sample.dx07]
  have q2 : 2 * Sample.dx07 / Sample.dx07 = 2 := by norm_num [Sample.dx07]
  refine ⟨?_, ?_, ?_, ?_⟩
  · unfold Sample.dx07
    rw [binary64_round_of_pos _ (-53) (by norm_num) (by norm_num) (by norm_num) (by norm_num),
      round_half_even_of_near _ 6305039478318694 (by norm_num) (by norm_num)]
    norm_num
  · rw [q1, h1]
    unfold c_int_cast
    norm_num
  · unfold Sample.dx07
    rw [binary64_round_of_pos _ (-52) (by norm_num) (by norm_num) (by norm_num) (by norm_num),
      round_half_even_of_near _ 6305039478318694 (by norm_num) (by norm_num)]
    norm_num
  · rw [q2, h2]
    unfold c_int_cast
    norm_num

/-- At the failing input of C7 the cells `(0, 0)`, `(1, 0)` and `(2, 0)` of `h_interp`
receive the values 10, 20 and 30 of the same cells of `h`, in both programs. -/
theorem interpolation_other_cells :
    (GET (Serial.main_interpolate binary64_round 4 1 Sample.param07 Sample.state07.h
        Sample.state07.h_interp) 0 0 = 10
      ∧ GET (Serial.main_interpolate binary64_round 4 1 Sample.param07 Sample.state07.h
        Sample.state07.h_interp) 1 0 = 20
      ∧ GET (Serial.main_interpolate binary64_round 4 1 Sample.param07 Sample.state07.h
        Sample.state07.h_interp) 2 0 = 30)
    ∧ (GET (OMP.interp_bathy binary64_round 4 1 Sample.param07 Sample.state07).h_interp 0 0
        = 10
      ∧ GET (OMP.interp_bathy binary64_round 4 1 Sample.param07 Sample.state07).h_interp 1 0
        = 20
      ∧ GET (OMP.interp_bathy binary64_round 4 1 Sample.param07 Sample.state07).h_interp 2 0
        = 30) := by
  obtain ⟨-, -, -, -, r4, r5⟩ := double_cell_of_grid_point_3
  obtain ⟨s1, s2, s3, s4⟩ := double_cell_of_grid_points_1_2
  have ex : Sample.param07.dx = Sample.dx07 := rfl
  have ey : Sample.param07.dy = Sample.dx07 := rfl
  have hx : Sample.depth4.dx = Sample.dx07 := rfl
  have hy : Sample.depth4.dy = Sample.dx07 := rfl
  have hh : Sample.state07.h = Sample.depth4 := rfl
  have c0 := interpolation_loop_cell binary64_round 4 1 Sample.param07 Sample.state07
    rfl 0 0 (by decide) (by decide)
  have c1 := interpolation_loop_cell binary64_round 4 1 Sample.param07 Sample.state07
    rfl 1 0 (by decide) (by decide)
  have c2 := interpolation_loop_cell binary64_round 4 1 Sample.param07 Sample.state07
    rfl 2 0 (by decide) (by decide)
  refine ⟨⟨?_, ?_, ?_⟩, ⟨?_, ?_, ?_⟩⟩
  · rw [c0.1]
    unfold Serial.interpolate_data_fl
    simp only [hh, ex, ey, hx, hy, r4, r5]
    norm_num [GET, Sample.depth4, Sample.field, Int.toNat]
  · rw [c1.1]
    unfold Serial.interpolate_data_fl
    simp only [hh, ex, ey, hx, hy, r4, r5, s1, s2]
    norm_num [GET, Sample.depth4, Sample.field, Int.toNat]
  · rw [c2.1]
    unfold Serial.interpolate_data_fl
    simp only [hh, ex, ey, hx, hy, r4, r5, s3, s4]
    norm_num [GET, Sample.depth4, Sample.field, Int.toNat]
  · rw [c0.2]
    unfold OMP.interpolate_data_fl
    simp only [hh, ex, ey, hx, hy, r4, r5]
    norm_num [GET, Sample.depth4, Sample.field, Int.toNat]
  · rw [c1.2]
    unfold OMP.interpolate_data_fl
    simp only [hh, ex, ey, hx, hy, r4, r5, s1, s2]
    norm_num [GET, Sample.depth4, Sample.field, Int.toNat]
  · rw [c2.2]
    unfold OMP.interpolate_data_fl
    simp only [hh, ex, ey, hx, hy, r4, r5, s3, s4]
    norm_num [GET, Sample.depth4, Sample.field, Int.toNat]

/-- C7, the code at the failing input: a depth field of `4 x 1` cells with the values
10, 20, 30, 40 and spacing `dx = dy = 0.7`, interpolated onto the identical grid.  For
the cell `(3, 0)` both programs compute `x = 3 * 0.7 = 2.0999999999999996` and
`(int)(x / 0.7) = (int) 2.9999999999999996 = 2` in `double` arithmetic, so
`interpolate_data` returns `h[2,0] = 30` (in the OMP version through the clamped
lookup of the last row), and the interpolation loop of the serial `main` and the OMP
`interp_bathy` leave `h_interp[3,0] = 30`, whereas `h[3,0] = 40`; the other three cells
receive the values of `h`, so the output is 10, 20, 30, 30. -/
theorem interpolation_reads_wrong_cell :
    (Sample.state07.h = Sample.depth4 ∧ Sample.depth4.nx = 4 ∧ Sample.depth4.ny = 1
      ∧ Sample.depth4.dx = Sample.param07.dx ∧ Sample.depth4.dy = Sample.param07.dy
      ∧ Sample.param07.dx = binary64_round (7 / 10)
      ∧ Sample.param07.dy = binary64_round (7 / 10))
    ∧ GET Sample.depth4 3 0 = 40
    ∧ Serial.interpolate_data_fl binary64_round Sample.depth4
        (binary64_round (((3 : Int) : ℚ) * Sample.param07.dx))
        (binary64_round (((0 : Int) : ℚ) * Sample.param07.dy)) = 30
    ∧ OMP.interpolate_data_fl binary64_round Sample.depth4
        (binary64_round (((3 : Int) : ℚ) * Sample.param07.dx))
        (binary64_round (((0 : Int) : ℚ) * Sample.param07.dy)) = 30
    ∧ GET (Serial.main_interpolate binary64_round 4 1 Sample.param07 Sample.state07.h
        Sample.state07.h_interp) 3 0 = 30
    ∧ GET (OMP.interp_bathy binary64_round 4 1 Sample.param07 Sample.state07).h_interp 3 0
        = 30
    ∧ (GET (Serial.main_interpolate binary64_round 4 1 Sample.param07 Sample.state07.h
        Sample.state07.h_interp) 0 0 = 10
      ∧ GET (Serial.main_interpolate binary64_round 4 1 Sample.param07 Sample.state07.h
        Sample.state07.h_interp) 1 0 = 20
      ∧ GET (Serial.main_interpolate binary64_round 4 1 Sample.param07 Sample.state07.h
        Sample.state07.h_interp) 2 0 = 30)
    ∧ (GET (OMP.interp_bathy binary64_round 4 1 Sample.param07 Sample.state07).h_interp 0 0
        = 10
      ∧ GET (OMP.interp_bathy binary64_round 4 1 Sample.param07 Sample.state07).h_interp 1 0
        = 20
      ∧ GET (OMP.interp_bathy binary64_round 4 1 Sample.param07 Sample.state07).h_interp 2 0
        = 30) := by
  obtain ⟨r0, r1, r2, r3, r4, r5⟩ := double_cell_of_grid_point_3
  have eS : Serial.interpolate_data_fl binary64_round Sample.depth4
      (binary64_round (((3 : Int) : ℚ) * Sample.param07.dx))
      (binary64_round (((0 : Int) : ℚ) * Sample.param07.dy)) = 30 := by
    have ex : Sample.param07.dx = Sample.dx07 := rfl
    have ey : Sample.param07.dy = Sample.dx07 := rfl
    have hx : Sample.depth4.dx = Sample.dx07 := rfl
    have hy : Sample.depth4.dy = Sample.dx07 := rfl
    unfold Serial.interpolate_data_fl
    simp only [ex, ey, hx, hy, r1, r2, r3, r4, r5]
    norm_num [GET, Sample.depth4, Sample.field, Int.toNat]
  have eO : OMP.interpolate_data_fl binary64_round Sample.depth4
      (binary64_round (((3 : Int) : ℚ) * Sample.param07.dx))
      (binary64_round (((0 : Int) : ℚ) * Sample.param07.dy)) = 30 := by
    have ex : Sample.param07.dx = Sample.dx07 := rfl
    have ey : Sample.param07.dy = Sample.dx07 := rfl
    have hx : Sample.depth4.dx = Sample.dx07 := rfl
    have hy : Sample.depth4.dy = Sample.dx07 := rfl
    unfold OMP.interpolate_data_fl
    simp only [ex, ey, hx, hy, r1, r2, r3, r4, r5]
    norm_num [GET, Sample.depth4, Sample.field, Int.toNat]
  obtain ⟨c1, c2⟩ := interpolation_loop_cell binary64_round 4 1 Sample.param07 Sample.state07
    rfl 3 0 (by decide) (by decide)
  refine ⟨⟨rfl, rfl, rfl, rfl, rfl, r0.symm, r0.symm⟩, ?_, eS, eO, c1.trans eS, c2.trans eO,
    interpolation_other_cells.1, interpolation_other_cells.2⟩
  norm_num [GET, Sample.depth4, Sample.field, Int.toNat]

/-! ## C8: bilinear interpolation -/

/-- C9, the code at the failing input: on the `2 x 1` depth field `[10, 20]` with
unit spacing, at `x = 3/4`, `y = 0`, the serial `interpolate_data` returns
`h[0,0] = 10` (the index is truncated), whereas the grid point nearest to `x` is
`i = 1` and the nearest-neighbour value is `h[1,0] = 20`. -/
theorem serial_interpolate_truncates :
    Serial.interpolate_data (Sample.field [10, 20] 2 1) (3 / 4) 0 = 10
    ∧ nearest_grid_point_value (Sample.field [10, 20] 2 1) (3 / 4) 0 = 20
    ∧ Serial.interpolate_data (Sample.field [10, 20] 2 1) (3 / 4) 0
        ≠ nearest_grid_point_value (Sample.field [10, 20] 2 1) (3 / 4) 0 := by
  have e1 : Serial.interpolate_data (Sample.field [10, 20] 2 1) (3 / 4) 0 = 10 := by
    have f1 : c_int_cast ((3 / 4 : ℚ) / 1) = 0 := by
      unfold c_int_cast
      norm_num
    have f2 : c_int_cast ((0 : ℚ) / 1) = 0 := by
      unfold c_int_cast
      norm_num
    simp only [Serial.interpolate_data, Serial.interpolate_data_traced, Sample.field, f1, f2]
    norm_num [GET, Int.toNat]
  have e2 : nearest_grid_point_value (Sample.field [10, 20] 2 1) (3 / 4) 0 = 20 := by
    have r1 : round ((3 / 4 : ℚ) / 1) = 1 := by
      rw [round_eq]
      norm_num
    have r2 : round ((0 : ℚ) / 1) = 0 := by
      rw [round_eq]
      norm_num
    simp only [nearest_grid_point_value, Sample.field, r1, r2]
    norm_num [GET, Int.toNat]
  refine ⟨e1, e2, ?_⟩
  rw [e1, e2]
  norm_num

/-! ## C10: out-of-range clamp -/

/-- C10 (out-of-range clamp).  For every depth field with `nx, ny ≥ 1` and every
`(x, y)`, negative or beyond the extent of the field included, every index pair
read by `interpolate_data` lies in `[0, nx-1] x [0, ny-1]`, in the serial version
and in the OMP bilinear version (clamped branch and interior branch).  Nothing about
the values of `(int)(x / dx)` and `(int)(y / dy)` is used: the clamps alone give the
bound. -/
theorem interpolate_reads_in_range {α : Type} [LinearOrderedField α] [FloorRing α]
    (d : data α) (x y : α) (hnx : 1 ≤ d.nx) (hny : 1 ≤ d.ny) :
    (∀ p ∈ (Serial.interpolate_data_traced d x y).2,
      (0 ≤ p.1 ∧ p.1 ≤ d.nx - 1) ∧ (0 ≤ p.2 ∧ p.2 ≤ d.ny - 1))
    ∧ (∀ p ∈ (OMP.interpolate_data_traced d x y).2,
      (0 ≤ p.1 ∧ p.1 ≤ d.nx - 1) ∧ (0 ≤ p.2 ∧ p.2 ≤ d.ny - 1)) := by
  constructor
  · intro p hp
    unfold Serial.interpolate_data_traced at hp
    generalize c_int_cast (x / d.dx) = i at hp
    generalize c_int_cast (y / d.dy) = j at hp
    simp only [List.mem_singleton] at hp
    subst hp
    constructor
    · constructor <;> (simp only; split_ifs <;> omega)
    · constructor <;> (simp only; split_ifs <;> omega)
  · intro p hp
    unfold OMP.interpolate_data_traced at hp
    generalize c_int_cast (x / d.dx) = i at hp
    generalize c_int_cast (y / d.dy) = j at hp
    by_cases hc : i < 0 ∨ j < 0 ∨ i ≥ d.nx - 1 ∨ j ≥ d.ny - 1
    · simp only [if_pos hc, List.mem_singleton] at hp
      subst hp
      constructor
      · constructor <;> (simp only; split_ifs <;> omega)
      · constructor <;> (simp only; split_ifs <;> omega)
    · simp only [if_neg hc, List.mem_cons, List.mem_singleton, List.mem_nil_iff, or_false] at hp
      rcases hp with rfl | rfl | rfl | rfl <;> (simp only; omega)

/-- Witness for `interpolate_reads_in_range`: the depth field of the sample `2 x 2`
state at `(x, y) = (-7, 100)`, left of and above the field. -/
theorem interpolate_reads_in_range_witness :
    (1 : Int) ≤ Sample.state.h.nx ∧ (1 : Int) ≤ Sample.state.h.ny
    ∧ (∀ p ∈ (Serial.interpolate_data_traced Sample.state.h (-7) 100).2,
      (0 ≤ p.1 ∧ p.1 ≤ Sample.state.h.nx - 1) ∧ (0 ≤ p.2 ∧ p.2 ≤ Sample.state.h.ny - 1))
    ∧ (∀ p ∈ (OMP.interpolate_data_traced Sample.state.h (-7) 100).2,
      (0 ≤ p.1 ∧ p.1 ≤ Sample.state.h.nx - 1) ∧ (0 ≤ p.2 ∧ p.2 ≤ Sample.state.h.ny - 1)) :=
  ⟨by decide, by decide,
    interpolate_reads_in_range Sample.state.h (-7) 100 (by decide) (by decide)⟩

/-! ## C11: snapshot schedule -/

/-- The injection block of the serial `main` returns fields for source types 1 and
2 and the error message with status 0 for every other source type. -/
theorem serial_boundary_cases {α : Type} [Field α] (sin : α → α) (M_PI : α) (n nx ny : Int)
    (param : parameters α) (s : all_data_t α) :
    ((param.source_type = 1 ∨ param.source_type = 2) ∧
      ∃ s', Serial.main_boundary sin M_PI n nx ny param s = Except.ok s')
    ∨ (¬ (param.source_type = 1 ∨ param.source_type = 2) ∧
      Serial.main_boundary sin M_PI n nx ny param s
        = Except.error (event.unknown_source_type param.source_type, 0)) := by
  unfold Serial.main_boundary
  by_cases h1 : param.source_type = 1
  · exact Or.inl ⟨Or.inl h1, _, by simp only [h1, if_true]; rfl⟩
  · by_cases h2 : param.source_type = 2
    · exact Or.inl ⟨Or.inr h2, _, by simp only [h2, if_true]; rfl⟩
    · exact Or.inr ⟨by tauto, by simp only [h1, h2, if_false]⟩

/-- The OMP `boundary_condition` returns fields for source types 1 and 2 and the
error message with status 0 for every other source type. -/
theorem OMP_boundary_cases {α : Type} [Field α] (sin sqrt : α → α) (M_PI : α) (n nx ny : Int)
    (param : parameters α) (s : all_data_t α) :
    ((param.source_type = 1 ∨ param.source_type = 2) ∧
      ∃ s', OMP.boundary_condition sin sqrt M_PI n nx ny param s = Except.ok s')
    ∨ (¬ (param.source_type = 1 ∨ param.source_type = 2) ∧
      OMP.boundary_condition sin sqrt M_PI n nx ny param s
        = Except.error (event.unknown_source_type param.source_type, 0)) := by
  unfold OMP.boundary_condition
  by_cases h1 : param.source_type = 1
  · exact Or.inl ⟨Or.inl h1, _, by simp only [h1, if_true]; rfl⟩
  · by_cases h2 : param.source_type = 2
    · exact Or.inl ⟨Or.inr h2, _, by simp only [h2, if_true]; rfl⟩
    · exact Or.inr ⟨by tauto, by simp only [h1, h2, if_false]⟩

theorem snapshots_append {α : Type} (l₁ l₂ : List (event α)) :
    snapshots (l₁ ++ l₂) = snapshots l₁ ++ snapshots l₂ := by
  induction l₁ with
  | nil => rfl
  | cons e l ih => cases e <;> simp [snapshots, ih]

/-- Output of one iteration of the time-step loop of the serial `main` whose
progress test is defined: the progress message, then the snapshot of the elevation
as it is before the step, then the error message, each under its condition. -/
theorem serial_main_step_out {α : Type} [Field α] (sin : α → α) (M_PI : α) (nx ny nt : Int)
    (param : parameters α) (n : Int) (r : run α) (hdef : n = 0 ∨ Int.tdiv nt 10 ≠ 0) :
    (Serial.main_step sin M_PI nx ny nt param n r).out
      = r.out
        ++ (if n ≠ 0 ∧ Int.tmod n (Int.tdiv nt 10) = 0 then [event.progress n nt] else [])
        ++ (if param.sampling_rate ≠ 0 ∧ Int.tmod n param.sampling_rate = 0
            then [event.write_data_vtk r.all_data.eta n] else [])
        ++ (if param.source_type = 1 ∨ param.source_type = 2 then []
            else [event.unknown_source_type param.source_type]) := by
  have htrap : ¬ (n ≠ 0 ∧ Int.tdiv nt 10 = 0) := by tauto
  unfold Serial.main_step
  rw [if_neg htrap]
  rcases serial_boundary_cases sin M_PI n nx ny param r.all_data with ⟨hs, s', hb⟩ | ⟨hs, hb⟩
  · by_cases hp : n ≠ 0 ∧ Int.tmod n (Int.tdiv nt 10) = 0
    · by_cases hw : param.sampling_rate ≠ 0 ∧ Int.tmod n param.sampling_rate = 0
      · simp only [if_pos hp, if_pos hw, if_pos hs, hb, List.append_nil]
      · simp only [if_pos hp, if_neg hw, if_pos hs, hb, List.append_nil]
    · by_cases hw : param.sampling_rate ≠ 0 ∧ Int.tmod n param.sampling_rate = 0
      · simp only [if_neg hp, if_pos hw, if_pos hs, hb, List.append_nil]
      · simp only [if_neg hp, if_neg hw, if_pos hs, hb, List.append_nil]
  · by_cases hp : n ≠ 0 ∧ Int.tmod n (Int.tdiv nt 10) = 0
    · by_cases hw : param.sampling_rate ≠ 0 ∧ Int.tmod n param.sampling_rate = 0
      · simp only [if_pos hp, if_pos hw, if_neg hs, hb, List.append_nil]
      · simp only [if_pos hp, if_neg hw, if_neg hs, hb, List.append_nil]
    · by_cases hw : param.sampling_rate ≠ 0 ∧ Int.tmod n param.sampling_rate = 0
      · simp only [if_neg hp, if_pos hw, if_neg hs, hb, List.append_nil]
      · simp only [if_neg hp, if_neg hw, if_neg hs, hb, List.append_nil]

/-- Output of one iteration of the time-step loop of the OMP `main` whose progress
test is defined: the progress message, then the snapshot of the elevation as it is
before the step, then the error message, each under its condition. -/
theorem OMP_main_step_out {α : Type} [Field α] (sin sqrt : α → α) (M_PI : α)
    (nx ny nt : Int) (param : parameters α) (n : Int) (r : run α)
    (hdef : n = 0 ∨ Int.tdiv nt 10 ≠ 0) :
    (OMP.main_step sin sqrt M_PI nx ny nt param n r).out
      = r.out
        ++ (if n ≠ 0 ∧ Int.tmod n (Int.tdiv nt 10) = 0 then [event.progress n nt] else [])
        ++ (if param.sampling_rate ≠ 0 ∧ Int.tmod n param.sampling_rate = 0
            then [event.write_data_vtk r.all_data.eta n] else [])
        ++ (if param.source_type = 1 ∨ param.source_type = 2 then []
            else [event.unknown_source_type param.source_type]) := by
  have htrap : ¬ (n ≠ 0 ∧ Int.tdiv nt 10 = 0) := by tauto
  unfold OMP.main_step
  rw [if_neg htrap]
  rcases OMP_boundary_cases sin sqrt M_PI n nx ny param r.all_data with ⟨hs, s', hb⟩ | ⟨hs, hb⟩
  · by_cases hp : n ≠ 0 ∧ Int.tmod n (Int.tdiv nt 10) = 0
    · by_cases hw : param.sampling_rate ≠ 0 ∧ Int.tmod n param.sampling_rate = 0
      · simp only [if_pos hp, if_pos hw, if_pos hs, hb, List.append_nil]
      · simp only [if_pos hp, if_neg hw, if_pos hs, hb, List.append_nil]
    · by_cases hw : param.sampling_rate ≠ 0 ∧ Int.tmod n param.sampling_rate = 0
      · simp only [if_neg hp, if_pos hw, if_pos hs, hb, List.append_nil]
      · simp only [if_neg hp, if_neg hw, if_pos hs, hb, List.append_nil]
  · by_cases hp : n ≠ 0 ∧ Int.tmod n (Int.tdiv nt 10) = 0
    · by_cases hw : param.sampling_rate ≠ 0 ∧ Int.tmod n param.sampling_rate = 0
      · simp only [if_pos hp, if_pos hw, if_neg hs, hb, List.append_nil]
      · simp only [if_pos hp, if_neg hw, if_neg hs, hb, List.append_nil]
    · by_cases hw : param.sampling_rate ≠ 0 ∧ Int.tmod n param.sampling_rate = 0
      · simp only [if_neg hp, if_pos hw, if_neg hs, hb, List.append_nil]
      · simp only [if_neg hp, if_neg hw, if_neg hs, hb, List.append_nil]

/-- The snapshots in the output of a step whose output is the previous output, a
progress message or none, a snapshot or none, and an error message or none. -/
theorem snapshots_of_step_out {α : Type} (out : List (event α)) (p w e : Prop)
    [Decidable p] [Decidable w] [Decidable e] (n nt t : Int) (eta : data α) :
    snapshots (out ++ (if p then [event.progress n nt] else [])
        ++ (if w then [event.write_data_vtk eta n] else [])
        ++ (if e then [] else [event.unknown_source_type t]))
      = snapshots out ++ (if w then [(eta, n)] else []) := by
  simp only [snapshots_append]
  by_cases hp : p <;> by_cases hw : w <;> by_cases he : e <;> simp [hp, hw, he, snapshots]

/-- C11, counterexample: with `sampling_rate = -1` the step loop of the serial and of
the OMP `main` writes the snapshot of step 0, although `sampling_rate > 0` fails. -/
theorem snapshot_negative_sampling_rate :
    snapshots (Serial.main_step (fun x => x) 3 2 2 1
        { Sample.param 1 with sampling_rate := -1 } 0
        { all_data := Sample.state, out := [], halted := none }).out
      = [(Sample.state.eta, 0)]
    ∧ snapshots (OMP.main_step (fun x => x) (fun x => x) 3 2 2 1
        { Sample.param 1 with sampling_rate := -1 } 0
        { all_data := Sample.state, out := [], halted := none }).out
      = [(Sample.state.eta, 0)]
    ∧ ¬ (0 < ({ Sample.param 1 with sampling_rate := -1 } : parameters ℚ).sampling_rate
        ∧ Int.tmod 0 ({ Sample.param 1 with sampling_rate := -1 } : parameters ℚ).sampling_rate
          = 0) := by
  refine ⟨?_, ?_, by decide⟩
  · rw [serial_main_step_out _ _ _ _ _ _ _ _ (Or.inl rfl), snapshots_of_step_out]
    rfl
  · rw [OMP_main_step_out _ _ _ _ _ _ _ _ _ (Or.inl rfl), snapshots_of_step_out]
    rfl

/-- C11, as amended (snapshot schedule).  In every iteration `n` of the time-step
loop whose progress test is defined (`n = 0` or `nt / 10 ≠ 0`), for every integer
`sampling_rate` (`%` with C semantics), the serial and the OMP `main` write a
snapshot at step `n` if and only if `sampling_rate ≠ 0` and `n % sampling_rate == 0`,
and the field written is the elevation as it is before the injection and the updates
of that step. -/
theorem snapshot_schedule {α : Type} [Field α] (sin sqrt : α → α) (M_PI : α)
    (nx ny nt : Int) (param : parameters α) (n : Int) (r : run α)
    (hdef : n = 0 ∨ Int.tdiv nt 10 ≠ 0) :
    snapshots (Serial.main_step sin M_PI nx ny nt param n r).out
      = snapshots r.out
        ++ (if param.sampling_rate ≠ 0 ∧ Int.tmod n param.sampling_rate = 0
            then [(r.all_data.eta, n)] else [])
    ∧ snapshots (OMP.main_step sin sqrt M_PI nx ny nt param n r).out
      = snapshots r.out
        ++ (if param.sampling_rate ≠ 0 ∧ Int.tmod n param.sampling_rate = 0
            then [(r.all_data.eta, n)] else []) := by
  constructor
  · rw [serial_main_step_out sin M_PI nx ny nt param n r hdef]
    exact snapshots_of_step_out _ _ _ _ _ _ _ _
  · rw [OMP_main_step_out sin sqrt M_PI nx ny nt param n r hdef]
    exact snapshots_of_step_out _ _ _ _ _ _ _ _

/-- Witness for `snapshot_schedule`: step 4 of a run of 20 steps with
`sampling_rate = 2` on the sample `2 x 2` state writes the snapshot of step 4. -/
theorem snapshot_schedule_witness :
    ((4 : Int) = 0 ∨ Int.tdiv 20 10 ≠ 0)
    ∧ snapshots (Serial.main_step (fun x => x) 3 2 2 20
        { Sample.param 1 with sampling_rate := 2 } 4
        { all_data := Sample.state, out := [], halted := none }).out
      = [(Sample.state.eta, 4)] := by
  have h := (snapshot_schedule (fun x => x) (fun x => x) 3 2 2 20
    { Sample.param 1 with sampling_rate := 2 } 4
    { all_data := Sample.state, out := [], halted := none } (Or.inr (by decide))).1
  refine ⟨Or.inr (by decide), ?_⟩
  rw [h]
  rfl

/-! ## C12: volume drift with flat bathymetry -/

/-- Every swept cell of `eta` after the serial `update_eta`, in the form in which
the code computes it. -/
theorem update_eta_swept {α : Type} [Field α] (nx ny : Int) (param : parameters α)
    (u v eta h_interp : data α) (heta : nx ≤ eta.nx)
    (i j : Int) (hi : 0 ≤ i ∧ i < nx) (hj : 0 ≤ j ∧ j < ny) :
    GET (Serial.update_eta nx ny param u v eta h_interp) i j
      = GET eta i j
        - param.dt * GET h_interp i j / param.dx * (GET u (i + 1) j - GET u i j)
        - param.dt * GET h_interp i j / param.dy * (GET v i (j + 1) - GET v i j) := by
  unfold Serial.update_eta
  rw [loop_nest_eq_foldl]
  exact sweep_own_cell (fun (q : Int × Int) (e : α) =>
    e - param.dt * GET h_interp q.1 q.2 / param.dx * (GET u (q.1 + 1) q.2 - GET u q.1 q.2)
      - param.dt * GET h_interp q.1 q.2 / param.dy * (GET v q.1 (q.2 + 1) - GET v q.1 q.2))
    nx ny eta heta i j hi hj

/-- With flat bathymetry `H`, `update_eta` changes the total elevation by the net
boundary flux only: the interior differences of `u` along `i` and of `v` along `j`
telescope. -/
theorem sum_update_eta_flat {α : Type} [Field α] (nx ny : ℕ) (param : parameters α)
    (s : all_data_t α) (H : α) (heta : s.eta.nx = nx)
    (hflat : ∀ i j : Int, 0 ≤ i ∧ i < nx → 0 ≤ j ∧ j < ny → GET s.h_interp i j = H) :
    sum_cells nx ny (OMP.update_eta nx ny param s).eta
      = sum_cells nx ny s.eta
        - param.dt * H * ((1 / param.dx)
              * ∑ j ∈ Finset.range ny, (GET s.u (nx : Int) (j : Int) - GET s.u 0 (j : Int))
            + (1 / param.dy)
              * ∑ i ∈ Finset.range nx, (GET s.v (i : Int) (ny : Int) - GET s.v (i : Int) 0)) := by
  have hcell : ∀ i ∈ Finset.range nx, ∀ j ∈ Finset.range ny,
      GET (OMP.update_eta nx ny param s).eta (i : Int) (j : Int)
        = GET s.eta i j
          - param.dt * H / param.dx * (GET s.u (((i + 1 : ℕ) : Int)) j - GET s.u i j)
          - param.dt * H / param.dy * (GET s.v i (((j + 1 : ℕ) : Int)) - GET s.v i j) := by
    intro i hi j hj
    rw [Finset.mem_range] at hi hj
    rw [OMP_update_eta_eq_serial]
    have h := update_eta_swept (nx : Int) (ny : Int) param s.u s.v s.eta s.h_interp
      (le_of_eq heta.symm) i j ⟨by omega, by omega⟩ ⟨by omega, by omega⟩
    rw [hflat i j ⟨by omega, by omega⟩ ⟨by omega, by omega⟩] at h
    push_cast
    exact h
  have hu : ∑ i ∈ Finset.range nx, ∑ j ∈ Finset.range ny,
      (GET s.u (((i + 1 : ℕ) : Int)) (j : Int) - GET s.u (i : Int) (j : Int))
      = ∑ j ∈ Finset.range ny, (GET s.u (nx : Int) (j : Int) - GET s.u 0 (j : Int)) := by
    rw [Finset.sum_comm]
    refine Finset.sum_congr rfl ?_
    intro j _
    exact Finset.sum_range_sub (fun k : ℕ => GET s.u (k : Int) (j : Int)) nx
  have hv : ∑ i ∈ Finset.range nx, ∑ j ∈ Finset.range ny,
      (GET s.v (i : Int) (((j + 1 : ℕ) : Int)) - GET s.v (i : Int) (j : Int))
      = ∑ i ∈ Finset.range nx, (GET s.v (i : Int) (ny : Int) - GET s.v (i : Int) 0) := by
    refine Finset.sum_congr rfl ?_
    intro i _
    exact Finset.sum_range_sub (fun k : ℕ => GET s.v (i : Int) (k : Int)) ny
  unfold sum_cells
  rw [Finset.sum_congr rfl (fun i hi => Finset.sum_congr rfl (hcell i hi))]
  simp only [Finset.sum_sub_distrib, ← Finset.mul_sum] at hu hv ⊢
  rw [hu, hv]
  ring

/-- The fields returned by the OMP `boundary_condition` for `source_type = 1` on a
grid with `nx, ny ≥ 1`: the widths of `u` and `v` are kept, `eta`, `h_interp` and `h`
are untouched, the columns `i = 0` and `i = nx` of `u` and the row `j = 0` of `v`
hold 0, and the row `j = ny` of `v` holds the forcing value. -/
theorem type1_edges {α : Type} [Field α] (sin sqrt : α → α) (M_PI : α) (n nx ny : Int)
    (param : parameters α) (s s1 : all_data_t α) (h1 : param.source_type = 1)
    (hnx : 1 ≤ nx) (hny : 1 ≤ ny) (hu : s.u.nx = nx + 1) (hv : s.v.nx = nx)
    (hs1 : OMP.boundary_condition sin sqrt M_PI n nx ny param s = Except.ok s1) :
    (s1.u.nx = nx + 1 ∧ s1.v.nx = nx ∧ s1.eta = s.eta ∧ s1.h_interp = s.h_interp ∧ s1.h = s.h)
    ∧ (∀ j : Int, 0 ≤ j ∧ j < ny → GET s1.u 0 j = 0 ∧ GET s1.u nx j = 0)
    ∧ (∀ i : Int, 0 ≤ i ∧ i < nx → GET s1.v i 0 = 0
        ∧ GET s1.v i ny = 5 * sin (2 * M_PI * (1 / 20) * ((n : α) * param.dt))) := by
  rw [boundary_type1_OMP_eq sin sqrt M_PI n nx ny param s h1] at hs1
  have hs1' := Except.ok.inj hs1
  subst hs1'
  obtain ⟨fu, fv, feta, fh, fhh⟩ := source1_foldl_frame nx ny
    (5 * sin (2 * M_PI * (1 / 20) * ((n : α) * param.dt))) (iter_space nx ny) s
  have V := source1_foldl_vals nx ny
    (5 * sin (2 * M_PI * (1 / 20) * ((n : α) * param.dt))) (iter_space nx ny) s
  refine ⟨⟨fu.trans hu, fv.trans hv, feta, fh, fhh⟩, ?_, ?_⟩
  · intro j hj
    have hmem : ((0 : Int), j) ∈ iter_space nx ny :=
      (mem_iter_space nx ny (0, j)).mpr ⟨⟨le_refl 0, by omega⟩, hj⟩
    constructor
    · unfold GET
      rw [fu]
      exact (V _).1 ⟨(0, j), hmem, Or.inr rfl⟩
    · unfold GET
      rw [fu]
      exact (V _).1 ⟨(0, j), hmem, Or.inl rfl⟩
  · intro i hi
    have hmem : (i, (0 : Int)) ∈ iter_space nx ny :=
      (mem_iter_space nx ny (i, 0)).mpr ⟨hi, ⟨le_refl 0, by omega⟩⟩
    constructor
    · unfold GET
      rw [fv]
      refine (V _).2.2.2.1 ⟨(i, 0), hmem, rfl⟩ ?_
      intro p hp e
      rw [mem_iter_space] at hp
      rw [hv] at e
      have := flat_index_inj nx i 0 p.1 ny hi hp.1 e
      omega
    · exact source1_top_row nx ny _ s hny hv i hi

/-- In a type 1 step with flat bathymetry `H` the total elevation changes by
`-dt*H*nx*val/dy`, where `val` is the forcing value of the step: the zero edges of
`u` and the zero bottom row of `v` contribute nothing to the boundary flux. -/
theorem type1_drift {α : Type} [Field α] (sin sqrt : α → α) (M_PI : α) (n : Int) (nx ny : ℕ)
    (param : parameters α) (s s1 : all_data_t α) (H : α) (h1 : param.source_type = 1)
    (hnx : 1 ≤ nx) (hny : 1 ≤ ny) (hu : s.u.nx = (nx : Int) + 1) (hv : s.v.nx = nx)
    (heta : s.eta.nx = nx)
    (hflat : ∀ i j : Int, 0 ≤ i ∧ i < nx → 0 ≤ j ∧ j < ny → GET s.h_interp i j = H)
    (hs1 : OMP.boundary_condition sin sqrt M_PI n nx ny param s = Except.ok s1) :
    sum_cells nx ny (OMP.update_eta nx ny param s1).eta - sum_cells nx ny s.eta
      = - param.dt * H * nx * (5 * sin (2 * M_PI * (1 / 20) * ((n : α) * param.dt)))
          / param.dy := by
  obtain ⟨⟨-, -, e1, e2, -⟩, hU, hV⟩ := type1_edges sin sqrt M_PI n nx ny param s s1 h1
    (by omega) (by omega) hu hv hs1
  have hflat1 : ∀ i j : Int, 0 ≤ i ∧ i < nx → 0 ≤ j ∧ j < ny → GET s1.h_interp i j = H := by
    rw [e2]; exact hflat
  rw [sum_update_eta_flat nx ny param s1 H (by rw [e1]; exact heta) hflat1, e1]
  have su : ∑ j ∈ Finset.range ny, (GET s1.u (nx : Int) (j : Int) - GET s1.u 0 (j : Int))
      = 0 := by
    refine Finset.sum_eq_zero ?_
    intro j hj
    rw [Finset.mem_range] at hj
    rw [(hU j ⟨by omega, by omega⟩).1, (hU j ⟨by omega, by omega⟩).2, sub_zero]
  have sv : ∑ i ∈ Finset.range nx, (GET s1.v (i : Int) (ny : Int) - GET s1.v (i : Int) 0)
      = nx * (5 * sin (2 * M_PI * (1 / 20) * ((n : α) * param.dt))) := by
    have hterm : ∀ i ∈ Finset.range nx, GET s1.v (i : Int) (ny : Int) - GET s1.v (i : Int) 0
        = 5 * sin (2 * M_PI * (1 / 20) * ((n : α) * param.dt)) := by
      intro i hi
      rw [Finset.mem_range] at hi
      rw [(hV i ⟨by omega, by omega⟩).1, (hV i ⟨by omega, by omega⟩).2, sub_zero]
    rw [Finset.sum_congr rfl hterm, Finset.sum_const, Finset.card_range, nsmul_eq_mul]
  rw [su, sv]
  ring

/-- C12, counterexample to the bound as stated: in step `n = 5` of a type 1 run
with `dt = -1` on the `1 x 1` grid with unit depth and unit spacing, the drift of
the total elevation is `5*sin(-pi/2) = -5`, of magnitude 5, whereas
`5*dt*|H|*nx/|dy| = -5`. -/
theorem drift_bound_negative_dt :
    ∃ s1 : all_data_t ℝ,
      OMP.boundary_condition Real.sin Real.sqrt Real.pi 5 1 1
        { Sample.unit_param ℝ 1 with dt := -1 } (Sample.bump ℝ 1 1) = Except.ok s1
      ∧ sum_cells 1 1 (OMP.update_eta 1 1 { Sample.unit_param ℝ 1 with dt := -1 } s1).eta
          - sum_cells 1 1 (Sample.bump ℝ 1 1).eta = -5
      ∧ ¬ (|sum_cells 1 1 (OMP.update_eta 1 1 { Sample.unit_param ℝ 1 with dt := -1 } s1).eta
            - sum_cells 1 1 (Sample.bump ℝ 1 1).eta|
          ≤ 5 * ({ Sample.unit_param ℝ 1 with dt := -1 } : parameters ℝ).dt * |(1 : ℝ)|
              * ((1 : ℕ) : ℝ) / |({ Sample.unit_param ℝ 1 with dt := -1 } : parameters ℝ).dy|) := by
  have hb := boundary_type1_OMP_eq Real.sin Real.sqrt Real.pi 5 1 1
    { Sample.unit_param ℝ 1 with dt := -1 } (Sample.bump ℝ 1 1) rfl
  have hd := type1_drift Real.sin Real.sqrt Real.pi 5 1 1
    { Sample.unit_param ℝ 1 with dt := -1 } (Sample.bump ℝ 1 1) _ 1 rfl (le_refl 1) (le_refl 1)
    rfl rfl rfl (fun _ _ _ _ => rfl) hb
  have harg : 2 * Real.pi * (1 / 20) * ((((5 : Int) : ℝ)) * (-1)) = -(Real.pi / 2) := by
    push_cast
    ring
  have hval : sum_cells 1 1 (OMP.update_eta ((1 : ℕ) : Int) ((1 : ℕ) : Int)
      { Sample.unit_param ℝ 1 with dt := -1 }
      ((iter_space 1 1).foldl (fun s p => OMP.source1_body 1 1
        (5 * Real.sin (2 * Real.pi * (1 / 20) * ((((5 : Int) : ℝ)) *
          ({ Sample.unit_param ℝ 1 with dt := -1 } : parameters ℝ).dt))) p.1 p.2 s)
        (Sample.bump ℝ 1 1))).eta - sum_cells 1 1 (Sample.bump ℝ 1 1).eta = -5 := by
    rw [hd]
    simp only [Sample.unit_param]
    rw [harg, Real.sin_neg, Real.sin_pi_div_two]
    norm_num
  simp only [Nat.cast_one] at hval
  refine ⟨_, hb, hval, ?_⟩
  rw [hval]
  simp only [Sample.unit_param]
  norm_num

/-- C12, as amended (volume drift with flat bathymetry, over the reals).  If
`h_interp[i,j] = H` on every cell and `dx, dy ≠ 0`, `update_eta` (OMP and serial)
changes the total elevation by the net boundary flux only:
`sum eta' = sum eta - dt*H*((1/dx)*sum_j (u[nx,j]-u[0,j]) + (1/dy)*sum_i (v[i,ny]-v[i,0]))`.
Consequently in a type 1 step `n` on a grid with `nx, ny ≥ 1` (injection, then
`update_eta`) the drift of `sum(eta)` is exactly `-dt*H*nx*5*sin(2*M_PI*n*dt/20)/dy`,
bounded in magnitude by `5*|dt|*|H|*nx/|dy|`. -/
theorem volume_drift (sqrt : ℝ → ℝ) (M_PI : ℝ) (n : Int) (nx ny : ℕ) (param : parameters ℝ)
    (s : all_data_t ℝ) (H : ℝ) (hdx : param.dx ≠ 0) (hdy : param.dy ≠ 0)
    (heta : s.eta.nx = nx)
    (hflat : ∀ i j : Int, 0 ≤ i ∧ i < nx → 0 ≤ j ∧ j < ny → GET s.h_interp i j = H) :
    (sum_cells nx ny (OMP.update_eta nx ny param s).eta
        = sum_cells nx ny s.eta
          - param.dt * H * ((1 / param.dx)
                * ∑ j ∈ Finset.range ny, (GET s.u (nx : Int) (j : Int) - GET s.u 0 (j : Int))
              + (1 / param.dy)
                * ∑ i ∈ Finset.range nx, (GET s.v (i : Int) (ny : Int) - GET s.v (i : Int) 0)))
    ∧ (sum_cells nx ny (Serial.update_eta nx ny param s.u s.v s.eta s.h_interp)
        = sum_cells nx ny s.eta
          - param.dt * H * ((1 / param.dx)
                * ∑ j ∈ Finset.range ny, (GET s.u (nx : Int) (j : Int) - GET s.u 0 (j : Int))
              + (1 / param.dy)
                * ∑ i ∈ Finset.range nx, (GET s.v (i : Int) (ny : Int) - GET s.v (i : Int) 0)))
    ∧ (param.source_type = 1 → 1 ≤ nx → 1 ≤ ny → s.u.nx = (nx : Int) + 1 → s.v.nx = nx →
        ∃ s1 : all_data_t ℝ,
          OMP.boundary_condition Real.sin sqrt M_PI n nx ny param s = Except.ok s1
          ∧ sum_cells nx ny (OMP.update_eta nx ny param s1).eta - sum_cells nx ny s.eta
              = - param.dt * H * nx * 5 * Real.sin (2 * M_PI * n * param.dt / 20) / param.dy
          ∧ |sum_cells nx ny (OMP.update_eta nx ny param s1).eta - sum_cells nx ny s.eta|
              ≤ 5 * |param.dt| * |H| * nx / |param.dy|) := by
  have hO := sum_update_eta_flat nx ny param s H heta hflat
  refine ⟨hO, ?_, ?_⟩
  · rw [OMP_update_eta_eq_serial] at hO
    exact hO
  · intro h1 hnx hny hu hv
    have hb := boundary_type1_OMP_eq Real.sin sqrt M_PI n nx ny param s h1
    have hd := type1_drift Real.sin sqrt M_PI n nx ny param s _ H h1 hnx hny hu hv heta hflat hb
    have harg : 2 * M_PI * (1 / 20) * ((n : ℝ) * param.dt) = 2 * M_PI * n * param.dt / 20 := by
      ring
    refine ⟨_, hb, ?_, ?_⟩
    · rw [hd, harg]
      ring
    · rw [hd, harg]
      have hs : |Real.sin (2 * M_PI * n * param.dt / 20)| ≤ 1 := Real.abs_sin_le_one _
      have hdy' : 0 < |param.dy| := abs_pos.mpr hdy
      rw [abs_div, abs_mul, abs_mul, abs_mul, abs_mul, abs_neg, Nat.abs_cast,
        abs_of_pos (by norm_num : (0 : ℝ) < 5)]
      rw [div_le_div_iff_of_pos_right hdy']
      have hnn : 0 ≤ |param.dt| * |H| * (nx : ℝ) := by positivity
      calc |param.dt| * |H| * (nx : ℝ) * (5 * |Real.sin (2 * M_PI * n * param.dt / 20)|)
          ≤ |param.dt| * |H| * (nx : ℝ) * (5 * 1) := by
            apply mul_le_mul_of_nonneg_left _ hnn
            linarith
        _ = 5 * |param.dt| * |H| * (nx : ℝ) := by ring

/-- Witness for `volume_drift`: step 3 of a type 1 run on the `1 x 1` grid with unit
depth, unit spacing and `dt = 1`. -/
theorem volume_drift_witness :
    (Sample.unit_param ℝ 1).dx ≠ 0 ∧ (Sample.unit_param ℝ 1).dy ≠ 0
    ∧ (Sample.bump ℝ 1 1).eta.nx = ((1 : ℕ) : Int)
    ∧ (∀ i j : Int, 0 ≤ i ∧ i < ((1 : ℕ) : Int) → 0 ≤ j ∧ j < ((1 : ℕ) : Int) →
        GET (Sample.bump ℝ 1 1).h_interp i j = 1)
    ∧ (Sample.unit_param ℝ 1).source_type = 1 ∧ 1 ≤ 1
    ∧ (Sample.bump ℝ 1 1).u.nx = ((1 : ℕ) : Int) + 1 ∧ (Sample.bump ℝ 1 1).v.nx = ((1 : ℕ) : Int)
    ∧ ∃ s1 : all_data_t ℝ,
        OMP.boundary_condition Real.sin Real.sqrt Real.pi 3 ((1 : ℕ) : Int) ((1 : ℕ) : Int)
          (Sample.unit_param ℝ 1) (Sample.bump ℝ 1 1) = Except.ok s1
        ∧ |sum_cells 1 1 (OMP.update_eta ((1 : ℕ) : Int) ((1 : ℕ) : Int)
              (Sample.unit_param ℝ 1) s1).eta - sum_cells 1 1 (Sample.bump ℝ 1 1).eta|
            ≤ 5 * |(Sample.unit_param ℝ 1).dt| * |(1 : ℝ)| * ((1 : ℕ) : ℝ)
                / |(Sample.unit_param ℝ 1).dy| := by
  have hdx : (Sample.unit_param ℝ 1).dx ≠ 0 := by simp [Sample.unit_param]
  have hdy : (Sample.unit_param ℝ 1).dy ≠ 0 := by simp [Sample.unit_param]
  have hflat : ∀ i j : Int, 0 ≤ i ∧ i < ((1 : ℕ) : Int) → 0 ≤ j ∧ j < ((1 : ℕ) : Int) →
      GET (Sample.bump ℝ 1 1).h_interp i j = 1 := fun _ _ _ _ => rfl
  obtain ⟨s1, e1, -, e3⟩ := (volume_drift Real.sqrt Real.pi 3 1 1 (Sample.unit_param ℝ 1)
    (Sample.bump ℝ 1 1) 1 hdx hdy rfl hflat).2.2 rfl (le_refl 1) (le_refl 1) rfl rfl
  exact ⟨hdx, hdy, rfl, hflat, rfl, le_refl 1, rfl, rfl, s1, e1, e3⟩

/-! ## C13: absorbing edges -/

/-- C13, the code at the failing input: `source_type = 2`, step 0, the `3 x 3` grid
with unit depth, `g = 1`, `dx = dy = 1`, `dt = 1/2` (so the factor is `k = 1/2` at
every edge), elevation 1 on the four non-corner edge cells and 0 on their interior
neighbour, the center cell.  The bottom cell `(1,0)` and the left cell `(0,1)` end
as `(1-k)*interior + k*edge = 1/2`; the top cell `(1,2)` and the right cell `(2,1)`
end as `interior - k*(edge - interior) = -1/2`, outside the interval `[0, 1]`
spanned by the two values. -/
theorem absorbing_top_right_not_relaxation :
    ∃ s' : all_data_t ℝ,
      OMP.boundary_condition Real.sin Real.sqrt Real.pi 0 3 3
        { Sample.unit_param ℝ 2 with dt := 1 / 2 } (Sample.cross ℝ) = Except.ok s'
      ∧ GET s'.eta 1 0 = 1 / 2 ∧ GET s'.eta 0 1 = 1 / 2
      ∧ GET s'.eta 1 2 = -(1 / 2) ∧ GET s'.eta 2 1 = -(1 / 2) := by
  refine ⟨_, boundary_type2_OMP_eq Real.sin Real.sqrt Real.pi 0 3 3
    { Sample.unit_param ℝ 2 with dt := 1 / 2 } (Sample.cross ℝ) rfl, ?_, ?_, ?_, ?_⟩ <;>
  · have e3 : (3 : Int).toNat = 3 := rfl
    have t3 : Int.tdiv 3 2 = 1 := rfl
    simp only [loop, e3, t3, List.range_succ, List.range_zero, List.nil_append,
      List.cons_append, List.foldl_cons, List.foldl_nil]
    simp [OMP.absorb_rows_body, OMP.absorb_cols_body, GET, SET, Function.update_apply,
      Sample.cross, Sample.const, Sample.unit_param]
    try norm_num

/-! ## C14: the kernel sweeps are order-independent -/

/-- Two fields with the same buffer and the same header are equal. -/
theorem data_ext {α : Type} (a b : data α) (h1 : a.vals = b.vals) (h2 : a.nx = b.nx)
    (h3 : a.ny = b.ny) (h4 : a.dx = b.dx) (h5 : a.dy = b.dy) : a = b := by
  cases a
  cases b
  simp only [data.mk.injEq]
  exact ⟨h1, h2, h3, h4, h5⟩

/-- A flat index `k` of a field of width `w` is the index of a cell of the sweep
`0 ≤ i < n ≤ w`, `0 ≤ j < m` exactly when `(k % w, k / w)` is such a cell. -/
theorem flat_index_decode (w n m k : Int) (hn : n ≤ w) :
    (∃ p ∈ iter_space n m, w * p.2 + p.1 = k)
      ↔ (0 < n ∧ 0 ≤ k ∧ k % w < n ∧ k / w < m) := by
  constructor
  · rintro ⟨p, hp, e⟩
    rw [mem_iter_space] at hp
    have hw : 0 < w := by omega
    have e1 : (w * p.2 + p.1) % w = p.1 := by
      rw [Int.add_comm, Int.add_mul_emod_self_left]
      exact Int.emod_eq_of_lt hp.1.1 (by omega)
    have e2 : (w * p.2 + p.1) / w = p.2 := by
      rw [Int.add_comm, Int.add_mul_ediv_left _ _ (by omega : w ≠ 0),
        Int.ediv_eq_zero_of_lt hp.1.1 (by omega)]
      omega
    have hk : 0 ≤ w * p.2 + p.1 := by
      have := Int.mul_nonneg (le_of_lt hw) hp.2.1
      omega
    rw [← e, e1, e2]
    exact ⟨by omega, hk, hp.1.2, hp.2.2⟩
  · rintro ⟨h0, hk, hi, hj⟩
    have hw : 0 < w := by omega
    refine ⟨(k % w, k / w), (mem_iter_space n m _).mpr
      ⟨⟨Int.emod_nonneg k (by omega), hi⟩, ⟨Int.ediv_nonneg hk (le_of_lt hw), hj⟩⟩, ?_⟩
    exact Int.ediv_add_emod k w

/-- A sweep in which every iteration rewrites its own cell from the value of that
cell, run over any permutation of the iteration space, yields the field in which
every cell of the sweep holds the function applied to its initial value. -/
theorem sweep_any_order {α : Type} (F : Int × Int → α → α) (n m : Int) (d : data α)
    (hw : n ≤ d.nx) (sched : List (Int × Int)) (hperm : sched.Perm (iter_space n m)) :
    sched.foldl (fun d p => SET d p.1 p.2 (F p (GET d p.1 p.2))) d
      = { d with vals := fun k =>
            if 0 < n ∧ 0 ≤ k ∧ k % d.nx < n ∧ k / d.nx < m
              then F (k % d.nx, k / d.nx) (d.vals k) else d.vals k } := by
  have hmem : ∀ p, p ∈ sched ↔ p ∈ iter_space n m := fun p => hperm.mem_iff
  have hnodup : sched.Nodup := hperm.nodup_iff.mpr (nodup_iter_space n m)
  have hinj : ∀ p ∈ sched, ∀ q ∈ sched, d.nx * p.2 + p.1 = d.nx * q.2 + q.1 → p = q := by
    intro p hp q hq e
    rw [hmem, mem_iter_space] at hp hq
    have := flat_index_inj d.nx p.1 p.2 q.1 q.2 ⟨hp.1.1, by omega⟩ ⟨hq.1.1, by omega⟩ e
    exact Prod.ext this.1 this.2
  obtain ⟨h1, h2, h3, h4, h5, h6⟩ := foldl_own_cell F sched d hnodup hinj
  refine data_ext _ _ ?_ h1 h2 h3 h4
  funext k
  by_cases hk : 0 < n ∧ 0 ≤ k ∧ k % d.nx < n ∧ k / d.nx < m
  · simp only [if_pos hk]
    obtain ⟨h0, hk0, hi, hj⟩ := hk
    have hw' : 0 < d.nx := by omega
    have hp : (k % d.nx, k / d.nx) ∈ sched := (hmem _).mpr ((mem_iter_space n m _).mpr
      ⟨⟨Int.emod_nonneg k (by omega), hi⟩, ⟨Int.ediv_nonneg hk0 (le_of_lt hw'), hj⟩⟩)
    have := h5 _ hp
    simp only [Int.ediv_add_emod] at this
    exact this
  · simp only [if_neg hk]
    refine h6 k ?_
    intro p hp e
    exact hk ((flat_index_decode d.nx n m k hw).mp ⟨p, (hmem p).mp hp, e⟩)

/-- The sweep of the OMP `update_eta` over any list of iterations acts on `eta` only,
each step rewriting its own cell from the value of that cell. -/
theorem OMP_update_eta_sched_eq {α : Type} [Field α] (param : parameters α)
    (l : List (Int × Int)) (s : all_data_t α) :
    OMP.update_eta_sched l param s
      = { s with eta := (l.foldl (fun d p => SET d p.1 p.2 ((fun (q : Int × Int) (e : α) =>
          e - param.dt * GET s.h_interp q.1 q.2 / param.dx
              * (GET s.u (q.1 + 1) q.2 - GET s.u q.1 q.2)
            - param.dt * GET s.h_interp q.1 q.2 / param.dy
              * (GET s.v q.1 (q.2 + 1) - GET s.v q.1 q.2)) p (GET d p.1 p.2))) s.eta) } := by
  unfold OMP.update_eta_sched
  induction l generalizing s with
  | nil => rfl
  | cons p l ih =>
    simp only [List.foldl_cons]
    rw [ih]
    rfl

/-- The sweep of the OMP `update_velocities` over any list of iterations acts on `u`
and on `v` separately, each step rewriting its own cell from the value of that
cell. -/
theorem OMP_update_velocities_sched_eq {α : Type} [Field α] (param : parameters α)
    (l : List (Int × Int)) (s : all_data_t α) :
    OMP.update_velocities_sched l param s
      = { s with
          u := (l.foldl (fun d p => SET d p.1 p.2 ((fun (q : Int × Int) (e : α) =>
            (1 - param.dt * param.gamma) * e - param.dt * param.g / param.dx *
              (GET s.eta q.1 q.2 - GET s.eta (if q.1 = 0 then 0 else q.1 - 1) q.2))
            p (GET d p.1 p.2))) s.u),
          v := (l.foldl (fun d p => SET d p.1 p.2 ((fun (q : Int × Int) (e : α) =>
            (1 - param.dt * param.gamma) * e - param.dt * param.g / param.dy *
              (GET s.eta q.1 q.2 - GET s.eta q.1 (if q.2 = 0 then 0 else q.2 - 1)))
            p (GET d p.1 p.2))) s.v) } := by
  unfold OMP.update_velocities_sched
  induction l generalizing s with
  | nil => rfl
  | cons p l ih =>
    simp only [List.foldl_cons]
    rw [ih]
    rfl

/-- The entry `k` of a buffer is the cell `(k % w, k / w)` of a field of width `w`. -/
theorem GET_decode {α : Type} (d : data α) (k : Int) :
    GET d (k % d.nx) (k / d.nx) = d.vals k := by
  unfold GET
  rw [Int.ediv_add_emod]

/-- The sweep of `update_eta` in any order of its iterations is the update computed
from the state before the sweep. -/
theorem update_eta_sched_eq_from_pre {α : Type} [Field α] (nx ny : Int)
    (param : parameters α) (s : all_data_t α) (heta : s.eta.nx = nx)
    (sched : List (Int × Int)) (hperm : sched.Perm (iter_space nx ny)) :
    OMP.update_eta_sched sched param s = update_eta_from_pre nx ny param s := by
  rw [OMP_update_eta_sched_eq, sweep_any_order (fun (q : Int × Int) (e : α) =>
    e - param.dt * GET s.h_interp q.1 q.2 / param.dx
        * (GET s.u (q.1 + 1) q.2 - GET s.u q.1 q.2)
      - param.dt * GET s.h_interp q.1 q.2 / param.dy
        * (GET s.v q.1 (q.2 + 1) - GET s.v q.1 q.2)) nx ny s.eta (le_of_eq heta.symm) sched hperm]
  unfold update_eta_from_pre
  simp only [GET_decode]

/-- The sweep of `update_velocities` in any order of its iterations is the update
computed from the state before the sweep. -/
theorem update_velocities_sched_eq_from_pre {α : Type} [Field α] (nx ny : Int)
    (param : parameters α) (s : all_data_t α) (hu : s.u.nx = nx + 1) (hv : s.v.nx = nx)
    (sched : List (Int × Int)) (hperm : sched.Perm (iter_space nx ny)) :
    OMP.update_velocities_sched sched param s = update_velocities_from_pre nx ny param s := by
  rw [OMP_update_velocities_sched_eq,
    sweep_any_order (fun (q : Int × Int) (e : α) =>
      (1 - param.dt * param.gamma) * e - param.dt * param.g / param.dx *
        (GET s.eta q.1 q.2 - GET s.eta (if q.1 = 0 then 0 else q.1 - 1) q.2))
      nx ny s.u (by omega) sched hperm,
    sweep_any_order (fun (q : Int × Int) (e : α) =>
      (1 - param.dt * param.gamma) * e - param.dt * param.g / param.dy *
        (GET s.eta q.1 q.2 - GET s.eta q.1 (if q.2 = 0 then 0 else q.2 - 1)))
      nx ny s.v (by omega) sched hperm]
  unfold update_velocities_from_pre
  simp only [GET_decode]

/-- C14 (the kernel sweeps are order-independent).  For fields laid out as `main`
builds them (`eta` of width `nx`, `u` of width `nx + 1`, `v` of width `nx`), the sweep
of `update_eta` run in any order `sched` that is a permutation of the index set, the
sequential in-place sweep of the OMP and of the serial `update_eta`, all yield exactly
the field obtained by computing every cell from the pre-sweep state; and the same
holds for `update_velocities`. -/
theorem sweeps_order_independent {α : Type} [Field α] (nx ny : Int) (param : parameters α)
    (s : all_data_t α) (heta : s.eta.nx = nx) (hu : s.u.nx = nx + 1) (hv : s.v.nx = nx)
    (sched : List (Int × Int)) (hperm : sched.Perm (iter_space nx ny)) :
    (OMP.update_eta_sched sched param s = update_eta_from_pre nx ny param s
      ∧ OMP.update_eta nx ny param s = update_eta_from_pre nx ny param s
      ∧ Serial.update_eta nx ny param s.u s.v s.eta s.h_interp
          = (update_eta_from_pre nx ny param s).eta)
    ∧ (OMP.update_velocities_sched sched param s = update_velocities_from_pre nx ny param s
      ∧ OMP.update_velocities nx ny param s = update_velocities_from_pre nx ny param s
      ∧ Serial.update_velocities nx ny param s.u s.v s.eta
          = ((update_velocities_from_pre nx ny param s).u,
             (update_velocities_from_pre nx ny param s).v)) := by
  have e1 : OMP.update_eta nx ny param s = OMP.update_eta_sched (iter_space nx ny) param s := by
    unfold OMP.update_eta OMP.update_eta_sched
    rw [loop_nest_eq_foldl]
  have e2 : OMP.update_velocities nx ny param s
      = OMP.update_velocities_sched (iter_space nx ny) param s := by
    unfold OMP.update_velocities OMP.update_velocities_sched
    rw [loop_nest_eq_foldl]
  have a1 := update_eta_sched_eq_from_pre nx ny param s heta (iter_space nx ny)
    (List.Perm.refl _)
  have a2 := update_velocities_sched_eq_from_pre nx ny param s hu hv (iter_space nx ny)
    (List.Perm.refl _)
  refine ⟨⟨update_eta_sched_eq_from_pre nx ny param s heta sched hperm, e1.trans a1, ?_⟩,
    ⟨update_velocities_sched_eq_from_pre nx ny param s hu hv sched hperm, e2.trans a2, ?_⟩⟩
  · have h := e1.trans a1
    rw [OMP_update_eta_eq_serial] at h
    exact congrArg all_data_t.eta h
  · have h := e2.trans a2
    rw [OMP_update_velocities_eq_serial] at h
    exact Prod.ext (congrArg all_data_t.u h) (congrArg all_data_t.v h)

/-- Witness for `sweeps_order_independent`: the sample `2 x 2` state, swept in the
reverse of the sequential order. -/
theorem sweeps_order_independent_witness :
    Sample.state.eta.nx = 2 ∧ Sample.state.u.nx = 2 + 1 ∧ Sample.state.v.nx = 2
    ∧ (iter_space 2 2).reverse.Perm (iter_space 2 2)
    ∧ OMP.update_eta_sched (iter_space 2 2).reverse (Sample.param 1) Sample.state
        = OMP.update_eta 2 2 (Sample.param 1) Sample.state
    ∧ OMP.update_velocities_sched (iter_space 2 2).reverse (Sample.param 1) Sample.state
        = OMP.update_velocities 2 2 (Sample.param 1) Sample.state := by
  have h := sweeps_order_independent 2 2 (Sample.param 1) Sample.state rfl rfl rfl
    (iter_space 2 2).reverse (List.reverse_perm _)
  exact ⟨rfl, rfl, rfl, List.reverse_perm _, h.1.1.trans h.1.2.1.symm,
    h.2.1.trans h.2.2.1.symm⟩

/-! ## C17: the Dirichlet edges survive the whole step -/

/-- The sequential sweep of the OMP `update_velocities` is the update computed from
the state before the sweep. -/
theorem OMP_update_velocities_eq_from_pre {α : Type} [Field α] (nx ny : Int)
    (param : parameters α) (s : all_data_t α) (hu : s.u.nx = nx + 1) (hv : s.v.nx = nx) :
    OMP.update_velocities nx ny param s = update_velocities_from_pre nx ny param s := by
  have e : OMP.update_velocities nx ny param s
      = OMP.update_velocities_sched (iter_space nx ny) param s := by
    unfold OMP.update_velocities OMP.update_velocities_sched
    rw [loop_nest_eq_foldl]
  rw [e]
  exact update_velocities_sched_eq_from_pre nx ny param s hu hv (iter_space nx ny)
    (List.Perm.refl _)

/-- What `update_velocities` leaves on the outer edges of `u` and `v` (`nx, ny ≥ 1`,
`u` of width `nx + 1`, `v` of width `nx`): the column `i = 0` of `u` and the row
`j = 0` of `v` are multiplied by `1 - dt*gamma`, the column `i = nx` of `u` and the
row `j = ny` of `v` are not written. -/
theorem update_velocities_edges {α : Type} [Field α] (nx ny : Int) (param : parameters α)
    (s : all_data_t α) (hnx : 1 ≤ nx) (hny : 1 ≤ ny) (hu : s.u.nx = nx + 1)
    (hv : s.v.nx = nx) :
    (∀ j : Int, 0 ≤ j ∧ j < ny →
      GET (OMP.update_velocities nx ny param s).u 0 j
          = (1 - param.dt * param.gamma) * GET s.u 0 j
      ∧ GET (OMP.update_velocities nx ny param s).u nx j = GET s.u nx j)
    ∧ (∀ i : Int, 0 ≤ i ∧ i < nx →
      GET (OMP.update_velocities nx ny param s).v i 0
          = (1 - param.dt * param.gamma) * GET s.v i 0
      ∧ GET (OMP.update_velocities nx ny param s).v i ny = GET s.v i ny) := by
  have hS := OMP_update_velocities_eq_serial nx ny param s
  have hP := OMP_update_velocities_eq_from_pre nx ny param s hu hv
  constructor
  · intro j hj
    constructor
    · rw [hS]
      have h := (update_velocities_swept nx ny param s.u s.v s.eta (by omega) (by omega) 0 j
        ⟨le_refl 0, by omega⟩ hj).1
      rw [if_pos rfl, sub_self, mul_zero, sub_zero] at h
      exact h
    · rw [hP]
      unfold update_velocities_from_pre GET
      simp only [hu]
      have e1 : ((nx + 1) * j + nx) % (nx + 1) = nx := by
        rw [Int.add_comm, Int.add_mul_emod_self_left]
        exact Int.emod_eq_of_lt (by omega) (by omega)
      rw [if_neg (by rw [e1]; omega)]
  · intro i hi
    constructor
    · rw [hS]
      have h := (update_velocities_swept nx ny param s.u s.v s.eta (by omega) (by omega) i 0
        hi ⟨le_refl 0, by omega⟩).2
      rw [if_pos rfl, sub_self, mul_zero, sub_zero] at h
      exact h
    · rw [hP]
      unfold update_velocities_from_pre GET
      simp only [hv]
      have e2 : (nx * ny + i) / nx = ny := by
        rw [Int.add_comm, Int.add_mul_ediv_left _ _ (by omega : nx ≠ 0),
          Int.ediv_eq_zero_of_lt hi.1 hi.2]
        omega
      rw [if_neg (by rw [e2]; omega)]

/-- C17 (the Dirichlet edges survive the whole step).  For `source_type = 1`,
`nx, ny ≥ 1` and every prior state laid out as `main` builds it, at the end of a full
time step `n` (injection, then `update_eta`, then `update_velocities`; OMP program,
and the serial program, which ends with the same `u` and `v`) the outer velocity edges
satisfy `u[0,j] = 0` and `u[nx,j] = 0` for `0 ≤ j < ny`, `v[i,0] = 0` and
`v[i,ny] = 5*sin(2*M_PI*n*dt/20)` for `0 ≤ i < nx`. -/
theorem dirichlet_edges_after_step {α : Type} [Field α] (sin sqrt : α → α) (M_PI : α)
    (n nx ny : Int) (param : parameters α) (s : all_data_t α) (h1 : param.source_type = 1)
    (hnx : 1 ≤ nx) (hny : 1 ≤ ny) (hu : s.u.nx = nx + 1) (hv : s.v.nx = nx) :
    ∃ s1 : all_data_t α,
      OMP.boundary_condition sin sqrt M_PI n nx ny param s = Except.ok s1
      ∧ Serial.main_boundary sin M_PI n nx ny param s = Except.ok s1
      ∧ Serial.update_velocities nx ny param s1.u s1.v
          (Serial.update_eta nx ny param s1.u s1.v s1.eta s1.h_interp)
        = ((OMP.update_velocities nx ny param (OMP.update_eta nx ny param s1)).u,
           (OMP.update_velocities nx ny param (OMP.update_eta nx ny param s1)).v)
      ∧ (∀ j : Int, 0 ≤ j ∧ j < ny →
          GET (OMP.update_velocities nx ny param (OMP.update_eta nx ny param s1)).u 0 j = 0
          ∧ GET (OMP.update_velocities nx ny param (OMP.update_eta nx ny param s1)).u nx j = 0)
      ∧ (∀ i : Int, 0 ≤ i ∧ i < nx →
          GET (OMP.update_velocities nx ny param (OMP.update_eta nx ny param s1)).v i 0 = 0
          ∧ GET (OMP.update_velocities nx ny param (OMP.update_eta nx ny param s1)).v i ny
              = 5 * sin (2 * M_PI * n * param.dt / 20)) := by
  have hb := boundary_type1_OMP_eq sin sqrt M_PI n nx ny param s h1
  obtain ⟨⟨fu, fv, -, -, -⟩, hU, hV⟩ := type1_edges sin sqrt M_PI n nx ny param s _ h1
    hnx hny hu hv hb
  have harg : 2 * M_PI * (1 / 20) * ((n : α) * param.dt) = 2 * M_PI * n * param.dt / 20 := by
    ring
  refine ⟨_, hb, (boundary_type1_serial_eq_OMP sin sqrt M_PI n nx ny param s h1).trans hb,
    ?_, ?_, ?_⟩
  · rw [OMP_update_velocities_eq_serial, OMP_update_eta_eq_serial]
  · intro j hj
    have hE := (update_velocities_edges nx ny param (OMP.update_eta nx ny param _) hnx hny
      (by rw [OMP_update_eta_eq_serial]; exact fu) (by rw [OMP_update_eta_eq_serial]; exact fv)).1
      j hj
    rw [hE.1, hE.2, OMP_update_eta_eq_serial]
    simp only
    rw [(hU j hj).1, (hU j hj).2, mul_zero]
    exact ⟨rfl, rfl⟩
  · intro i hi
    have hE := (update_velocities_edges nx ny param (OMP.update_eta nx ny param _) hnx hny
      (by rw [OMP_update_eta_eq_serial]; exact fu) (by rw [OMP_update_eta_eq_serial]; exact fv)).2
      i hi
    rw [hE.1, hE.2, OMP_update_eta_eq_serial]
    simp only
    rw [(hV i hi).1, (hV i hi).2, mul_zero, harg]
    exact ⟨rfl, rfl⟩

/-- Witness for `dirichlet_edges_after_step`: step 3 on the sample `2 x 2` state, with
the identity in place of `sin` and `sqrt` and 3 in place of `M_PI`. -/
theorem dirichlet_edges_after_step_witness :
    (Sample.param 1).source_type = 1 ∧ (1 : Int) ≤ 2 ∧ Sample.state.u.nx = 2 + 1
    ∧ Sample.state.v.nx = 2
    ∧ ∃ s1 : all_data_t ℚ,
      OMP.boundary_condition (fun x => x) (fun x => x) 3 3 2 2 (Sample.param 1) Sample.state
        = Except.ok s1
      ∧ GET (OMP.update_velocities 2 2 (Sample.param 1)
          (OMP.update_eta 2 2 (Sample.param 1) s1)).u 0 1 = 0
      ∧ GET (OMP.update_velocities 2 2 (Sample.param 1)
          (OMP.update_eta 2 2 (Sample.param 1) s1)).v 1 2 = 9 / 2 := by
  obtain ⟨s1, e1, -, -, hU, hV⟩ := dirichlet_edges_after_step (fun x => x) (fun x => x) 3 3 2 2
    (Sample.param 1) Sample.state rfl (by decide) (by decide) rfl rfl
  refine ⟨rfl, by decide, rfl, rfl, s1, e1, (hU 1 (by decide)).1, ?_⟩
  rw [(hV 1 (by decide)).2]
  norm_num [Sample.param]

/-! ## C18: the kernel accesses are in bounds -/

/-- A cell `0 ≤ i < w`, `0 ≤ j < h` of a field of width `w` and height `h` has its flat
index inside the buffer of `w * h` values. -/
theorem flat_in_bounds (w h i j : Int) (hi : 0 ≤ i ∧ i < w) (hj : 0 ≤ j ∧ j < h) :
    0 ≤ w * j + i ∧ w * j + i < w * h := by
  have hw : 0 < w := by omega
  constructor
  · have := Int.mul_nonneg (le_of_lt hw) hj.1
    omega
  · have h1 : w * (j + 1) ≤ w * h := Int.mul_le_mul_of_nonneg_left (by omega) (le_of_lt hw)
    have h2 : w * (j + 1) = w * j + w := by ring
    omega

/-- An `int` operation whose exact result is representable yields that result. -/
theorem int_wrap_of_fits (x : Int) (h : int_fits x) : int_wrap x = x := by
  unfold int_fits at h
  unfold int_wrap
  omega

/-- The number of cells of every field of a grid whose fields `u` and `v` have at most
`INT_MAX` cells is at most `INT_MAX`. -/
theorem field_size_le (nx ny : Int) (f : field_id) (hnx : 0 ≤ nx) (hny : 0 ≤ ny)
    (hu : (nx + 1) * ny ≤ 2147483647) (hv : nx * (ny + 1) ≤ 2147483647) :
    (field_dims nx ny f).1 * (field_dims nx ny f).2 ≤ 2147483647 := by
  have e1 : (nx + 1) * ny = nx * ny + ny := by ring
  have e2 : nx * (ny + 1) = nx * ny + nx := by ring
  cases f <;> simp only [field_dims] <;> omega

/-- An access whose index arguments are a cell of a field of at most `INT_MAX` cells
computes the flat index `data->nx * j + i` without overflow and is in bounds. -/
theorem access_in_bounds_of_cell (nx ny : Int) (a : access)
    (hsize : (field_dims nx ny a.fld).1 * (field_dims nx ny a.fld).2 ≤ 2147483647)
    (hi : 0 ≤ a.i ∧ a.i < (field_dims nx ny a.fld).1)
    (hj : 0 ≤ a.j ∧ a.j < (field_dims nx ny a.fld).2) :
    a.in_bounds nx ny ∧ a.flat nx ny = (field_dims nx ny a.fld).1 * a.j + a.i := by
  have hb := flat_in_bounds _ _ _ _ hi hj
  have hp : 0 ≤ (field_dims nx ny a.fld).1 * a.j := Int.mul_nonneg (by omega) hj.1
  have f1 : int_fits ((field_dims nx ny a.fld).1 * a.j) := by
    unfold int_fits
    omega
  have f2 : int_fits ((field_dims nx ny a.fld).1 * a.j + a.i) := by
    unfold int_fits
    omega
  have e : a.flat nx ny = (field_dims nx ny a.fld).1 * a.j + a.i := by
    unfold access.flat
    rw [int_wrap_of_fits _ f1, int_wrap_of_fits _ f2]
  unfold access.in_bounds
  rw [e]
  exact ⟨⟨f1, f2, hb.1, hb.2⟩, rfl⟩

/-- Every access of `update_eta` and of `update_velocities` addresses a cell of its
field. -/
theorem kernel_accesses_cells (nx ny : Int) (a : access)
    (ha : a ∈ update_eta_accesses nx ny ++ update_velocities_accesses nx ny) :
    (0 ≤ a.i ∧ a.i < (field_dims nx ny a.fld).1)
    ∧ (0 ≤ a.j ∧ a.j < (field_dims nx ny a.fld).2) := by
  rw [List.mem_append] at ha
  rcases ha with ha | ha
  · unfold update_eta_accesses at ha
    rw [List.mem_flatMap] at ha
    obtain ⟨p, hp, ha⟩ := ha
    rw [mem_iter_space] at hp
    simp only [update_eta_body_accesses, List.mem_cons, List.mem_singleton,
      List.mem_nil_iff, or_false] at ha
    rcases ha with rfl | rfl | rfl | rfl | rfl | rfl | rfl <;>
      simp only [field_dims] <;> omega
  · unfold update_velocities_accesses at ha
    rw [List.mem_flatMap] at ha
    obtain ⟨p, hp, ha⟩ := ha
    rw [mem_iter_space] at hp
    simp only [update_velocities_body_accesses, List.mem_cons, List.mem_singleton,
      List.mem_nil_iff, or_false] at ha
    rcases ha with rfl | rfl | rfl | rfl | rfl | rfl | rfl <;>
      simp only [field_dims] <;> omega

/-- C18, the claim as stated fails on a grid of more than `INT_MAX` cells: on the
`65536 x 32769` grid (both extents are `int` values) the write `eta[65535,32768]` of
iteration `(65535, 32768)` of `update_eta` addresses a cell of `eta`, but the exact
flat index `65536 * 32768 + 65535 = 2147549183` exceeds `INT_MAX`; the 32-bit
computation of the macro overflows, leaves `-2147418113`, and the access is not in
bounds. -/
theorem kernel_index_overflows_int :
    int_fits 65536 ∧ int_fits 32769
    ∧ ({ write := true, fld := field_id.eta, i := 65535, j := 32768 } : access)
        ∈ update_eta_accesses 65536 32769 ++ update_velocities_accesses 65536 32769
    ∧ ((0 : Int) ≤ 65535 ∧ (65535 : Int) < (field_dims 65536 32769 field_id.eta).1)
    ∧ ((0 : Int) ≤ 32768 ∧ (32768 : Int) < (field_dims 65536 32769 field_id.eta).2)
    ∧ (field_dims 65536 32769 field_id.eta).1 * 32768 + 65535 = 2147549183
    ∧ ¬ int_fits ((field_dims 65536 32769 field_id.eta).1 * 32768 + 65535)
    ∧ ({ write := true, fld := field_id.eta, i := 65535, j := 32768 } : access).flat
        65536 32769 = -2147418113
    ∧ ¬ ({ write := true, fld := field_id.eta, i := 65535, j := 32768 } : access).in_bounds
        65536 32769 := by
  refine ⟨by decide, by decide, ?_, by decide, by decide, by decide, by decide, by decide,
    by decide⟩
  rw [List.mem_append]
  left
  unfold update_eta_accesses
  rw [List.mem_flatMap]
  refine ⟨(65535, 32768), (mem_iter_space 65536 32769 (65535, 32768)).mpr (by decide), ?_⟩
  simp [update_eta_body_accesses]

/-- C18 (the kernel accesses are in bounds), amended with the size bound.  For every
`nx`, `ny` (in particular `nx, ny ≥ 0`) such that `u`, of size `(nx+1) x ny`, and `v`,
of size `nx x (ny+1)`, have at most `INT_MAX = 2147483647` cells (then so have `eta`
and `h_interp`, of size `nx x ny`), each field addressed with its own width: every
`GET` and `SET` of `update_eta` and of `update_velocities` computes its flat index
`data->nx * j + i` without `int` overflow, the index lies inside the buffer of the
field it addresses, and the index arguments are a cell of that field; this includes
the reads `u[i+1,j]`, `v[i,j+1]` and the index-0 fallback of `eta[i-1,j]`,
`eta[i,j-1]`. -/
theorem kernel_accesses_in_bounds (nx ny : Int) (hu : (nx + 1) * ny ≤ 2147483647)
    (hv : nx * (ny + 1) ≤ 2147483647) :
    ∀ a ∈ update_eta_accesses nx ny ++ update_velocities_accesses nx ny,
      a.in_bounds nx ny
      ∧ a.flat nx ny = (field_dims nx ny a.fld).1 * a.j + a.i
      ∧ (0 ≤ a.i ∧ a.i < (field_dims nx ny a.fld).1)
      ∧ (0 ≤ a.j ∧ a.j < (field_dims nx ny a.fld).2) := by
  intro a ha
  have h := kernel_accesses_cells nx ny a ha
  have hpos : 0 ≤ nx ∧ 0 ≤ ny := by
    obtain ⟨h1, h2⟩ := h
    cases hf : a.fld <;> simp only [hf, field_dims] at h1 h2 <;> omega
  have hb := access_in_bounds_of_cell nx ny a
    (field_size_le nx ny a.fld hpos.1 hpos.2 hu hv) h.1 h.2
  exact ⟨hb.1, hb.2, h.1, h.2⟩

/-- Witness for `kernel_accesses_in_bounds`: on the `2 x 3` grid the read `u[2,2]` of
iteration `(1, 2)` of `update_eta` has flat index 8 in the buffer of 9 values. -/
theorem kernel_accesses_in_bounds_witness :
    ((2 : Int) + 1) * 3 ≤ 2147483647 ∧ (2 : Int) * (3 + 1) ≤ 2147483647
    ∧ ({ write := false, fld := field_id.u, i := 2, j := 2 } : access)
      ∈ update_eta_accesses 2 3 ++ update_velocities_accesses 2 3
    ∧ ({ write := false, fld := field_id.u, i := 2, j := 2 } : access).flat 2 3 = 8
    ∧ ({ write := false, fld := field_id.u, i := 2, j := 2 } : access).in_bounds 2 3 :=
  ⟨by decide, by decide, by decide, by decide,
    (kernel_accesses_in_bounds 2 3 (by decide) (by decide)
      { write := false, fld := field_id.u, i := 2, j := 2 } (by decide)).1⟩

/-! ## C19: accesses of the boundary condition -/

/-- The loop variable of `for (int k = 0; k < n; k++)` takes the values `0 ≤ k < n`. -/
theorem mem_iter_range (n k : Int) : k ∈ iter_range n ↔ 0 ≤ k ∧ k < n := by
  unfold iter_range
  simp only [List.mem_map, List.mem_range]
  constructor
  · rintro ⟨x, hx, rfl⟩
    omega
  · rintro ⟨h1, h2⟩
    exact ⟨k.toNat, by omega, by omega⟩

/-- On grids with `nx, ny ≥ 2` every access of `boundary_condition` for source types
1 and 2 addresses a cell of its field; for source type 1 this holds on every grid. -/
theorem boundary_accesses_cells (nx ny source_type : Int) (a : access)
    (hsize : source_type = 1 ∨ (2 ≤ nx ∧ 2 ≤ ny))
    (ha : a ∈ OMP.boundary_condition_accesses nx ny source_type) :
    (0 ≤ a.i ∧ a.i < (field_dims nx ny a.fld).1)
    ∧ (0 ≤ a.j ∧ a.j < (field_dims nx ny a.fld).2) := by
  refine ⟨?_, ?_⟩ <;>
  · unfold OMP.boundary_condition_accesses at ha
    by_cases h1 : source_type = 1
    · rw [if_pos h1, List.mem_flatMap] at ha
      obtain ⟨p, hp, ha⟩ := ha
      rw [mem_iter_space] at hp
      simp only [OMP.source1_body_accesses, List.mem_cons, List.mem_singleton,
        List.mem_nil_iff, or_false] at ha
      rcases ha with rfl | rfl | rfl | rfl <;> simp only [field_dims] <;> omega
    · have hs : 2 ≤ nx ∧ 2 ≤ ny := by tauto
      by_cases h2 : source_type = 2
      · rw [if_neg h1, if_pos h2] at ha
        have ex : Int.tdiv nx 2 = nx / 2 := Int.tdiv_eq_ediv (by omega) (by decide)
        have ey : Int.tdiv ny 2 = ny / 2 := Int.tdiv_eq_ediv (by omega) (by decide)
        simp only [List.mem_append, List.mem_flatMap, mem_iter_range, List.mem_singleton]
          at ha
        rcases ha with (rfl | ⟨i, hi, ha⟩) | ⟨j, hj, ha⟩
        · simp only [field_dims, ex, ey]
          omega
        · simp only [OMP.absorb_rows_body_accesses, OMP.edge_row_accesses, List.mem_append,
            List.mem_cons, List.mem_singleton, List.mem_nil_iff, or_false] at ha
          rcases ha with ((((((rfl | rfl) | rfl | rfl | rfl | rfl) | rfl | rfl | rfl | rfl)
            | rfl | rfl | rfl | rfl) | rfl | rfl | rfl | rfl) | rfl | rfl | rfl | rfl)
            | rfl | rfl | rfl | rfl <;> simp only [field_dims] <;> omega
        · simp only [OMP.absorb_cols_body_accesses, OMP.edge_col_accesses, List.mem_append,
            List.mem_cons, List.mem_singleton, List.mem_nil_iff, or_false] at ha
          rcases ha with ((((((rfl | rfl) | rfl | rfl | rfl | rfl) | rfl | rfl | rfl | rfl)
            | rfl | rfl | rfl | rfl) | rfl | rfl | rfl | rfl) | rfl | rfl | rfl | rfl)
            | rfl | rfl | rfl | rfl <;> simp only [field_dims] <;> omega
      · rw [if_neg h1, if_neg h2] at ha
        cases ha

/-- On grids with `nx, ny ≥ 2` whose fields have at most `INT_MAX` cells every access
of `boundary_condition` for source types 1 and 2 is in bounds; for source type 1 this
holds on every such grid. -/
theorem boundary_accesses_in_bounds (nx ny source_type : Int) (a : access)
    (hsize : source_type = 1 ∨ (2 ≤ nx ∧ 2 ≤ ny))
    (hu : (nx + 1) * ny ≤ 2147483647) (hv : nx * (ny + 1) ≤ 2147483647)
    (ha : a ∈ OMP.boundary_condition_accesses nx ny source_type) :
    a.in_bounds nx ny := by
  have h := boundary_accesses_cells nx ny source_type a hsize ha
  have hpos : 0 ≤ nx ∧ 0 ≤ ny := by
    obtain ⟨h1, h2⟩ := h
    cases hf : a.fld <;> simp only [hf, field_dims] at h1 h2 <;> omega
  exact (access_in_bounds_of_cell nx ny a
    (field_size_le nx ny a.fld hpos.1 hpos.2 hu hv) h.1 h.2).1

/-- C19, the code at failing inputs: for `source_type = 2` on the `3 x 1` grid (a grid
with a single row, which `main` builds), `boundary_condition` reads `eta[0,-1]`
(row `ny - 2`), flat index `-3`, and `eta[0,1]` (row 1), flat index 3, outside the
buffer of `3 * 1` values; on the `1 x 1` grid (the sizes after the clamp of `main`) it
reads `eta[1,0]` (column 1), flat index 1, outside the buffer of one value. -/
theorem boundary_condition_out_of_bounds :
    (({ write := false, fld := field_id.eta, i := 0, j := -1 } : access)
        ∈ OMP.boundary_condition_accesses 3 1 2
      ∧ ({ write := false, fld := field_id.eta, i := 0, j := -1 } : access).flat 3 1 = -3
      ∧ ¬ ({ write := false, fld := field_id.eta, i := 0, j := -1 } : access).in_bounds 3 1)
    ∧ (({ write := false, fld := field_id.eta, i := 0, j := 1 } : access)
        ∈ OMP.boundary_condition_accesses 3 1 2
      ∧ ({ write := false, fld := field_id.eta, i := 0, j := 1 } : access).flat 3 1 = 3
      ∧ ¬ ({ write := false, fld := field_id.eta, i := 0, j := 1 } : access).in_bounds 3 1)
    ∧ (({ write := false, fld := field_id.eta, i := 1, j := 0 } : access)
        ∈ OMP.boundary_condition_accesses 1 1 2
      ∧ ({ write := false, fld := field_id.eta, i := 1, j := 0 } : access).flat 1 1 = 1
      ∧ ¬ ({ write := false, fld := field_id.eta, i := 1, j := 0 } : access).in_bounds 1 1) := by
  refine ⟨⟨?_, ?_, ?_⟩, ⟨?_, ?_, ?_⟩, ⟨?_, ?_, ?_⟩⟩ <;> decide

/-! ## C20: the progress test of the step loop -/

/-- A time-step loop of at least two iterations whose iteration 0 does not halt and
whose iteration 1 halts ends in the state that iteration 1 leaves. -/
theorem loop_halts_at_one {α : Type} (step : Int → run α → run α) (nt : Int) (r : run α)
    (hnt : 2 ≤ nt) (h0 : r.halted = none) (h1 : (step 0 r).halted = none)
    (h2 : (step 1 (step 0 r)).halted.isSome = true) :
    loop nt (fun n r => if r.halted.isSome then r else step n r) r = step 1 (step 0 r) := by
  unfold loop
  obtain ⟨k, hk⟩ : ∃ k : Nat, nt.toNat = k + 2 := ⟨nt.toNat - 2, by omega⟩
  rw [hk, List.range_succ_eq_map, List.foldl_cons, List.range_succ_eq_map, List.map_cons,
    List.foldl_cons]
  have e0 : (fun n r => if r.halted.isSome then r else step n r) ((0 : Nat) : Int) r
      = step 0 r := by
    simp [h0]
  have e1 : (fun n r => if r.halted.isSome then r else step n r) ((Nat.succ 0 : Nat) : Int)
      (step 0 r) = step 1 (step 0 r) := by
    simp [h1]
  rw [e0, e1]
  exact foldl_halted step _ _ h2

/-- An iteration `n ≠ 0` of the time-step loop of the serial `main` with `nt / 10 = 0`
evaluates `n % (nt / 10)` with a zero divisor. -/
theorem serial_main_step_trap {α : Type} [Field α] (sin : α → α) (M_PI : α) (nx ny nt : Int)
    (param : parameters α) (n : Int) (r : run α) (hn : n ≠ 0) (hz : Int.tdiv nt 10 = 0) :
    (Serial.main_step sin M_PI nx ny nt param n r).halted = some termination.mod_by_zero := by
  unfold Serial.main_step
  rw [if_pos ⟨hn, hz⟩]

/-- An iteration `n ≠ 0` of the time-step loop of the OMP `main` with `nt / 10 = 0`
evaluates `n % (nt / 10)` with a zero divisor. -/
theorem OMP_main_step_trap {α : Type} [Field α] (sin sqrt : α → α) (M_PI : α)
    (nx ny nt : Int) (param : parameters α) (n : Int) (r : run α) (hn : n ≠ 0)
    (hz : Int.tdiv nt 10 = 0) :
    (OMP.main_step sin sqrt M_PI nx ny nt param n r).halted = some termination.mod_by_zero := by
  unfold OMP.main_step
  rw [if_pos ⟨hn, hz⟩]

/-- Iteration 0 of the time-step loop of the serial `main` with a source type 1 or 2
does not end the run. -/
theorem serial_main_step_zero_halted {α : Type} [Field α] (sin : α → α) (M_PI : α)
    (nx ny nt : Int) (param : parameters α) (r : run α)
    (hs : param.source_type = 1 ∨ param.source_type = 2) :
    (Serial.main_step sin M_PI nx ny nt param 0 r).halted = r.halted := by
  unfold Serial.main_step
  rw [if_neg (fun h => h.1 rfl)]
  rcases serial_boundary_cases sin M_PI 0 nx ny param r.all_data with ⟨-, s', hb⟩ | ⟨hs', -⟩
  · have hp : ¬ ((0 : Int) ≠ 0 ∧ Int.tmod 0 (Int.tdiv nt 10) = 0) := fun h => h.1 rfl
    by_cases hw : param.sampling_rate ≠ 0 ∧ Int.tmod 0 param.sampling_rate = 0
    · simp only [if_neg hp, if_pos hw, hb]
    · simp only [if_neg hp, if_neg hw, hb]
  · exact absurd hs hs'

/-- Iteration 0 of the time-step loop of the OMP `main` with a source type 1 or 2 does
not end the run. -/
theorem OMP_main_step_zero_halted {α : Type} [Field α] (sin sqrt : α → α) (M_PI : α)
    (nx ny nt : Int) (param : parameters α) (r : run α)
    (hs : param.source_type = 1 ∨ param.source_type = 2) :
    (OMP.main_step sin sqrt M_PI nx ny nt param 0 r).halted = r.halted := by
  unfold OMP.main_step
  rw [if_neg (fun h => h.1 rfl)]
  rcases OMP_boundary_cases sin sqrt M_PI 0 nx ny param r.all_data with ⟨-, s', hb⟩ | ⟨hs', -⟩
  · have hp : ¬ ((0 : Int) ≠ 0 ∧ Int.tmod 0 (Int.tdiv nt 10) = 0) := fun h => h.1 rfl
    by_cases hw : param.sampling_rate ≠ 0 ∧ Int.tmod 0 param.sampling_rate = 0
    · simp only [if_neg hp, if_pos hw, hb]
    · simp only [if_neg hp, if_neg hw, hb]
  · exact absurd hs hs'

/-- A run of `2 ≤ nt < 10` time steps with a source type 1 or 2 reaches, in iteration
1, the progress test `n % (nt / 10)` with `nt / 10 = 0`, in the serial and in the OMP
`main`. -/
theorem run_short_divides_by_zero {α : Type} [Field α] (sin sqrt : α → α) (M_PI : α)
    (nx ny nt : Int) (param : parameters α) (s : all_data_t α)
    (hs : param.source_type = 1 ∨ param.source_type = 2) (hnt : 2 ≤ nt ∧ nt < 10) :
    (Serial.main_run sin M_PI nx ny nt param s).halted = some termination.mod_by_zero
    ∧ (OMP.main_run sin sqrt M_PI nx ny nt param s).halted = some termination.mod_by_zero := by
  have hz : Int.tdiv nt 10 = 0 := by
    rw [Int.tdiv_eq_ediv (by omega) (by decide)]
    omega
  constructor
  · have h1 := serial_main_step_zero_halted sin M_PI nx ny nt param
      { all_data := s, out := [], halted := none } hs
    have h2 := serial_main_step_trap sin M_PI nx ny nt param 1
      (Serial.main_step sin M_PI nx ny nt param 0 { all_data := s, out := [], halted := none })
      (by decide) hz
    have hl := loop_halts_at_one (fun n r => Serial.main_step sin M_PI nx ny nt param n r) nt
      { all_data := s, out := [], halted := none } hnt.1 rfl h1 (by simp only [h2]; rfl)
    unfold Serial.main_run
    simp only [hl, h2]
    rw [if_pos (show (some termination.mod_by_zero).isSome = true from rfl)]
    exact h2
  · have h1 := OMP_main_step_zero_halted sin sqrt M_PI nx ny nt param
      { all_data := s, out := [], halted := none } hs
    have h2 := OMP_main_step_trap sin sqrt M_PI nx ny nt param 1
      (OMP.main_step sin sqrt M_PI nx ny nt param 0
        { all_data := s, out := [], halted := none })
      (by decide) hz
    have hl := loop_halts_at_one (fun n r => OMP.main_step sin sqrt M_PI nx ny nt param n r) nt
      { all_data := s, out := [], halted := none } hnt.1 rfl h1 (by simp only [h2]; rfl)
    unfold OMP.main_run
    simp only [hl, h2]
    rw [if_pos (show (some termination.mod_by_zero).isSome = true from rfl)]
    exact h2

/-- C20, the code at the failing input `nt = 2` (source type 1, sample `2 x 2` state):
`nt / 10 = 0`, and in iteration `n = 1` the serial and the OMP `main` evaluate the
progress test `n % (nt / 10)` with a zero divisor. -/
theorem progress_test_divides_by_zero :
    Int.tdiv 2 10 = 0
    ∧ (Serial.main_run (fun x => x) 3 2 2 2 (Sample.param 1) Sample.state).halted
        = some termination.mod_by_zero
    ∧ (OMP.main_run (fun x => x) (fun x => x) 3 2 2 2 (Sample.param 1) Sample.state).halted
        = some termination.mod_by_zero := by
  have h := run_short_divides_by_zero (fun x => x) (fun x => x) 3 2 2 2 (Sample.param 1)
    Sample.state (Or.inl rfl) (by decide)
  exact ⟨by decide, h.1, h.2⟩

/-- An iteration of the time-step loop of the serial `main` whose progress test has a
nonzero divisor (or is skipped, `n = 0`) evaluates no modulo with a zero divisor. -/
theorem serial_main_step_no_trap {α : Type} [Field α] (sin : α → α) (M_PI : α)
    (nx ny nt : Int) (param : parameters α) (n : Int) (r : run α)
    (hdef : n = 0 ∨ Int.tdiv nt 10 ≠ 0) (h : r.halted ≠ some termination.mod_by_zero) :
    (Serial.main_step sin M_PI nx ny nt param n r).halted ≠ some termination.mod_by_zero := by
  have htrap : ¬ (n ≠ 0 ∧ Int.tdiv nt 10 = 0) := by tauto
  unfold Serial.main_step
  rw [if_neg htrap]
  rcases serial_boundary_cases sin M_PI n nx ny param r.all_data with ⟨-, s', hb⟩ | ⟨-, hb⟩
  · by_cases hp : n ≠ 0 ∧ Int.tmod n (Int.tdiv nt 10) = 0
    · by_cases hw : param.sampling_rate ≠ 0 ∧ Int.tmod n param.sampling_rate = 0
      · simp only [if_pos hp, if_pos hw, hb]
        exact h
      · simp only [if_pos hp, if_neg hw, hb]
        exact h
    · by_cases hw : param.sampling_rate ≠ 0 ∧ Int.tmod n param.sampling_rate = 0
      · simp only [if_neg hp, if_pos hw, hb]
        exact h
      · simp only [if_neg hp, if_neg hw, hb]
        exact h
  · by_cases hp : n ≠ 0 ∧ Int.tmod n (Int.tdiv nt 10) = 0
    · by_cases hw : param.sampling_rate ≠ 0 ∧ Int.tmod n param.sampling_rate = 0
      · simp only [if_pos hp, if_pos hw, hb]
        intro e
        cases e
      · simp only [if_pos hp, if_neg hw, hb]
        intro e
        cases e
    · by_cases hw : param.sampling_rate ≠ 0 ∧ Int.tmod n param.sampling_rate = 0
      · simp only [if_neg hp, if_pos hw, hb]
        intro e
        cases e
      · simp only [if_neg hp, if_neg hw, hb]
        intro e
        cases e

/-- A run of the serial `main` of `nt ≤ 1` or `nt ≥ 10` time steps evaluates no modulo
with a zero divisor. -/
theorem serial_run_no_trap {α : Type} [Field α] (sin : α → α) (M_PI : α) (nx ny nt : Int)
    (param : parameters α) (s : all_data_t α) (hnt : nt ≤ 1 ∨ 10 ≤ nt) :
    (Serial.main_run sin M_PI nx ny nt param s).halted ≠ some termination.mod_by_zero := by
  have hl := loop_invariant nt
    (fun n r => if r.halted.isSome then r else Serial.main_step sin M_PI nx ny nt param n r)
    (fun r => r.halted ≠ some termination.mod_by_zero)
    { all_data := s, out := [], halted := none }
    (by
      intro k r hk hr
      by_cases hh : r.halted.isSome = true
      · simp only [hh, if_true]
        exact hr
      · simp only [hh]
        refine serial_main_step_no_trap sin M_PI nx ny nt param k r ?_ hr
        rcases hnt with h | h
        · exact Or.inl (by omega)
        · right
          rw [Int.tdiv_eq_ediv (by omega) (by decide)]
          omega)
    (by intro e; cases e)
  unfold Serial.main_run
  by_cases hh : (loop nt
      (fun (n : Int) (r : run α) =>
        if r.halted.isSome then r else Serial.main_step sin M_PI nx ny nt param n r)
      { all_data := s, out := [], halted := none }).halted.isSome = true
  · rw [if_pos hh]
    exact hl
  · rw [if_neg hh]
    intro e
    cases e

/-- An iteration of the time-step loop of the OMP `main` whose progress test has a
nonzero divisor (or is skipped, `n = 0`) evaluates no modulo with a zero divisor. -/
theorem OMP_main_step_no_trap {α : Type} [Field α] (sin sqrt : α → α) (M_PI : α)
    (nx ny nt : Int) (param : parameters α) (n : Int) (r : run α)
    (hdef : n = 0 ∨ Int.tdiv nt 10 ≠ 0) (h : r.halted ≠ some termination.mod_by_zero) :
    (OMP.main_step sin sqrt M_PI nx ny nt param n r).halted ≠ some termination.mod_by_zero := by
  have htrap : ¬ (n ≠ 0 ∧ Int.tdiv nt 10 = 0) := by tauto
  unfold OMP.main_step
  rw [if_neg htrap]
  rcases OMP_boundary_cases sin sqrt M_PI n nx ny param r.all_data with ⟨-, s', hb⟩ | ⟨-, hb⟩
  · by_cases hp : n ≠ 0 ∧ Int.tmod n (Int.tdiv nt 10) = 0
    · by_cases hw : param.sampling_rate ≠ 0 ∧ Int.tmod n param.sampling_rate = 0
      · simp only [if_pos hp, if_pos hw, hb]
        exact h
      · simp only [if_pos hp, if_neg hw, hb]
        exact h
    · by_cases hw : param.sampling_rate ≠ 0 ∧ Int.tmod n param.sampling_rate = 0
      · simp only [if_neg hp, if_pos hw, hb]
        exact h
      · simp only [if_neg hp, if_neg hw, hb]
        exact h
  · by_cases hp : n ≠ 0 ∧ Int.tmod n (Int.tdiv nt 10) = 0
    · by_cases hw : param.sampling_rate ≠ 0 ∧ Int.tmod n param.sampling_rate = 0
      · simp only [if_pos hp, if_pos hw, hb]
        intro e
        cases e
      · simp only [if_pos hp, if_neg hw, hb]
        intro e
        cases e
    · by_cases hw : param.sampling_rate ≠ 0 ∧ Int.tmod n param.sampling_rate = 0
      · simp only [if_neg hp, if_pos hw, hb]
        intro e
        cases e
      · simp only [if_neg hp, if_neg hw, hb]
        intro e
        cases e

/-- A run of the OMP `main` of `nt ≤ 1` or `nt ≥ 10` time steps evaluates no modulo
with a zero divisor. -/
theorem OMP_run_no_trap {α : Type} [Field α] (sin sqrt : α → α) (M_PI : α) (nx ny nt : Int)
    (param : parameters α) (s : all_data_t α) (hnt : nt ≤ 1 ∨ 10 ≤ nt) :
    (OMP.main_run sin sqrt M_PI nx ny nt param s).halted ≠ some termination.mod_by_zero := by
  have hl := loop_invariant nt
    (fun n r => if r.halted.isSome then r else OMP.main_step sin sqrt M_PI nx ny nt param n r)
    (fun r => r.halted ≠ some termination.mod_by_zero)
    { all_data := s, out := [], halted := none }
    (by
      intro k r hk hr
      by_cases hh : r.halted.isSome = true
      · simp only [hh, if_true]
        exact hr
      · simp only [hh]
        refine OMP_main_step_no_trap sin sqrt M_PI nx ny nt param k r ?_ hr
        rcases hnt with h | h
        · exact Or.inl (by omega)
        · right
          rw [Int.tdiv_eq_ediv (by omega) (by decide)]
          omega)
    (by intro e; cases e)
  unfold OMP.main_run
  by_cases hh : (loop nt
      (fun (n : Int) (r : run α) =>
        if r.halted.isSome then r else OMP.main_step sin sqrt M_PI nx ny nt param n r)
      { all_data := s, out := [], halted := none }).halted.isSome = true
  · rw [if_pos hh]
    exact hl
  · rw [if_neg hh]
    intro e
    cases e

/-! ## C15: partition coverage -/

/-- Chunks `[st c, st (c + 1))` of nondecreasing boundaries are ordered. -/
theorem chain_mono (st : Int → Int) (parts : Int)
    (hstep : ∀ c, 0 ≤ c ∧ c < parts → st c ≤ st (c + 1)) (c : Int) (k : Nat)
    (hc : 0 ≤ c) (hk : c + k ≤ parts) : st c ≤ st (c + k) := by
  induction k with
  | zero => simp
  | succ k ih =>
    have h1 := ih (by push_cast at hk; omega)
    have h2 := hstep (c + k) ⟨by omega, by push_cast at hk; omega⟩
    have e : c + ((k + 1 : Nat) : Int) = c + k + 1 := by push_cast; ring
    rw [e]
    omega

/-- Every point of `[st 0, st parts)` lies in a chunk `[st c, st (c + 1))`. -/
theorem chain_cover (st : Int → Int) (x : Int) (k : Nat) (h0 : st 0 ≤ x)
    (hk : x < st k) : ∃ c : Int, (0 ≤ c ∧ c < k) ∧ st c ≤ x ∧ x < st (c + 1) := by
  induction k with
  | zero => exact absurd hk (by simpa using h0)
  | succ k ih =>
    by_cases hx : x < st k
    · obtain ⟨c, hc, h⟩ := ih hx
      exact ⟨c, ⟨hc.1, by push_cast; omega⟩, h⟩
    · refine ⟨k, ⟨by omega, by push_cast; omega⟩, by omega, ?_⟩
      have e : ((k + 1 : Nat) : Int) = (k : Int) + 1 := by push_cast; ring
      rw [e] at hk
      exact hk

/-- Two chunks of nondecreasing boundaries that share a point are the same chunk. -/
theorem chain_unique (st : Int → Int) (parts : Int)
    (hstep : ∀ c, 0 ≤ c ∧ c < parts → st c ≤ st (c + 1)) (c c' x : Int)
    (hc : 0 ≤ c ∧ c < parts) (hc' : 0 ≤ c' ∧ c' < parts)
    (hx : st c ≤ x ∧ x < st (c + 1)) (hx' : st c' ≤ x ∧ x < st (c' + 1)) : c = c' := by
  by_contra hne
  rcases lt_or_gt_of_ne hne with h | h
  · have := chain_mono st parts hstep (c + 1) (c' - (c + 1)).toNat (by omega)
      (by rw [Int.toNat_of_nonneg (by omega)]; omega)
    rw [Int.toNat_of_nonneg (by omega)] at this
    have e : c + 1 + (c' - (c + 1)) = c' := by ring
    rw [e] at this
    omega
  · have := chain_mono st parts hstep (c' + 1) (c - (c' + 1)).toNat (by omega)
      (by rw [Int.toNat_of_nonneg (by omega)]; omega)
    rw [Int.toNat_of_nonneg (by omega)] at this
    have e : c' + 1 + (c - (c' + 1)) = c := by ring
    rw [e] at this
    omega

/-- The lengths of the chunks `[st c, st (c + 1))`, `c < k`, sum to `st k - st 0`. -/
theorem chain_sum (st : Int → Int) (k : Nat) :
    ∑ c in Finset.range k, (st ((c : Int) + 1) - st c) = st k - st 0 := by
  induction k with
  | zero => simp
  | succ k ih =>
    rw [Finset.sum_range_succ, ih]
    push_cast
    ring

/-- Quotient and remainder of the division of an axis among the processes. -/
theorem axis_div_mod (extent parts : Int) (hp : 1 ≤ parts) (he : 0 ≤ extent) :
    0 ≤ Int.tdiv extent parts ∧ 0 ≤ Int.tmod extent parts ∧ Int.tmod extent parts < parts
    ∧ parts * Int.tdiv extent parts + Int.tmod extent parts = extent := by
  have hp0 : 0 ≤ parts := by omega
  rw [Int.tdiv_eq_ediv he hp0, Int.tmod_eq_emod he hp0]
  exact ⟨Int.ediv_nonneg he hp0, Int.emod_nonneg _ (by omega), Int.emod_lt_of_pos _ (by omega),
    Int.ediv_add_emod extent parts⟩

/-- The chunk of a coordinate ends where the chunk of the next coordinate starts. -/
theorem axis_limits_end (extent parts c : Int) :
    (axis_limits extent parts c).end_ = (axis_limits extent parts (c + 1)).start := by
  simp only [axis_limits]
  rw [add_mul, one_mul]
  split_ifs <;> omega

/-- The chunk of coordinate 0 starts at cell 0. -/
theorem axis_limits_start_zero (extent parts : Int) (hp : 1 ≤ parts) (he : 0 ≤ extent) :
    (axis_limits extent parts 0).start = 0 := by
  obtain ⟨-, -, h3, -⟩ := axis_div_mod extent parts hp he
  simp only [axis_limits, zero_mul, zero_add]
  split_ifs <;> omega

/-- The boundary after the last coordinate is the extent of the axis. -/
theorem axis_limits_start_parts (extent parts : Int) (hp : 1 ≤ parts) (he : 0 ≤ extent) :
    (axis_limits extent parts parts).start = extent := by
  obtain ⟨-, h2, -, h4⟩ := axis_div_mod extent parts hp he
  simp only [axis_limits]
  split_ifs <;> omega

/-- A chunk has `extent / parts` cells or one more, and ends `n` cells after its
start. -/
theorem axis_limits_n (extent parts c : Int) (hp : 1 ≤ parts) (he : 0 ≤ extent) :
    (axis_limits extent parts c).end_
        = (axis_limits extent parts c).start + (axis_limits extent parts c).n
    ∧ Int.tdiv extent parts ≤ (axis_limits extent parts c).n
    ∧ (axis_limits extent parts c).n ≤ Int.tdiv extent parts + 1
    ∧ 0 ≤ (axis_limits extent parts c).n := by
  obtain ⟨h1, -, -, -⟩ := axis_div_mod extent parts hp he
  refine ⟨rfl, ?_, ?_, ?_⟩ <;> simp only [axis_limits] <;> split_ifs <;> omega

/-- Tiling of one axis by the chunks of `axis_limits`. -/
theorem axis_limits_tile (extent parts : Int) (hp : 1 ≤ parts) (he : 0 ≤ extent) :
    (∀ x, 0 ≤ x ∧ x < extent → ∃ c, (0 ≤ c ∧ c < parts)
        ∧ (axis_limits extent parts c).start ≤ x ∧ x < (axis_limits extent parts c).end_)
    ∧ (∀ c x, 0 ≤ c ∧ c < parts →
        (axis_limits extent parts c).start ≤ x ∧ x < (axis_limits extent parts c).end_ →
        0 ≤ x ∧ x < extent)
    ∧ (∀ c c' x, 0 ≤ c ∧ c < parts → 0 ≤ c' ∧ c' < parts →
        (axis_limits extent parts c).start ≤ x ∧ x < (axis_limits extent parts c).end_ →
        (axis_limits extent parts c').start ≤ x ∧ x < (axis_limits extent parts c').end_ →
        c = c') := by
  have hstep : ∀ c, 0 ≤ c ∧ c < parts →
      (axis_limits extent parts c).start ≤ (axis_limits extent parts (c + 1)).start := by
    intro c _
    rw [← axis_limits_end]
    have := axis_limits_n extent parts c hp he
    omega
  have h0 := axis_limits_start_zero extent parts hp he
  have hP := axis_limits_start_parts extent parts hp he
  have hpn : ((parts.toNat : Nat) : Int) = parts := Int.toNat_of_nonneg (by omega)
  refine ⟨?_, ?_, ?_⟩
  · intro x hx
    obtain ⟨c, hc, h⟩ := chain_cover (fun c => (axis_limits extent parts c).start) x
      parts.toNat (by simp only [h0]; exact hx.1) (by simp only [hpn, hP]; exact hx.2)
    rw [hpn] at hc
    exact ⟨c, hc, h.1, by rw [axis_limits_end]; exact h.2⟩
  · intro c x hc hx
    rw [axis_limits_end] at hx
    have m1 := chain_mono (fun c => (axis_limits extent parts c).start) parts hstep 0
      c.toNat (le_refl 0) (by rw [Int.toNat_of_nonneg hc.1]; omega)
    have m2 := chain_mono (fun c => (axis_limits extent parts c).start) parts hstep (c + 1)
      (parts - (c + 1)).toNat (by omega) (by rw [Int.toNat_of_nonneg (by omega)]; omega)
    rw [Int.toNat_of_nonneg (by omega)] at m1 m2
    have e : c + 1 + (parts - (c + 1)) = parts := by ring
    simp only [zero_add, e, h0, hP] at m1 m2
    omega
  · intro c c' x hc hc' hx hx'
    rw [axis_limits_end] at hx hx'
    exact chain_unique (fun c => (axis_limits extent parts c).start) parts hstep c c' x
      hc hc' hx hx'

/-- The chunk lengths along one axis sum to the extent of the axis. -/
theorem axis_limits_sum (extent parts : Int) (hp : 1 ≤ parts) (he : 0 ≤ extent) :
    ∑ c in Finset.range parts.toNat, (axis_limits extent parts (c : Int)).n = extent := by
  have hterm : ∀ c : Nat, (axis_limits extent parts (c : Int)).n
      = (axis_limits extent parts ((c : Int) + 1)).start
        - (axis_limits extent parts (c : Int)).start := by
    intro c
    rw [← axis_limits_end]
    have := (axis_limits_n extent parts c hp he).1
    omega
  simp only [hterm]
  rw [chain_sum (fun c => (axis_limits extent parts c).start) parts.toNat,
    Int.toNat_of_nonneg (by omega)]
  rw [axis_limits_start_zero extent parts hp he, axis_limits_start_parts extent parts hp he]
  ring

/-- The rank of given coordinates has these coordinates. -/
theorem rank_coords_mk (dims1 c0 c1 : Int) (h0 : 0 ≤ c0) (h1 : 0 ≤ c1 ∧ c1 < dims1) :
    rank_coords dims1 (c0 * dims1 + c1) = (c0, c1) := by
  have hr : 0 ≤ c0 * dims1 + c1 := by
    have := Int.mul_nonneg h0 (by omega : (0 : Int) ≤ dims1)
    omega
  unfold rank_coords
  rw [Int.tdiv_eq_ediv hr (by omega), Int.tmod_eq_emod hr (by omega)]
  refine Prod.ext ?_ ?_
  · show (c0 * dims1 + c1) / dims1 = c0
    rw [Int.add_comm, Int.add_mul_ediv_right _ _ (by omega), Int.ediv_eq_zero_of_lt h1.1 h1.2]
    omega
  · show (c0 * dims1 + c1) % dims1 = c1
    rw [Int.add_comm, Int.add_mul_emod_self]
    exact Int.emod_eq_of_lt h1.1 h1.2

/-- The coordinates of a rank of the process grid lie in the grid and determine the
rank. -/
theorem rank_coords_range (dims0 dims1 rank : Int) (hd1 : 1 ≤ dims1)
    (hr : 0 ≤ rank ∧ rank < dims0 * dims1) :
    (0 ≤ (rank_coords dims1 rank).1 ∧ (rank_coords dims1 rank).1 < dims0)
    ∧ (0 ≤ (rank_coords dims1 rank).2 ∧ (rank_coords dims1 rank).2 < dims1)
    ∧ (rank_coords dims1 rank).1 * dims1 + (rank_coords dims1 rank).2 = rank := by
  unfold rank_coords
  rw [Int.tdiv_eq_ediv hr.1 (by omega), Int.tmod_eq_emod hr.1 (by omega)]
  refine ⟨⟨Int.ediv_nonneg hr.1 (by omega), Int.ediv_lt_of_lt_mul (by omega) hr.2⟩,
    ⟨Int.emod_nonneg _ (by omega), Int.emod_lt_of_pos _ (by omega)⟩, ?_⟩
  show rank / dims1 * dims1 + rank % dims1 = rank
  rw [Int.mul_comm]
  exact Int.ediv_add_emod rank dims1

/-- C15 (partition coverage).  For a process grid of `dims0 x dims1 >= 1 x 1` processes
and global extents `nx_glob, ny_glob >= 0`: along an axis of `extent` cells divided
among `parts` coordinates the chunk of coordinate 0 starts at 0, the chunk of the last
coordinate ends at `extent`, every chunk has `end = start + n` with `n >= 0`,
consecutive chunks are contiguous, every cell of `[0, extent)` lies in a chunk, every
chunk lies in `[0, extent)`, no cell lies in two chunks, the lengths sum to `extent`, and
two lengths differ by at most one; every rank of the grid has coordinates in the grid,
`rank_glob[rank]` holds the chunks of these coordinates, and every global cell
`(i, j)` lies in the rectangle of exactly one rank. -/
theorem partition_coverage (nx_glob ny_glob dims0 dims1 : Int) (hd0 : 1 ≤ dims0)
    (hd1 : 1 ≤ dims1) (hnx : 0 ≤ nx_glob) (hny : 0 ≤ ny_glob) :
    (∀ extent parts : Int, (extent = nx_glob ∧ parts = dims0) ∨
        (extent = ny_glob ∧ parts = dims1) →
      (axis_limits extent parts 0).start = 0
      ∧ (axis_limits extent parts (parts - 1)).end_ = extent
      ∧ (∀ c, 0 ≤ c ∧ c < parts →
          (axis_limits extent parts c).end_
            = (axis_limits extent parts c).start + (axis_limits extent parts c).n
          ∧ 0 ≤ (axis_limits extent parts c).n)
      ∧ (∀ c, 0 ≤ c ∧ c + 1 < parts →
          (axis_limits extent parts (c + 1)).start = (axis_limits extent parts c).end_)
      ∧ (∀ x, 0 ≤ x ∧ x < extent → ∃ c, (0 ≤ c ∧ c < parts)
          ∧ (axis_limits extent parts c).start ≤ x ∧ x < (axis_limits extent parts c).end_)
      ∧ (∀ c x, 0 ≤ c ∧ c < parts →
          (axis_limits extent parts c).start ≤ x ∧ x < (axis_limits extent parts c).end_ →
          0 ≤ x ∧ x < extent)
      ∧ (∀ c c' x, 0 ≤ c ∧ c < parts → 0 ≤ c' ∧ c' < parts →
          (axis_limits extent parts c).start ≤ x ∧ x < (axis_limits extent parts c).end_ →
          (axis_limits extent parts c').start ≤ x ∧ x < (axis_limits extent parts c').end_ →
          c = c')
      ∧ ∑ c in Finset.range parts.toNat, (axis_limits extent parts (c : Int)).n = extent
      ∧ (∀ c c', 0 ≤ c ∧ c < parts → 0 ≤ c' ∧ c' < parts →
          (axis_limits extent parts c).n - (axis_limits extent parts c').n ≤ 1))
    ∧ (∀ rank, 0 ≤ rank ∧ rank < dims0 * dims1 →
        (0 ≤ (rank_coords dims1 rank).1 ∧ (rank_coords dims1 rank).1 < dims0)
        ∧ (0 ≤ (rank_coords dims1 rank).2 ∧ (rank_coords dims1 rank).2 < dims1)
        ∧ rank_glob_table nx_glob ny_glob dims0 dims1 rank 0
            = axis_limits nx_glob dims0 (rank_coords dims1 rank).1
        ∧ rank_glob_table nx_glob ny_glob dims0 dims1 rank 1
            = axis_limits ny_glob dims1 (rank_coords dims1 rank).2)
    ∧ (∀ c0 c1, 0 ≤ c0 ∧ c0 < dims0 → 0 ≤ c1 ∧ c1 < dims1 →
        ∃! rank, (0 ≤ rank ∧ rank < dims0 * dims1) ∧ rank_coords dims1 rank = (c0, c1))
    ∧ (∀ i j, 0 ≤ i ∧ i < nx_glob → 0 ≤ j ∧ j < ny_glob →
        ∃! rank, (0 ≤ rank ∧ rank < dims0 * dims1)
          ∧ ((rank_glob_table nx_glob ny_glob dims0 dims1 rank 0).start ≤ i
            ∧ i < (rank_glob_table nx_glob ny_glob dims0 dims1 rank 0).end_)
          ∧ ((rank_glob_table nx_glob ny_glob dims0 dims1 rank 1).start ≤ j
            ∧ j < (rank_glob_table nx_glob ny_glob dims0 dims1 rank 1).end_)) := by
  have haxis : ∀ extent parts : Int, 1 ≤ parts → 0 ≤ extent →
      (axis_limits extent parts 0).start = 0
      ∧ (axis_limits extent parts (parts - 1)).end_ = extent
      ∧ (∀ c, 0 ≤ c ∧ c < parts →
          (axis_limits extent parts c).end_
            = (axis_limits extent parts c).start + (axis_limits extent parts c).n
          ∧ 0 ≤ (axis_limits extent parts c).n)
      ∧ (∀ c, 0 ≤ c ∧ c + 1 < parts →
          (axis_limits extent parts (c + 1)).start = (axis_limits extent parts c).end_)
      ∧ (∀ x, 0 ≤ x ∧ x < extent → ∃ c, (0 ≤ c ∧ c < parts)
          ∧ (axis_limits extent parts c).start ≤ x ∧ x < (axis_limits extent parts c).end_)
      ∧ (∀ c x, 0 ≤ c ∧ c < parts →
          (axis_limits extent parts c).start ≤ x ∧ x < (axis_limits extent parts c).end_ →
          0 ≤ x ∧ x < extent)
      ∧ (∀ c c' x, 0 ≤ c ∧ c < parts → 0 ≤ c' ∧ c' < parts →
          (axis_limits extent parts c).start ≤ x ∧ x < (axis_limits extent parts c).end_ →
          (axis_limits extent parts c').start ≤ x ∧ x < (axis_limits extent parts c').end_ →
          c = c')
      ∧ ∑ c in Finset.range parts.toNat, (axis_limits extent parts (c : Int)).n = extent
      ∧ (∀ c c', 0 ≤ c ∧ c < parts → 0 ≤ c' ∧ c' < parts →
          (axis_limits extent parts c).n - (axis_limits extent parts c').n ≤ 1) := by
    intro extent parts hp he
    obtain ⟨t1, t2, t3⟩ := axis_limits_tile extent parts hp he
    refine ⟨axis_limits_start_zero extent parts hp he, ?_, ?_, ?_, t1, t2, t3,
      axis_limits_sum extent parts hp he, ?_⟩
    · rw [axis_limits_end, sub_add_cancel]
      exact axis_limits_start_parts extent parts hp he
    · intro c _
      have := axis_limits_n extent parts c hp he
      exact ⟨this.1, this.2.2.2⟩
    · intro c _
      exact (axis_limits_end extent parts c).symm
    · intro c c' _ _
      have h1 := axis_limits_n extent parts c hp he
      have h2 := axis_limits_n extent parts c' hp he
      omega
  have hcoords : ∀ c0 c1, 0 ≤ c0 ∧ c0 < dims0 → 0 ≤ c1 ∧ c1 < dims1 →
      ∃! rank, (0 ≤ rank ∧ rank < dims0 * dims1) ∧ rank_coords dims1 rank = (c0, c1) := by
    intro c0 c1 h0 h1
    refine ⟨c0 * dims1 + c1, ⟨?_, rank_coords_mk dims1 c0 c1 h0.1 h1⟩, ?_⟩
    · have := flat_in_bounds dims1 dims0 c1 c0 h1 h0
      rw [Int.mul_comm dims1 c0, Int.mul_comm dims1 dims0] at this
      exact this
    · rintro r ⟨hr, hc⟩
      have := (rank_coords_range dims0 dims1 r hd1 hr).2.2
      rw [hc] at this
      exact this.symm
  refine ⟨?_, ?_, hcoords, ?_⟩
  · rintro extent parts (⟨rfl, rfl⟩ | ⟨rfl, rfl⟩)
    · exact haxis _ _ hd0 hnx
    · exact haxis _ _ hd1 hny
  · intro rank hr
    have := rank_coords_range dims0 dims1 rank hd1 hr
    exact ⟨this.1, this.2.1, rfl, rfl⟩
  · intro i j hi hj
    obtain ⟨x1, x2, x3⟩ := axis_limits_tile nx_glob dims0 hd0 hnx
    obtain ⟨y1, y2, y3⟩ := axis_limits_tile ny_glob dims1 hd1 hny
    obtain ⟨c0, hc0, hx⟩ := x1 i hi
    obtain ⟨c1, hc1, hy⟩ := y1 j hj
    obtain ⟨rank, ⟨hr, hrc⟩, huniq⟩ := hcoords c0 c1 hc0 hc1
    have e0 : rank_glob_table nx_glob ny_glob dims0 dims1 rank 0
        = axis_limits nx_glob dims0 c0 := by
      show axis_limits nx_glob dims0 (rank_coords dims1 rank).1 = _
      rw [hrc]
    have e1 : rank_glob_table nx_glob ny_glob dims0 dims1 rank 1
        = axis_limits ny_glob dims1 c1 := by
      show axis_limits ny_glob dims1 (rank_coords dims1 rank).2 = _
      rw [hrc]
    refine ⟨rank, ⟨hr, by rw [e0]; exact hx, by rw [e1]; exact hy⟩, ?_⟩
    rintro r ⟨hr', hxi, hyj⟩
    have hcr := rank_coords_range dims0 dims1 r hd1 hr'
    have k0 : (rank_coords dims1 r).1 = c0 := x3 _ _ i hcr.1 hc0 hxi hx
    have k1 : (rank_coords dims1 r).2 = c1 := y3 _ _ j hcr.2.1 hc1 hyj hy
    exact huniq r ⟨hr', Prod.ext k0 k1⟩

/-- Witness for `partition_coverage`: a `5 x 3` grid on `2 x 2` processes; the chunks
of the first axis have 2 and 3 cells, and cell `(4, 2)` has exactly one owner. -/
theorem partition_coverage_witness :
    (1 : Int) ≤ 2 ∧ (0 : Int) ≤ 5 ∧ (0 : Int) ≤ 3
    ∧ (axis_limits 5 2 0).n = 2 ∧ (axis_limits 5 2 1).n = 3
    ∧ ∑ c in Finset.range (2 : Int).toNat, (axis_limits 5 2 (c : Int)).n = 5
    ∧ ∃! rank, (0 ≤ rank ∧ rank < 2 * 2)
        ∧ ((rank_glob_table 5 3 2 2 rank 0).start ≤ 4 ∧ 4 < (rank_glob_table 5 3 2 2 rank 0).end_)
        ∧ ((rank_glob_table 5 3 2 2 rank 1).start ≤ 2
          ∧ 2 < (rank_glob_table 5 3 2 2 rank 1).end_) := by
  have h := partition_coverage 5 3 2 2 (by decide) (by decide) (by decide) (by decide)
  exact ⟨by decide, by decide, by decide, by decide, by decide,
    (h.1 5 2 (Or.inl ⟨rfl, rfl⟩)).2.2.2.2.2.2.2.1, h.2.2.2 4 2 (by decide) (by decide)⟩

/-! ## C16: gather round-trip -/

/-- A property established by one iteration of a `loop` (under an invariant `I`) and
preserved by every iteration holds after the loop. -/
theorem loop_established {σ : Type} (n : Int) (body : Int → σ → σ) (I Q : σ → Prop) (s : σ)
    (hI : ∀ k s, 0 ≤ k ∧ k < n → I s → I (body k s))
    (hQ : ∀ k s, 0 ≤ k ∧ k < n → I s → Q s → Q (body k s))
    (k0 : Int) (hk0 : 0 ≤ k0 ∧ k0 < n) (hest : ∀ s, I s → Q (body k0 s)) (h0 : I s) :
    Q (loop n body s) := by
  unfold loop
  have H := foldl_established (fun acc (k : Nat) => body (k : Int) acc) I Q
    (List.range n.toNat) s
  have e : ((k0.toNat : Nat) : Int) = k0 := Int.toNat_of_nonneg hk0.1
  refine H ?_ ?_ k0.toNat ?_ ?_ h0
  · intro s k hk hs
    rw [List.mem_range] at hk
    exact hI k s (by omega) hs
  · intro s k hk hs hq
    rw [List.mem_range] at hk
    exact hQ k s (by omega) hs hq
  · rw [List.mem_range]
    omega
  · intro s hs
    rw [e]
    exact hest s hs

/-- The displacement of the next rank is the displacement of a rank plus its element
count. -/
theorem gather_plan_displacements_succ {α : Type} (gdata : gather_data_t α) (r : Int)
    (hr : 0 ≤ r) :
    (gather_plan gdata).displacements (r + 1)
      = (gather_plan gdata).displacements r + (gather_plan gdata).recv_size r := by
  have e : (r + 1).toNat = r.toNat + 1 := by omega
  simp only [gather_plan, e, List.range_succ, List.map_append, List.sum_append,
    List.map_singleton, List.sum_singleton, Int.toNat_of_nonneg hr]

/-- The blocks of two ranks do not overlap in the receive buffer: an offset that lies in
the blocks of two ranks lies at the same place of the same block. -/
theorem gather_plan_disjoint {α : Type} (gdata : gather_data_t α) (nb_process : Int)
    (hsize : ∀ r, 0 ≤ r ∧ r < nb_process → 0 ≤ (gather_plan gdata).recv_size r)
    (r r' k k' : Int) (hr : 0 ≤ r ∧ r < nb_process) (hr' : 0 ≤ r' ∧ r' < nb_process)
    (hk : 0 ≤ k ∧ k < (gather_plan gdata).recv_size r)
    (hk' : 0 ≤ k' ∧ k' < (gather_plan gdata).recv_size r')
    (h : (gather_plan gdata).displacements r + k = (gather_plan gdata).displacements r' + k') :
    r = r' ∧ k = k' := by
  have hstep : ∀ c, 0 ≤ c ∧ c < nb_process →
      (gather_plan gdata).displacements c ≤ (gather_plan gdata).displacements (c + 1) := by
    intro c hc
    rw [gather_plan_displacements_succ gdata c hc.1]
    have := hsize c hc
    omega
  have e := chain_unique (fun c => (gather_plan gdata).displacements c) nb_process hstep r r'
    ((gather_plan gdata).displacements r + k) hr hr'
    ⟨by simp only; omega, by
      simp only
      rw [gather_plan_displacements_succ gdata r hr.1]; omega⟩
    ⟨by simp only; omega, by
      simp only
      rw [gather_plan_displacements_succ gdata r' hr'.1]; omega⟩
  subst e
  exact ⟨rfl, by omega⟩

/-- After the gather, the receive buffer holds, at offset `k` of the block of every
rank, the value `k` of the field that the rank sent. -/
theorem gatherv_block {α : Type} (nb_process : Int) (send : Int → data α)
    (gdata : gather_data_t α)
    (hsize : ∀ r, 0 ≤ r ∧ r < nb_process → 0 ≤ (gather_plan gdata).recv_size r)
    (r0 k0 : Int) (hr0 : 0 ≤ r0 ∧ r0 < nb_process)
    (hk0 : 0 ≤ k0 ∧ k0 < (gather_plan gdata).recv_size r0) :
    (gatherv nb_process send (gather_plan gdata)).receive_data
        ((gather_plan gdata).displacements r0 + k0) = (send r0).vals k0 := by
  have hwrite : ∀ (r k : Int) (buf : Int → α), 0 ≤ r ∧ r < nb_process →
      0 ≤ k ∧ k < (gather_plan gdata).recv_size r →
      buf ((gather_plan gdata).displacements r0 + k0) = (send r0).vals k0 →
      Function.update buf ((gather_plan gdata).displacements r + k) ((send r).vals k)
        ((gather_plan gdata).displacements r0 + k0) = (send r0).vals k0 := by
    intro r k buf hr hk hq
    rw [Function.update_apply]
    split_ifs with he
    · obtain ⟨e1, e2⟩ := gather_plan_disjoint gdata nb_process hsize r0 r k0 k hr0 hr hk0 hk he
      rw [e1, e2]
    · exact hq
  have hinner : ∀ (r : Int) (buf : Int → α), 0 ≤ r ∧ r < nb_process →
      buf ((gather_plan gdata).displacements r0 + k0) = (send r0).vals k0 →
      loop ((gather_plan gdata).recv_size r) (fun k buf =>
          Function.update buf ((gather_plan gdata).displacements r + k) ((send r).vals k)) buf
        ((gather_plan gdata).displacements r0 + k0) = (send r0).vals k0 := by
    intro r buf hr hq
    exact loop_invariant ((gather_plan gdata).recv_size r) (fun k buf =>
        Function.update buf ((gather_plan gdata).displacements r + k) ((send r).vals k))
      (fun buf => buf ((gather_plan gdata).displacements r0 + k0) = (send r0).vals k0) buf
      (fun k s hk hs => hwrite r k s hr hk hs) hq
  have hest : ∀ buf : Int → α,
      loop ((gather_plan gdata).recv_size r0) (fun k buf =>
          Function.update buf ((gather_plan gdata).displacements r0 + k) ((send r0).vals k)) buf
        ((gather_plan gdata).displacements r0 + k0) = (send r0).vals k0 := by
    intro buf
    exact loop_established ((gather_plan gdata).recv_size r0) (fun k buf =>
        Function.update buf ((gather_plan gdata).displacements r0 + k) ((send r0).vals k))
      (fun _ => True)
      (fun buf => buf ((gather_plan gdata).displacements r0 + k0) = (send r0).vals k0) buf
      (fun _ _ _ _ => trivial) (fun k s hk _ hs => hwrite r0 k s hr0 hk hs) k0 hk0
      (fun s _ => Function.update_same _ _ _) trivial
  show loop nb_process (fun rank buf =>
      loop ((gather_plan gdata).recv_size rank) (fun k buf =>
        Function.update buf ((gather_plan gdata).displacements rank + k) ((send rank).vals k))
        buf) (gather_plan gdata).receive_data
      ((gather_plan gdata).displacements r0 + k0) = (send r0).vals k0
  exact loop_established nb_process (fun rank buf =>
      loop ((gather_plan gdata).recv_size rank) (fun k buf =>
        Function.update buf ((gather_plan gdata).displacements rank + k) ((send rank).vals k))
        buf)
    (fun _ => True)
    (fun buf => buf ((gather_plan gdata).displacements r0 + k0) = (send r0).vals k0)
    (gather_plan gdata).receive_data
    (fun _ _ _ _ => trivial) (fun r s hr _ hs => hinner r s hr hs) r0 hr0
    (fun s _ => hest s) trivial

/-- The local cell `(i, j)` of the sub-block of a rank holds the global cell
`(START_I + i, START_J + j)`, and the sub-block is `RANK_NX` cells wide. -/
theorem scatter_block_cell {α : Type} (gdata : gather_data_t α) (glob : data α)
    (vals0 : Int → α) (rank i j : Int) (hi : 0 ≤ i ∧ i < RANK_NX gdata rank)
    (hj : 0 ≤ j ∧ j < RANK_NY gdata rank) :
    (scatter_block gdata glob vals0 rank).vals (RANK_NX gdata rank * j + i)
      = GET glob (START_I gdata rank + i) (START_J gdata rank + j) := by
  unfold scatter_block
  rw [loop_nest_eq_foldl]
  have hnx := foldl_invariant
    (fun (loc : data α) (p : Int × Int) =>
      SET loc p.1 p.2 (GET glob (START_I gdata rank + p.1) (START_J gdata rank + p.2)))
    (fun loc => loc.nx = RANK_NX gdata rank)
    (iter_space (RANK_NX gdata rank) (RANK_NY gdata rank))
    { vals := vals0, nx := RANK_NX gdata rank, ny := RANK_NY gdata rank,
      dx := glob.dx, dy := glob.dy }
    (fun _ _ _ h => h) rfl
  have h := sweep_own_cell
    (fun (p : Int × Int) (_ : α) =>
      GET glob (START_I gdata rank + p.1) (START_J gdata rank + p.2))
    (RANK_NX gdata rank) (RANK_NY gdata rank)
    { vals := vals0, nx := RANK_NX gdata rank, ny := RANK_NY gdata rank,
      dx := glob.dx, dy := glob.dy }
    (le_refl _) i j hi hj
  have key : ∀ X : data α, X.nx = RANK_NX gdata rank →
      X.vals (RANK_NX gdata rank * j + i) = GET X i j := by
    intro X hX
    unfold GET
    rw [hX]
  rw [key _ hnx]
  exact h

/-- The assembly copies to the global cell `(START_I + i, START_J + j)` of every rank
what the receive buffer holds for the local cell `(i, j)` of the rank: if that is the
cell of a field `glob` of the width of the output, the owned cells of the output are
those of `glob`. -/
theorem assemble_cell {α : Type} (nb_process : Int) (gd : gather_data_t α) (glob : data α)
    (nxg : Int) (hg : glob.nx = nxg) (hout : gd.gathered_output.nx = nxg)
    (hrecv : ∀ r i j, 0 ≤ r ∧ r < nb_process → 0 ≤ i ∧ i < RANK_NX gd r →
      0 ≤ j ∧ j < RANK_NY gd r →
      gd.receive_data (gd.displacements r + (RANK_NX gd r * j + i))
        = GET glob (START_I gd r + i) (START_J gd r + j))
    (r0 i0 j0 : Int) (hr0 : 0 ≤ r0 ∧ r0 < nb_process) (hi0 : 0 ≤ i0 ∧ i0 < RANK_NX gd r0)
    (hj0 : 0 ≤ j0 ∧ j0 < RANK_NY gd r0) :
    (assemble nb_process gd).gathered_output.nx = nxg
    ∧ GET (assemble nb_process gd).gathered_output (START_I gd r0 + i0) (START_J gd r0 + j0)
        = GET glob (START_I gd r0 + i0) (START_J gd r0 + j0) := by
  -- one copy keeps the width, keeps a right cell right, and makes its own cell right
  have hWQ : ∀ (r i j : Int) (out : data α), 0 ≤ r ∧ r < nb_process →
      0 ≤ i ∧ i < RANK_NX gd r → 0 ≤ j ∧ j < RANK_NY gd r → out.nx = nxg →
      out.vals (nxg * (START_J gd r0 + j0) + (START_I gd r0 + i0))
        = glob.vals (nxg * (START_J gd r0 + j0) + (START_I gd r0 + i0)) →
      (SET out (START_I gd r + i) (START_J gd r + j)
          (gd.receive_data (gd.displacements r + (RANK_NX gd r * j + i)))).vals
          (nxg * (START_J gd r0 + j0) + (START_I gd r0 + i0))
        = glob.vals (nxg * (START_J gd r0 + j0) + (START_I gd r0 + i0)) := by
    intro r i j out hr hi hj hI hq
    simp only [SET, Function.update_apply, hI]
    split_ifs with he
    · rw [hrecv r i j hr hi hj]
      unfold GET
      rw [hg, he]
    · exact hq
  have hWest : ∀ out : data α, out.nx = nxg →
      (SET out (START_I gd r0 + i0) (START_J gd r0 + j0)
          (gd.receive_data (gd.displacements r0 + (RANK_NX gd r0 * j0 + i0)))).vals
          (nxg * (START_J gd r0 + j0) + (START_I gd r0 + i0))
        = glob.vals (nxg * (START_J gd r0 + j0) + (START_I gd r0 + i0)) := by
    intro out hI
    simp only [SET, hI, Function.update_same]
    rw [hrecv r0 i0 j0 hr0 hi0 hj0]
    unfold GET
    rw [hg]
  -- the loop over `j`
  have A1 : ∀ (r i : Int) (out : data α), out.nx = nxg →
      (loop (RANK_NY gd r) (fun j out =>
        SET out (START_I gd r + i) (START_J gd r + j)
          (gd.receive_data (gd.displacements r + (RANK_NX gd r * j + i)))) out).nx = nxg := by
    intro r i out hI
    exact loop_invariant (RANK_NY gd r) (fun j out =>
        SET out (START_I gd r + i) (START_J gd r + j)
          (gd.receive_data (gd.displacements r + (RANK_NX gd r * j + i))))
      (fun out => out.nx = nxg) out (fun _ _ _ h => h) hI
  have A2 : ∀ (r i : Int) (out : data α), 0 ≤ r ∧ r < nb_process →
      0 ≤ i ∧ i < RANK_NX gd r → out.nx = nxg →
      out.vals (nxg * (START_J gd r0 + j0) + (START_I gd r0 + i0))
        = glob.vals (nxg * (START_J gd r0 + j0) + (START_I gd r0 + i0)) →
      (loop (RANK_NY gd r) (fun j out =>
        SET out (START_I gd r + i) (START_J gd r + j)
          (gd.receive_data (gd.displacements r + (RANK_NX gd r * j + i)))) out).vals
          (nxg * (START_J gd r0 + j0) + (START_I gd r0 + i0))
        = glob.vals (nxg * (START_J gd r0 + j0) + (START_I gd r0 + i0)) := by
    intro r i out hr hi hI hq
    exact (loop_invariant (RANK_NY gd r) (fun j out =>
        SET out (START_I gd r + i) (START_J gd r + j)
          (gd.receive_data (gd.displacements r + (RANK_NX gd r * j + i))))
      (fun out => out.nx = nxg ∧
        out.vals (nxg * (START_J gd r0 + j0) + (START_I gd r0 + i0))
          = glob.vals (nxg * (START_J gd r0 + j0) + (START_I gd r0 + i0))) out
      (fun j s hj h => ⟨h.1, hWQ r i j s hr hi hj h.1 h.2⟩) ⟨hI, hq⟩).2
  have A3 : ∀ out : data α, out.nx = nxg →
      (loop (RANK_NY gd r0) (fun j out =>
        SET out (START_I gd r0 + i0) (START_J gd r0 + j)
          (gd.receive_data (gd.displacements r0 + (RANK_NX gd r0 * j + i0)))) out).vals
          (nxg * (START_J gd r0 + j0) + (START_I gd r0 + i0))
        = glob.vals (nxg * (START_J gd r0 + j0) + (START_I gd r0 + i0)) := by
    intro out hI
    exact loop_established (RANK_NY gd r0) (fun j out =>
        SET out (START_I gd r0 + i0) (START_J gd r0 + j)
          (gd.receive_data (gd.displacements r0 + (RANK_NX gd r0 * j + i0))))
      (fun out => out.nx = nxg)
      (fun out => out.vals (nxg * (START_J gd r0 + j0) + (START_I gd r0 + i0))
          = glob.vals (nxg * (START_J gd r0 + j0) + (START_I gd r0 + i0))) out
      (fun _ _ _ h => h) (fun j s hj h hq => hWQ r0 i0 j s hr0 hi0 hj h hq) j0 hj0
      (fun s h => hWest s h) hI
  -- the loop over `i`
  have B1 : ∀ (r : Int) (out : data α), out.nx = nxg →
      (loop (RANK_NX gd r) (fun i out => loop (RANK_NY gd r) (fun j out =>
        SET out (START_I gd r + i) (START_J gd r + j)
          (gd.receive_data (gd.displacements r + (RANK_NX gd r * j + i)))) out) out).nx
        = nxg := by
    intro r out hI
    exact loop_invariant (RANK_NX gd r) (fun i out => loop (RANK_NY gd r) (fun j out =>
        SET out (START_I gd r + i) (START_J gd r + j)
          (gd.receive_data (gd.displacements r + (RANK_NX gd r * j + i)))) out)
      (fun out => out.nx = nxg) out (fun i s _ h => A1 r i s h) hI
  have B2 : ∀ (r : Int) (out : data α), 0 ≤ r ∧ r < nb_process → out.nx = nxg →
      out.vals (nxg * (START_J gd r0 + j0) + (START_I gd r0 + i0))
        = glob.vals (nxg * (START_J gd r0 + j0) + (START_I gd r0 + i0)) →
      (loop (RANK_NX gd r) (fun i out => loop (RANK_NY gd r) (fun j out =>
        SET out (START_I gd r + i) (START_J gd r + j)
          (gd.receive_data (gd.displacements r + (RANK_NX gd r * j + i)))) out) out).vals
          (nxg * (START_J gd r0 + j0) + (START_I gd r0 + i0))
        = glob.vals (nxg * (START_J gd r0 + j0) + (START_I gd r0 + i0)) := by
    intro r out hr hI hq
    exact (loop_invariant (RANK_NX gd r) (fun i out => loop (RANK_NY gd r) (fun j out =>
        SET out (START_I gd r + i) (START_J gd r + j)
          (gd.receive_data (gd.displacements r + (RANK_NX gd r * j + i)))) out)
      (fun out => out.nx = nxg ∧
        out.vals (nxg * (START_J gd r0 + j0) + (START_I gd r0 + i0))
          = glob.vals (nxg * (START_J gd r0 + j0) + (START_I gd r0 + i0))) out
      (fun i s hi h => ⟨A1 r i s h.1, A2 r i s hr hi h.1 h.2⟩) ⟨hI, hq⟩).2
  have B3 : ∀ out : data α, out.nx = nxg →
      (loop (RANK_NX gd r0) (fun i out => loop (RANK_NY gd r0) (fun j out =>
        SET out (START_I gd r0 + i) (START_J gd r0 + j)
          (gd.receive_data (gd.displacements r0 + (RANK_NX gd r0 * j + i)))) out) out).vals
          (nxg * (START_J gd r0 + j0) + (START_I gd r0 + i0))
        = glob.vals (nxg * (START_J gd r0 + j0) + (START_I gd r0 + i0)) := by
    intro out hI
    exact loop_established (RANK_NX gd r0) (fun i out => loop (RANK_NY gd r0) (fun j out =>
        SET out (START_I gd r0 + i) (START_J gd r0 + j)
          (gd.receive_data (gd.displacements r0 + (RANK_NX gd r0 * j + i)))) out)
      (fun out => out.nx = nxg)
      (fun out => out.vals (nxg * (START_J gd r0 + j0) + (START_I gd r0 + i0))
          = glob.vals (nxg * (START_J gd r0 + j0) + (START_I gd r0 + i0))) out
      (fun i s _ h => A1 r0 i s h) (fun i s hi h hq => A2 r0 i s hr0 hi h hq) i0 hi0
      (fun s h => A3 s h) hI
  -- the loop over the ranks
  have C1 : (assemble nb_process gd).gathered_output.nx = nxg :=
    loop_invariant nb_process (fun rank out =>
        loop (RANK_NX gd rank) (fun i out => loop (RANK_NY gd rank) (fun j out =>
          SET out (START_I gd rank + i) (START_J gd rank + j)
            (gd.receive_data (gd.displacements rank + (RANK_NX gd rank * j + i)))) out) out)
      (fun out => out.nx = nxg) gd.gathered_output (fun r s _ h => B1 r s h) hout
  have C3 : (assemble nb_process gd).gathered_output.vals
        (nxg * (START_J gd r0 + j0) + (START_I gd r0 + i0))
      = glob.vals (nxg * (START_J gd r0 + j0) + (START_I gd r0 + i0)) :=
    loop_established nb_process (fun rank out =>
        loop (RANK_NX gd rank) (fun i out => loop (RANK_NY gd rank) (fun j out =>
          SET out (START_I gd rank + i) (START_J gd rank + j)
            (gd.receive_data (gd.displacements rank + (RANK_NX gd rank * j + i)))) out) out)
      (fun out => out.nx = nxg)
      (fun out => out.vals (nxg * (START_J gd r0 + j0) + (START_I gd r0 + i0))
          = glob.vals (nxg * (START_J gd r0 + j0) + (START_I gd r0 + i0))) gd.gathered_output
      (fun r s _ h => B1 r s h) (fun r s hr h hq => B2 r s hr h hq) r0 hr0
      (fun s h => B3 s h) hout
  refine ⟨C1, ?_⟩
  unfold GET
  rw [C1, hg]
  exact C3

/-- The assembly keeps the width of the output. -/
theorem assemble_nx {α : Type} (nb_process : Int) (gd : gather_data_t α) :
    (assemble nb_process gd).gathered_output.nx = gd.gathered_output.nx := by
  have A1 : ∀ (r i : Int) (out : data α), out.nx = gd.gathered_output.nx →
      (loop (RANK_NY gd r) (fun j out =>
        SET out (START_I gd r + i) (START_J gd r + j)
          (gd.receive_data (gd.displacements r + (RANK_NX gd r * j + i)))) out).nx
        = gd.gathered_output.nx := by
    intro r i out hI
    exact loop_invariant (RANK_NY gd r) (fun j out =>
        SET out (START_I gd r + i) (START_J gd r + j)
          (gd.receive_data (gd.displacements r + (RANK_NX gd r * j + i))))
      (fun out => out.nx = gd.gathered_output.nx) out (fun _ _ _ h => h) hI
  have B1 : ∀ (r : Int) (out : data α), out.nx = gd.gathered_output.nx →
      (loop (RANK_NX gd r) (fun i out => loop (RANK_NY gd r) (fun j out =>
        SET out (START_I gd r + i) (START_J gd r + j)
          (gd.receive_data (gd.displacements r + (RANK_NX gd r * j + i)))) out) out).nx
        = gd.gathered_output.nx := by
    intro r out hI
    exact loop_invariant (RANK_NX gd r) (fun i out => loop (RANK_NY gd r) (fun j out =>
        SET out (START_I gd r + i) (START_J gd r + j)
          (gd.receive_data (gd.displacements r + (RANK_NX gd r * j + i)))) out)
      (fun out => out.nx = gd.gathered_output.nx) out (fun i s _ h => A1 r i s h) hI
  exact loop_invariant nb_process (fun rank out =>
      loop (RANK_NX gd rank) (fun i out => loop (RANK_NY gd rank) (fun j out =>
        SET out (START_I gd rank + i) (START_J gd rank + j)
          (gd.receive_data (gd.displacements rank + (RANK_NX gd rank * j + i)))) out) out)
    (fun out => out.nx = gd.gathered_output.nx) gd.gathered_output
    (fun r s _ h => B1 r s h) rfl

/-- C16 (gather round-trip).  For `nb_process` ranks whose limits have `end = start + n`
with `n >= 0` on both axes and whose rectangles cover every cell of the `nx_glob x
ny_glob` grid (as limits that tile the global extent do), for every global field
`glob` of width `nx_glob` and whatever the buffers held before: scattering `glob` into
the contiguous sub-blocks of the ranks and gathering them with the element counts and
displacements of the gather plan leaves an output of width `nx_glob` whose cell
`(i, j)`, stored at flat index `nx_glob * j + i`, is the cell `(i, j)` of `glob`. -/
theorem gather_round_trip {α : Type} (nb_process nx_glob ny_glob : Int)
    (gdata : gather_data_t α) (glob : data α) (vals0 : Int → Int → α)
    (hg : glob.nx = nx_glob) (hout : gdata.gathered_output.nx = nx_glob)
    (hwf : ∀ rank, 0 ≤ rank ∧ rank < nb_process →
      (0 ≤ RANK_NX gdata rank ∧ END_I gdata rank = START_I gdata rank + RANK_NX gdata rank)
      ∧ (0 ≤ RANK_NY gdata rank
        ∧ END_J gdata rank = START_J gdata rank + RANK_NY gdata rank))
    (hcov : ∀ i j, 0 ≤ i ∧ i < nx_glob → 0 ≤ j ∧ j < ny_glob →
      ∃ rank, (0 ≤ rank ∧ rank < nb_process)
        ∧ (START_I gdata rank ≤ i ∧ i < END_I gdata rank)
        ∧ (START_J gdata rank ≤ j ∧ j < END_J gdata rank)) :
    (gather_and_assemble_data nb_process
        (fun rank => scatter_block gdata glob (vals0 rank) rank) gdata).gathered_output.nx
      = nx_glob
    ∧ ∀ i j, 0 ≤ i ∧ i < nx_glob → 0 ≤ j ∧ j < ny_glob →
      (gather_and_assemble_data nb_process
          (fun rank => scatter_block gdata glob (vals0 rank) rank) gdata).gathered_output.vals
          (nx_glob * j + i) = GET glob i j
      ∧ GET (gather_and_assemble_data nb_process
          (fun rank => scatter_block gdata glob (vals0 rank) rank) gdata).gathered_output i j
        = GET glob i j := by
  have hsize : ∀ r, 0 ≤ r ∧ r < nb_process → 0 ≤ (gather_plan gdata).recv_size r := by
    intro r hr
    exact Int.mul_nonneg (hwf r hr).1.1 (hwf r hr).2.1
  have hrecv : ∀ r i j, 0 ≤ r ∧ r < nb_process → 0 ≤ i ∧ i < RANK_NX gdata r →
      0 ≤ j ∧ j < RANK_NY gdata r →
      (gatherv nb_process (fun rank => scatter_block gdata glob (vals0 rank) rank)
          (gather_plan gdata)).receive_data
          ((gather_plan gdata).displacements r + (RANK_NX gdata r * j + i))
        = GET glob (START_I gdata r + i) (START_J gdata r + j) := by
    intro r i j hr hi hj
    rw [gatherv_block nb_process (fun rank => scatter_block gdata glob (vals0 rank) rank)
      gdata hsize r (RANK_NX gdata r * j + i) hr
      (flat_in_bounds (RANK_NX gdata r) (RANK_NY gdata r) i j hi hj)]
    exact scatter_block_cell gdata glob (vals0 r) r i j hi hj
  have hcell : ∀ r i j, 0 ≤ r ∧ r < nb_process → 0 ≤ i ∧ i < RANK_NX gdata r →
      0 ≤ j ∧ j < RANK_NY gdata r →
      (gather_and_assemble_data nb_process
          (fun rank => scatter_block gdata glob (vals0 rank) rank) gdata).gathered_output.nx
        = nx_glob
      ∧ GET (gather_and_assemble_data nb_process
          (fun rank => scatter_block gdata glob (vals0 rank) rank) gdata).gathered_output
          (START_I gdata r + i) (START_J gdata r + j)
        = GET glob (START_I gdata r + i) (START_J gdata r + j) := by
    intro r i j hr hi hj
    exact assemble_cell nb_process
      (gatherv nb_process (fun rank => scatter_block gdata glob (vals0 rank) rank)
        (gather_plan gdata)) glob nx_glob hg hout hrecv r i j hr hi hj
  have hnx : (gather_and_assemble_data nb_process
      (fun rank => scatter_block gdata glob (vals0 rank) rank) gdata).gathered_output.nx
      = nx_glob :=
    (assemble_nx nb_process (gatherv nb_process
      (fun rank => scatter_block gdata glob (vals0 rank) rank) (gather_plan gdata))).trans hout
  refine ⟨hnx, ?_⟩
  intro i j hi hj
  obtain ⟨r, hr, hri, hrj⟩ := hcov i j hi hj
  obtain ⟨⟨-, ei⟩, -, ej⟩ := hwf r hr
  have h := (hcell r (i - START_I gdata r) (j - START_J gdata r) hr (by omega) (by omega)).2
  rw [add_sub_cancel, add_sub_cancel] at h
  refine ⟨?_, h⟩
  rw [← h]
  unfold GET
  rw [hnx]

/-- Witness for `gather_round_trip`: the field `[7, 9]` on a `2 x 1` grid split between
two ranks that own one cell each; the gathered output holds 7 and 9. -/
theorem gather_round_trip_witness :
    (Sample.field [7, 9] 2 1).nx = 2 ∧ Sample.two_gdata.gathered_output.nx = 2
    ∧ (∀ rank, 0 ≤ rank ∧ rank < 2 →
      (0 ≤ RANK_NX Sample.two_gdata rank ∧ END_I Sample.two_gdata rank
          = START_I Sample.two_gdata rank + RANK_NX Sample.two_gdata rank)
      ∧ (0 ≤ RANK_NY Sample.two_gdata rank ∧ END_J Sample.two_gdata rank
          = START_J Sample.two_gdata rank + RANK_NY Sample.two_gdata rank))
    ∧ (∀ i j, 0 ≤ i ∧ i < 2 → 0 ≤ j ∧ j < 1 →
      ∃ rank, (0 ≤ rank ∧ rank < 2)
        ∧ (START_I Sample.two_gdata rank ≤ i ∧ i < END_I Sample.two_gdata rank)
        ∧ (START_J Sample.two_gdata rank ≤ j ∧ j < END_J Sample.two_gdata rank))
    ∧ GET (gather_and_assemble_data 2
        (fun rank => scatter_block Sample.two_gdata (Sample.field [7, 9] 2 1) (fun _ => 0) rank)
        Sample.two_gdata).gathered_output 0 0 = 7
    ∧ GET (gather_and_assemble_data 2
        (fun rank => scatter_block Sample.two_gdata (Sample.field [7, 9] 2 1) (fun _ => 0) rank)
        Sample.two_gdata).gathered_output 1 0 = 9 := by
  have hwf : ∀ rank, 0 ≤ rank ∧ rank < 2 →
      (0 ≤ RANK_NX Sample.two_gdata rank ∧ END_I Sample.two_gdata rank
          = START_I Sample.two_gdata rank + RANK_NX Sample.two_gdata rank)
      ∧ (0 ≤ RANK_NY Sample.two_gdata rank ∧ END_J Sample.two_gdata rank
          = START_J Sample.two_gdata rank + RANK_NY Sample.two_gdata rank) := by
    intro rank hr
    have h : rank = 0 ∨ rank = 1 := by omega
    rcases h with rfl | rfl <;> decide
  have hcov : ∀ i j, 0 ≤ i ∧ i < 2 → 0 ≤ j ∧ j < 1 →
      ∃ rank, (0 ≤ rank ∧ rank < 2)
        ∧ (START_I Sample.two_gdata rank ≤ i ∧ i < END_I Sample.two_gdata rank)
        ∧ (START_J Sample.two_gdata rank ≤ j ∧ j < END_J Sample.two_gdata rank) := by
    intro i j hi hj
    have h : i = 0 ∨ i = 1 := by omega
    have h0 : j = 0 := by omega
    subst h0
    rcases h with rfl | rfl
    · exact ⟨0, by decide⟩
    · exact ⟨1, by decide⟩
  have h := gather_round_trip 2 2 1 Sample.two_gdata (Sample.field [7, 9] 2 1)
    (fun _ _ => 0) rfl rfl hwf hcov
  refine ⟨rfl, rfl, hwf, hcov, ?_, ?_⟩
  · rw [(h.2 0 0 (by decide) (by decide)).2]
    norm_num [GET, Sample.field, Int.toNat]
  · rw [(h.2 1 0 (by decide) (by decide)).2]
    norm_num [GET, Sample.field, Int.toNat]

/-! ## C21: frame of the update kernels -/

/-- A sweep in which every step writes one cell leaves the header of the field and
every buffer entry that is not the flat index of the cell of a step as they were. -/
theorem foldl_SET_untouched {α β : Type} (ci cj : β → Int) (val : data α → β → α)
    (l : List β) (d : data α) :
    (l.foldl (fun d b => SET d (ci b) (cj b) (val d b)) d).nx = d.nx
    ∧ (l.foldl (fun d b => SET d (ci b) (cj b) (val d b)) d).ny = d.ny
    ∧ (l.foldl (fun d b => SET d (ci b) (cj b) (val d b)) d).dx = d.dx
    ∧ (l.foldl (fun d b => SET d (ci b) (cj b) (val d b)) d).dy = d.dy
    ∧ ∀ k, (∀ b ∈ l, d.nx * cj b + ci b ≠ k) →
        (l.foldl (fun d b => SET d (ci b) (cj b) (val d b)) d).vals k = d.vals k := by
  induction l generalizing d with
  | nil => exact ⟨rfl, rfl, rfl, rfl, fun _ _ => rfl⟩
  | cons b l ih =>
    obtain ⟨h1, h2, h3, h4, h5⟩ := ih (SET d (ci b) (cj b) (val d b))
    refine ⟨h1, h2, h3, h4, ?_⟩
    intro k hk
    simp only [List.foldl_cons]
    rw [h5 k (fun c hc => hk c (List.mem_cons_of_mem _ hc))]
    simp only [SET]
    exact Function.update_noteq (Ne.symm (hk b (List.mem_cons_self _ _))) _ _

/-- The serial `update_eta` keeps the header of `eta` and writes only the buffer
entries of the cells `(i, j)`, `0 ≤ i < nx`, `0 ≤ j < ny`. -/
theorem update_eta_untouched {α : Type} [Field α] (nx ny : Int) (param : parameters α)
    (u v eta h_interp : data α) :
    (Serial.update_eta nx ny param u v eta h_interp).nx = eta.nx
    ∧ (Serial.update_eta nx ny param u v eta h_interp).ny = eta.ny
    ∧ (Serial.update_eta nx ny param u v eta h_interp).dx = eta.dx
    ∧ (Serial.update_eta nx ny param u v eta h_interp).dy = eta.dy
    ∧ ∀ k, (∀ i j : Int, 0 ≤ i ∧ i < nx → 0 ≤ j ∧ j < ny → eta.nx * j + i ≠ k) →
        (Serial.update_eta nx ny param u v eta h_interp).vals k = eta.vals k := by
  unfold Serial.update_eta
  rw [loop_nest_eq_foldl]
  obtain ⟨h1, h2, h3, h4, h5⟩ := foldl_SET_untouched (fun p : Int × Int => p.1)
    (fun p : Int × Int => p.2)
    (fun (d : data α) (p : Int × Int) =>
      GET d p.1 p.2
        - param.dt * GET h_interp p.1 p.2 / param.dx * (GET u (p.1 + 1) p.2 - GET u p.1 p.2)
        - param.dt * GET h_interp p.1 p.2 / param.dy * (GET v p.1 (p.2 + 1) - GET v p.1 p.2))
    (iter_space nx ny) eta
  refine ⟨h1, h2, h3, h4, ?_⟩
  intro k hk
  exact h5 k (fun p hp => by
    rw [mem_iter_space] at hp
    exact hk p.1 p.2 hp.1 hp.2)

/-- The serial `update_velocities` keeps the headers of `u` and `v` and writes only
the buffer entries of the cells `(i, j)`, `0 ≤ i < nx`, `0 ≤ j < ny`. -/
theorem update_velocities_untouched {α : Type} [Field α] (nx ny : Int)
    (param : parameters α) (u v eta : data α) :
    ((Serial.update_velocities nx ny param u v eta).1.nx = u.nx
      ∧ (Serial.update_velocities nx ny param u v eta).1.ny = u.ny
      ∧ (Serial.update_velocities nx ny param u v eta).1.dx = u.dx
      ∧ (Serial.update_velocities nx ny param u v eta).1.dy = u.dy
      ∧ ∀ k, (∀ i j : Int, 0 ≤ i ∧ i < nx → 0 ≤ j ∧ j < ny → u.nx * j + i ≠ k) →
          (Serial.update_velocities nx ny param u v eta).1.vals k = u.vals k)
    ∧ ((Serial.update_velocities nx ny param u v eta).2.nx = v.nx
      ∧ (Serial.update_velocities nx ny param u v eta).2.ny = v.ny
      ∧ (Serial.update_velocities nx ny param u v eta).2.dx = v.dx
      ∧ (Serial.update_velocities nx ny param u v eta).2.dy = v.dy
      ∧ ∀ k, (∀ i j : Int, 0 ≤ i ∧ i < nx → 0 ≤ j ∧ j < ny → v.nx * j + i ≠ k) →
          (Serial.update_velocities nx ny param u v eta).2.vals k = v.vals k) := by
  unfold Serial.update_velocities
  rw [loop_nest_eq_foldl, update_velocities_foldl_split]
  obtain ⟨a1, a2, a3, a4, a5⟩ := foldl_SET_untouched (fun p : Int × Int => p.1)
    (fun p : Int × Int => p.2)
    (fun (d : data α) (p : Int × Int) =>
      (1 - param.dt * param.gamma) * GET d p.1 p.2 - param.dt * param.g / param.dx *
        (GET eta p.1 p.2 - GET eta (if p.1 = 0 then 0 else p.1 - 1) p.2))
    (iter_space nx ny) u
  obtain ⟨b1, b2, b3, b4, b5⟩ := foldl_SET_untouched (fun p : Int × Int => p.1)
    (fun p : Int × Int => p.2)
    (fun (d : data α) (p : Int × Int) =>
      (1 - param.dt * param.gamma) * GET d p.1 p.2 - param.dt * param.g / param.dy *
        (GET eta p.1 p.2 - GET eta p.1 (if p.2 = 0 then 0 else p.2 - 1)))
    (iter_space nx ny) v
  refine ⟨⟨a1, a2, a3, a4, ?_⟩, ⟨b1, b2, b3, b4, ?_⟩⟩
  · intro k hk
    exact a5 k (fun p hp => by
      rw [mem_iter_space] at hp
      exact hk p.1 p.2 hp.1 hp.2)
  · intro k hk
    exact b5 k (fun p hp => by
      rw [mem_iter_space] at hp
      exact hk p.1 p.2 hp.1 hp.2)

/-- C21 (frame of the update kernels).  The OMP `update_eta` returns the state with
`u`, `v`, `h_interp` and `h` unchanged and with the `eta` of the serial `update_eta`
(whose other arguments are read only); the OMP `update_velocities` returns the state
with `eta`, `h_interp` and `h` unchanged and with the `u` and `v` of the serial
`update_velocities`.  The kernels keep the headers of the fields they write and change
only buffer entries of cells `(i, j)` with `0 ≤ i < nx`, `0 ≤ j < ny`; hence, for `u` of
width `nx + 1` and `v` of width `nx`, `update_velocities` leaves the last column
`u[nx,j]`, `0 ≤ j < ny`, and the last row `v[i,ny]`, `0 ≤ i < nx`, unchanged. -/
theorem kernels_frame {α : Type} [Field α] (nx ny : Int) (param : parameters α)
    (s : all_data_t α) :
    ((OMP.update_eta nx ny param s).u = s.u ∧ (OMP.update_eta nx ny param s).v = s.v
      ∧ (OMP.update_eta nx ny param s).h_interp = s.h_interp
      ∧ (OMP.update_eta nx ny param s).h = s.h
      ∧ (OMP.update_eta nx ny param s).eta
          = Serial.update_eta nx ny param s.u s.v s.eta s.h_interp)
    ∧ ((OMP.update_velocities nx ny param s).eta = s.eta
      ∧ (OMP.update_velocities nx ny param s).h_interp = s.h_interp
      ∧ (OMP.update_velocities nx ny param s).h = s.h
      ∧ (OMP.update_velocities nx ny param s).u
          = (Serial.update_velocities nx ny param s.u s.v s.eta).1
      ∧ (OMP.update_velocities nx ny param s).v
          = (Serial.update_velocities nx ny param s.u s.v s.eta).2)
    ∧ ((OMP.update_eta nx ny param s).eta.nx = s.eta.nx
      ∧ (OMP.update_velocities nx ny param s).u.nx = s.u.nx
      ∧ (OMP.update_velocities nx ny param s).v.nx = s.v.nx)
    ∧ (∀ k, (∀ i j : Int, 0 ≤ i ∧ i < nx → 0 ≤ j ∧ j < ny → s.eta.nx * j + i ≠ k) →
        (OMP.update_eta nx ny param s).eta.vals k = s.eta.vals k)
    ∧ (∀ k, (∀ i j : Int, 0 ≤ i ∧ i < nx → 0 ≤ j ∧ j < ny → s.u.nx * j + i ≠ k) →
        (OMP.update_velocities nx ny param s).u.vals k = s.u.vals k)
    ∧ (∀ k, (∀ i j : Int, 0 ≤ i ∧ i < nx → 0 ≤ j ∧ j < ny → s.v.nx * j + i ≠ k) →
        (OMP.update_velocities nx ny param s).v.vals k = s.v.vals k)
    ∧ (s.u.nx = nx + 1 → ∀ j : Int, 0 ≤ j ∧ j < ny →
        GET (OMP.update_velocities nx ny param s).u nx j = GET s.u nx j
        ∧ GET (Serial.update_velocities nx ny param s.u s.v s.eta).1 nx j = GET s.u nx j)
    ∧ (s.v.nx = nx → ∀ i : Int, 0 ≤ i ∧ i < nx →
        GET (OMP.update_velocities nx ny param s).v i ny = GET s.v i ny
        ∧ GET (Serial.update_velocities nx ny param s.u s.v s.eta).2 i ny = GET s.v i ny) := by
  obtain ⟨e1, -, -, -, e5⟩ := update_eta_untouched nx ny param s.u s.v s.eta s.h_interp
  obtain ⟨⟨a1, -, -, -, a5⟩, ⟨b1, -, -, -, b5⟩⟩ :=
    update_velocities_untouched nx ny param s.u s.v s.eta
  rw [OMP_update_eta_eq_serial, OMP_update_velocities_eq_serial]
  refine ⟨⟨rfl, rfl, rfl, rfl, rfl⟩, ⟨rfl, rfl, rfl, rfl, rfl⟩, ⟨e1, a1, b1⟩, e5, a5, b5, ?_, ?_⟩
  · intro hu j hj
    have h : GET (Serial.update_velocities nx ny param s.u s.v s.eta).1 nx j
        = GET s.u nx j := by
      unfold GET
      rw [a1]
      refine a5 _ ?_
      intro i' j' hi' hj' e
      rw [hu] at e
      have := flat_index_inj (nx + 1) i' j' nx j ⟨hi'.1, by omega⟩ ⟨by omega, by omega⟩ e
      omega
    exact ⟨h, h⟩
  · intro hv i hi
    have h : GET (Serial.update_velocities nx ny param s.u s.v s.eta).2 i ny
        = GET s.v i ny := by
      unfold GET
      rw [b1]
      refine b5 _ ?_
      intro i' j' hi' hj' e
      rw [hv] at e
      have := flat_index_inj nx i' j' i ny hi' hi e
      omega
    exact ⟨h, h⟩

/-- Witness for `kernels_frame`: on the sample `2 x 2` state `update_velocities` leaves
`u[2,1] = 6` and `v[1,2] = 8`. -/
theorem kernels_frame_witness :
    Sample.state.u.nx = 2 + 1 ∧ Sample.state.v.nx = 2
    ∧ GET (OMP.update_velocities 2 2 (Sample.param 1) Sample.state).u 2 1 = 6
    ∧ GET (Serial.update_velocities 2 2 (Sample.param 1) Sample.state.u Sample.state.v
        Sample.state.eta).2 1 2 = 8
    ∧ (OMP.update_eta 2 2 (Sample.param 1) Sample.state).u = Sample.state.u := by
  have h := kernels_frame 2 2 (Sample.param 1) Sample.state
  refine ⟨rfl, rfl, ?_, ?_, h.1.1⟩
  · rw [(h.2.2.2.2.2.2.1 rfl 1 (by decide)).1]
    norm_num [GET, Sample.state, Sample.field, Int.toNat]
  · rw [(h.2.2.2.2.2.2.2 rfl 1 (by decide)).2]
    norm_num [GET, Sample.state, Sample.field, Int.toNat]

/-! ## C22: the serial and the OMP program agree on a type 1 step -/

/-- The type 1 sweep keeps the headers of `u` and `v`. -/
theorem source1_foldl_header {α : Type} [Field α] (nx ny : Int) (val : α)
    (l : List (Int × Int)) (s : all_data_t α) :
    ((l.foldl (fun s p => OMP.source1_body nx ny val p.1 p.2 s) s).u.ny = s.u.ny
      ∧ (l.foldl (fun s p => OMP.source1_body nx ny val p.1 p.2 s) s).u.dx = s.u.dx
      ∧ (l.foldl (fun s p => OMP.source1_body nx ny val p.1 p.2 s) s).u.dy = s.u.dy)
    ∧ ((l.foldl (fun s p => OMP.source1_body nx ny val p.1 p.2 s) s).v.ny = s.v.ny
      ∧ (l.foldl (fun s p => OMP.source1_body nx ny val p.1 p.2 s) s).v.dx = s.v.dx
      ∧ (l.foldl (fun s p => OMP.source1_body nx ny val p.1 p.2 s) s).v.dy = s.v.dy) := by
  induction l generalizing s with
  | nil => exact ⟨⟨rfl, rfl, rfl⟩, ⟨rfl, rfl, rfl⟩⟩
  | cons p l ih => exact ih _

/-- Two states with the same fields are equal. -/
theorem all_data_ext {α : Type} (a b : all_data_t α) (h1 : a.u = b.u) (h2 : a.v = b.v)
    (h3 : a.eta = b.eta) (h4 : a.h = b.h) (h5 : a.h_interp = b.h_interp) : a = b := by
  cases a
  cases b
  simp only [all_data_t.mk.injEq]
  exact ⟨h1, h2, h3, h4, h5⟩

/-- The type 1 sweep over two lists with the same iterations leaves the same state,
provided no iteration writes the forcing value where another writes the zero of the
bottom row. -/
theorem source1_foldl_congr {α : Type} [Field α] (nx ny : Int) (val : α)
    (l l' : List (Int × Int)) (s : all_data_t α) (hmem : ∀ p, p ∈ l ↔ p ∈ l')
    (hsep : ∀ p ∈ l', ∀ q ∈ l', s.v.nx * ny + p.1 ≠ s.v.nx * 0 + q.1) :
    l.foldl (fun s p => OMP.source1_body nx ny val p.1 p.2 s) s
      = l'.foldl (fun s p => OMP.source1_body nx ny val p.1 p.2 s) s := by
  obtain ⟨f1, f2, f3, f4, f5⟩ := source1_foldl_frame nx ny val l s
  obtain ⟨g1, g2, g3, g4, g5⟩ := source1_foldl_frame nx ny val l' s
  obtain ⟨⟨a1, a2, a3⟩, ⟨a4, a5, a6⟩⟩ := source1_foldl_header nx ny val l s
  obtain ⟨⟨b1, b2, b3⟩, ⟨b4, b5, b6⟩⟩ := source1_foldl_header nx ny val l' s
  refine all_data_ext _ _ ?_ ?_ (f3.trans g3.symm) (f5.trans g5.symm) (f4.trans g4.symm)
  · refine data_ext _ _ ?_ (f1.trans g1.symm) (a1.trans b1.symm) (a2.trans b2.symm)
      (a3.trans b3.symm)
    funext k
    obtain ⟨u1, u2, -, -, -⟩ := source1_foldl_vals nx ny val l s k
    obtain ⟨w1, w2, -, -, -⟩ := source1_foldl_vals nx ny val l' s k
    by_cases hk : ∃ p ∈ l', k = s.u.nx * p.2 + nx ∨ k = s.u.nx * p.2 + 0
    · obtain ⟨p, hp, e⟩ := hk
      rw [u1 ⟨p, (hmem p).mpr hp, e⟩, w1 ⟨p, hp, e⟩]
    · have hk' : ∀ p ∈ l', k ≠ s.u.nx * p.2 + nx ∧ k ≠ s.u.nx * p.2 + 0 := by
        intro p hp
        constructor
        · intro e
          exact hk ⟨p, hp, Or.inl e⟩
        · intro e
          exact hk ⟨p, hp, Or.inr e⟩
      rw [u2 (fun p hp => hk' p ((hmem p).mp hp)), w2 hk']
  · refine data_ext _ _ ?_ (f2.trans g2.symm) (a4.trans b4.symm) (a5.trans b5.symm)
      (a6.trans b6.symm)
    funext k
    obtain ⟨-, -, v1, v2, v3⟩ := source1_foldl_vals nx ny val l s k
    obtain ⟨-, -, w1, w2, w3⟩ := source1_foldl_vals nx ny val l' s k
    by_cases ht : ∃ p ∈ l', k = s.v.nx * ny + p.1
    · obtain ⟨p, hp, e⟩ := ht
      have hnb : ∀ q ∈ l', k ≠ s.v.nx * 0 + q.1 := by
        intro q hq e'
        exact hsep p hp q hq (e.symm.trans e')
      rw [v1 ⟨p, (hmem p).mpr hp, e⟩ (fun q hq => hnb q ((hmem q).mp hq)),
        w1 ⟨p, hp, e⟩ hnb]
    · have hnt : ∀ p ∈ l', k ≠ s.v.nx * ny + p.1 := fun p hp e => ht ⟨p, hp, e⟩
      by_cases hb : ∃ p ∈ l', k = s.v.nx * 0 + p.1
      · obtain ⟨p, hp, e⟩ := hb
        rw [v2 ⟨p, (hmem p).mpr hp, e⟩ (fun q hq => hnt q ((hmem q).mp hq)),
          w2 ⟨p, hp, e⟩ hnt]
      · have hnb : ∀ p ∈ l', k ≠ s.v.nx * 0 + p.1 := fun p hp e => hb ⟨p, hp, e⟩
        rw [v3 (fun p hp => ⟨hnt p ((hmem p).mp hp), hnb p ((hmem p).mp hp)⟩),
          w3 (fun p hp => ⟨hnt p hp, hnb p hp⟩)]

/-- For `v` of width `nx` the type 1 sweep in any order of its iterations leaves the
state that the sequential sweep leaves. -/
theorem source1_sched_eq {α : Type} [Field α] (nx ny : Int) (val : α) (s : all_data_t α)
    (hv : s.v.nx = nx) (sched : List (Int × Int)) (hperm : sched.Perm (iter_space nx ny)) :
    OMP.source1_sched sched nx ny val s
      = (iter_space nx ny).foldl (fun s p => OMP.source1_body nx ny val p.1 p.2 s) s := by
  unfold OMP.source1_sched
  refine source1_foldl_congr nx ny val sched (iter_space nx ny) s (fun p => hperm.mem_iff) ?_
  intro p hp q hq e
  rw [mem_iter_space] at hp hq
  rw [hv] at e
  have := flat_index_inj nx p.1 ny q.1 0 hp.1 hq.1 e
  omega

/-- The three sweeps of a type 1 step of the OMP program, run in their sequential
order, are the three calls of the step. -/
theorem type1_step_sequential {α : Type} [Field α] (sin sqrt : α → α) (M_PI : α)
    (n nx ny : Int) (param : parameters α) (s : all_data_t α) (h1 : param.source_type = 1) :
    OMP.boundary_condition sin sqrt M_PI n nx ny param s
      = Except.ok (OMP.source1_sched (iter_space nx ny) nx ny
          (5 * sin (2 * M_PI * (1 / 20) * ((n : α) * param.dt))) s)
    ∧ OMP.type1_step_sched sin M_PI n nx ny param (iter_space nx ny) (iter_space nx ny)
        (iter_space nx ny) s
      = OMP.update_velocities nx ny param (OMP.update_eta nx ny param
          (OMP.source1_sched (iter_space nx ny) nx ny
            (5 * sin (2 * M_PI * (1 / 20) * ((n : α) * param.dt))) s)) := by
  refine ⟨boundary_type1_OMP_eq sin sqrt M_PI n nx ny param s h1, ?_⟩
  unfold OMP.type1_step_sched OMP.update_velocities OMP.update_eta
    OMP.update_velocities_sched OMP.update_eta_sched
  rw [loop_nest_eq_foldl, loop_nest_eq_foldl]

/-- For fields laid out as `main` builds them, the three sweeps of a type 1 step of the
OMP program, each run in any order of its iterations, leave the state that their
sequential order leaves. -/
theorem type1_step_any_order {α : Type} [Field α] (sin : α → α) (M_PI : α) (n nx ny : Int)
    (param : parameters α) (s : all_data_t α) (heta : s.eta.nx = nx) (hu : s.u.nx = nx + 1)
    (hv : s.v.nx = nx) (sched_b sched_e sched_v : List (Int × Int))
    (hb : sched_b.Perm (iter_space nx ny)) (he : sched_e.Perm (iter_space nx ny))
    (hvel : sched_v.Perm (iter_space nx ny)) :
    OMP.type1_step_sched sin M_PI n nx ny param sched_b sched_e sched_v s
      = OMP.type1_step_sched sin M_PI n nx ny param (iter_space nx ny) (iter_space nx ny)
          (iter_space nx ny) s := by
  have key : ∀ (sb se sv : List (Int × Int)), sb.Perm (iter_space nx ny) →
      se.Perm (iter_space nx ny) → sv.Perm (iter_space nx ny) →
      OMP.type1_step_sched sin M_PI n nx ny param sb se sv s
        = update_velocities_from_pre nx ny param (update_eta_from_pre nx ny param
            ((iter_space nx ny).foldl (fun s p => OMP.source1_body nx ny
              (5 * sin (2 * M_PI * (1 / 20) * ((n : α) * param.dt))) p.1 p.2 s) s)) := by
    intro sb se sv pb pe pv
    obtain ⟨f1, f2, f3, -, -⟩ := source1_foldl_frame nx ny
      (5 * sin (2 * M_PI * (1 / 20) * ((n : α) * param.dt))) (iter_space nx ny) s
    unfold OMP.type1_step_sched
    simp only
    rw [source1_sched_eq nx ny _ s hv sb pb,
      update_eta_sched_eq_from_pre nx ny param _ (by rw [f3]; exact heta) se pe,
      update_velocities_sched_eq_from_pre nx ny param _
        (show (update_eta_from_pre nx ny param _).u.nx = nx + 1 from f1.trans hu)
        (show (update_eta_from_pre nx ny param _).v.nx = nx from f2.trans hv) sv pv]
  rw [key sched_b sched_e sched_v hb he hvel,
    key _ _ _ (List.Perm.refl _) (List.Perm.refl _) (List.Perm.refl _)]

/-- For `source_type = 1` an iteration of the time-step loop of the serial `main` and
one of the OMP `main` leave the same run, and if the progress test is defined
(`n = 0` or `nt / 10 ≠ 0`) the fields they leave are those of the three calls of the
OMP step. -/
theorem main_step_type1 {α : Type} [Field α] (sin sqrt : α → α) (M_PI : α)
    (nx ny nt : Int) (param : parameters α) (n : Int) (r : run α)
    (h1 : param.source_type = 1) :
    Serial.main_step sin M_PI nx ny nt param n r
      = OMP.main_step sin sqrt M_PI nx ny nt param n r
    ∧ ((n = 0 ∨ Int.tdiv nt 10 ≠ 0) →
      (OMP.main_step sin sqrt M_PI nx ny nt param n r).all_data
        = OMP.update_velocities nx ny param (OMP.update_eta nx ny param
            (OMP.source1_sched (iter_space nx ny) nx ny
              (5 * sin (2 * M_PI * (1 / 20) * ((n : α) * param.dt))) r.all_data))) := by
  have hO := boundary_type1_OMP_eq sin sqrt M_PI n nx ny param r.all_data h1
  have hS := (boundary_type1_serial_eq_OMP sin sqrt M_PI n nx ny param r.all_data h1).trans hO
  constructor
  · unfold Serial.main_step OMP.main_step
    by_cases htrap : n ≠ 0 ∧ Int.tdiv nt 10 = 0
    · rw [if_pos htrap, if_pos htrap]
    · rw [if_neg htrap, if_neg htrap]
      by_cases hp : n ≠ 0 ∧ Int.tmod n (Int.tdiv nt 10) = 0
      · by_cases hw : param.sampling_rate ≠ 0 ∧ Int.tmod n param.sampling_rate = 0
        · simp only [if_pos hp, if_pos hw, hS, hO]
          rw [OMP_update_velocities_eq_serial, OMP_update_eta_eq_serial]
        · simp only [if_pos hp, if_neg hw, hS, hO]
          rw [OMP_update_velocities_eq_serial, OMP_update_eta_eq_serial]
      · by_cases hw : param.sampling_rate ≠ 0 ∧ Int.tmod n param.sampling_rate = 0
        · simp only [if_neg hp, if_pos hw, hS, hO]
          rw [OMP_update_velocities_eq_serial, OMP_update_eta_eq_serial]
        · simp only [if_neg hp, if_neg hw, hS, hO]
          rw [OMP_update_velocities_eq_serial, OMP_update_eta_eq_serial]
  · intro hdef
    have htrap : ¬ (n ≠ 0 ∧ Int.tdiv nt 10 = 0) := by tauto
    unfold OMP.main_step OMP.source1_sched
    rw [if_neg htrap]
    by_cases hp : n ≠ 0 ∧ Int.tmod n (Int.tdiv nt 10) = 0
    · by_cases hw : param.sampling_rate ≠ 0 ∧ Int.tmod n param.sampling_rate = 0
      · simp only [if_pos hp, if_pos hw, hO]
      · simp only [if_pos hp, if_neg hw, hO]
    · by_cases hw : param.sampling_rate ≠ 0 ∧ Int.tmod n param.sampling_rate = 0
      · simp only [if_neg hp, if_pos hw, hO]
      · simp only [if_neg hp, if_neg hw, hO]

/-- C22 (the serial and the OMP program agree on a type 1 step).  For `source_type = 1`,
every `nx`, `ny`, every step `n` and every run state: an iteration of the time-step
loop of the serial `main` and one of the OMP `main` leave the same run (fields, output
and termination); the injection of both programs returns the same fields `s1`, on which
the serial `update_eta` and `update_velocities` return the `eta`, `u` and `v` of the
OMP `update_eta` and `update_velocities`; these are the fields of the OMP iteration
when its progress test is defined (`n = 0` or `nt / 10 ≠ 0`); and for fields laid out as
`main` builds them (`eta` of width `nx`, `u` of width `nx + 1`, `v` of width `nx`) the
three parallel loops of the OMP step, each run in any order of its iterations, leave
these fields too. -/
theorem serial_OMP_type1_step {α : Type} [Field α] (sin sqrt : α → α) (M_PI : α)
    (nx ny nt : Int) (param : parameters α) (n : Int) (r : run α)
    (h1 : param.source_type = 1) :
    Serial.main_step sin M_PI nx ny nt param n r
      = OMP.main_step sin sqrt M_PI nx ny nt param n r
    ∧ ∃ s1 : all_data_t α,
      Serial.main_boundary sin M_PI n nx ny param r.all_data = Except.ok s1
      ∧ OMP.boundary_condition sin sqrt M_PI n nx ny param r.all_data = Except.ok s1
      ∧ Serial.update_eta nx ny param s1.u s1.v s1.eta s1.h_interp
          = (OMP.update_velocities nx ny param (OMP.update_eta nx ny param s1)).eta
      ∧ Serial.update_velocities nx ny param s1.u s1.v
            (Serial.update_eta nx ny param s1.u s1.v s1.eta s1.h_interp)
          = ((OMP.update_velocities nx ny param (OMP.update_eta nx ny param s1)).u,
             (OMP.update_velocities nx ny param (OMP.update_eta nx ny param s1)).v)
      ∧ ((n = 0 ∨ Int.tdiv nt 10 ≠ 0) →
          (Serial.main_step sin M_PI nx ny nt param n r).all_data
              = OMP.update_velocities nx ny param (OMP.update_eta nx ny param s1)
          ∧ (OMP.main_step sin sqrt M_PI nx ny nt param n r).all_data
              = OMP.update_velocities nx ny param (OMP.update_eta nx ny param s1))
      ∧ (r.all_data.eta.nx = nx → r.all_data.u.nx = nx + 1 → r.all_data.v.nx = nx →
          ∀ sched_b sched_e sched_v : List (Int × Int),
          sched_b.Perm (iter_space nx ny) → sched_e.Perm (iter_space nx ny) →
          sched_v.Perm (iter_space nx ny) →
          OMP.type1_step_sched sin M_PI n nx ny param sched_b sched_e sched_v r.all_data
            = OMP.update_velocities nx ny param (OMP.update_eta nx ny param s1)) := by
  obtain ⟨hA, hstep⟩ := main_step_type1 sin sqrt M_PI nx ny nt param n r h1
  obtain ⟨hO, hseq⟩ := type1_step_sequential sin sqrt M_PI n nx ny param r.all_data h1
  have hS := (boundary_type1_serial_eq_OMP sin sqrt M_PI n nx ny param r.all_data h1).trans hO
  refine ⟨hA, _, hS, hO, ?_, ?_, ?_, ?_⟩
  · rw [OMP_update_velocities_eq_serial, OMP_update_eta_eq_serial]
  · rw [OMP_update_velocities_eq_serial, OMP_update_eta_eq_serial]
  · intro hdef
    exact ⟨(congrArg run.all_data hA).trans (hstep hdef), hstep hdef⟩
  · intro heta hu hv sb se sv pb pe pv
    rw [type1_step_any_order sin M_PI n nx ny param r.all_data heta hu hv sb se sv pb pe pv]
    exact hseq

/-- Witness for `serial_OMP_type1_step`: step 3 of 20 on the sample `2 x 2` state, with
the identity in place of `sin` and `sqrt` and 3 in place of `M_PI`; the serial iteration
leaves the run of the OMP iteration, and its fields are those of the OMP step with
every parallel loop run in the reverse of its sequential order. -/
theorem serial_OMP_type1_step_witness :
    (Sample.param 1).source_type = 1
    ∧ Serial.main_step (fun x => x) 3 2 2 20 (Sample.param 1) 3
        { all_data := Sample.state, out := [], halted := none }
      = OMP.main_step (fun x => x) (fun x => x) 3 2 2 20 (Sample.param 1) 3
        { all_data := Sample.state, out := [], halted := none }
    ∧ (Serial.main_step (fun x => x) 3 2 2 20 (Sample.param 1) 3
        { all_data := Sample.state, out := [], halted := none }).all_data
      = OMP.type1_step_sched (fun x => x) 3 3 2 2 (Sample.param 1) (iter_space 2 2).reverse
          (iter_space 2 2).reverse (iter_space 2 2).reverse Sample.state := by
  obtain ⟨hA, s1, -, -, -, -, hstep, hany⟩ := serial_OMP_type1_step (fun x => x) (fun x => x)
    3 2 2 20 (Sample.param 1) 3 { all_data := Sample.state, out := [], halted := none } rfl
  refine ⟨rfl, hA, ?_⟩
  rw [(hstep (Or.inr (by decide))).1]
  exact (hany rfl rfl rfl _ _ _ (List.reverse_perm _) (List.reverse_perm _)
    (List.reverse_perm _)).symm
